import Mathlib

/-!
# mckit `shape.c`: three-valued CSG classification

A shallow embedding of `src/mckit/src/shape.c` (with the declarations of
`src/mckit/src/shape.h`).

Modelling conventions.

* C `char` / `int` classification values are `Int` (signed, not cut to the
  width of the C type); `size_t` and the `uint64_t` subdivision code are `Nat`.
  Where the source reads an `int` array through a `char *`, or converts a
  `double` to `int`, the 32-bit little-endian `int` and the signed `char` of
  x86-64 are used.
* An array argument is a `List Int`; reading a cell that does not exist, or a
  loop that never leaves, makes the embedded function return `none`.
* `double` quantities of `Box` are rationals.
* External collaborators that are not part of the sources (`surface_test_box`,
  `surface_test_points`, `box_is_in`, `malloc`) are parameters of the
  definitions that call them.
* A shape owns its children (a tree): two parents never share a child node.
* A recursion or a `while` loop that the source does not bound takes a bound
  (a `Nat`) on its nesting depth or on its number of iterations and returns
  `none` when the bound is used up; termination is proved as the existence of
  a bound that gives a result.
* A stateful function returns the state it leaves behind together with its
  value; `shape_test_box` also returns the list of the `surface_test_box`
  calls it made, so that calls can be counted.
-/

namespace Mckit

/-! ## Constants of `shape.h` -/

/-- Value of `BOX_INSIDE_SHAPE`. -/
def BOX_INSIDE_SHAPE : Int := 1
/-- Value of `BOX_CAN_INTERSECT_SHAPE`. -/
def BOX_CAN_INTERSECT_SHAPE : Int := 0
/-- Value of `BOX_OUTSIDE_SHAPE`. -/
def BOX_OUTSIDE_SHAPE : Int := -1

/-- Value of `SHAPE_SUCCESS`. -/
def SHAPE_SUCCESS : Int := 0
/-- Value of `SHAPE_FAILURE`. -/
def SHAPE_FAILURE : Int := -1
/-- Value of `SHAPE_NO_MEMORY`. -/
def SHAPE_NO_MEMORY : Int := -2
/-- Value of `SHAPE_WRONG_ARGLENGTH`. -/
def SHAPE_WRONG_ARGLENGTH : Int := -3

/-- Modelled from the spec: the constant `NODE_SUCCESS` returned by
`shape_test_points` and `shape_bounding_box` is not declared in the sources;
the spec lists the success status as `SUCCESS(0)`. -/
def NODE_SUCCESS : Int := 0

/-- The `enum Operation` of `shape.h`, in declaration order (values 0..5). -/
inductive Operation
  | INTERSECTION
  | COMPLEMENT
  | EMPTY
  | UNION
  | IDENTITY
  | UNIVERSE
  deriving DecidableEq, Repr

open Operation

/-- The macro `is_final(opc)`. -/
def is_final (opc : Operation) : Bool := opc = COMPLEMENT || opc = IDENTITY
/-- The macro `is_void(opc)`. -/
def is_void (opc : Operation) : Bool := opc = EMPTY || opc = UNIVERSE
/-- The macro `is_composite(opc)`. -/
def is_composite (opc : Operation) : Bool := opc = UNION || opc = INTERSECTION

/-! ## Operation functions -/

/-- The macro `geom_complement(arg)`, `(-1 * (arg))`. -/
def geom_complement (arg : Int) : Int := -1 * arg

/-- The `for (i = 0; i < n; i += inc)` loop of `geom_intersection`, entered at
index `i` with the current `result`. The first argument bounds the number of
iterations; `none` is returned when a cell outside `args` is read or when the
bound is used up with `i < n` still true. -/
def geom_intersection_loop (args : List Int) (n inc : Nat) : Nat → Nat → Int → Option Int
  | 0, i, result => if i < n then none else some result
  | fuel + 1, i, result =>
    if i < n then
      match args[i]? with
      | none => none
      | some v =>
        if v = 0 then geom_intersection_loop args n inc fuel (i + inc) 0
        else if v = -1 then some (-1)
        else geom_intersection_loop args n inc fuel (i + inc) result
    else some result

/-- The function `char geom_intersection(char * args, size_t n, size_t inc)`. With
`inc ≥ 1` the loop makes at most `n` iterations, so `n` iterations of fuel are
exact; with `inc = 0` the C loop leaves only through `break`. -/
def geom_intersection (args : List Int) (n inc : Nat) : Option Int :=
  geom_intersection_loop args n inc n 0 1

/-- The `for (i = 0; i < n; i += inc)` loop of `geom_union`. -/
def geom_union_loop (args : List Int) (n inc : Nat) : Nat → Nat → Int → Option Int
  | 0, i, result => if i < n then none else some result
  | fuel + 1, i, result =>
    if i < n then
      match args[i]? with
      | none => none
      | some v =>
        if v = 0 then geom_union_loop args n inc fuel (i + inc) 0
        else if v = 1 then some 1
        else geom_union_loop args n inc fuel (i + inc) result
    else some result

/-- The function `char geom_union(char * args, size_t n, size_t inc)`. -/
def geom_union (args : List Int) (n inc : Nat) : Option Int :=
  geom_union_loop args n inc n 0 (-1)

/-! ## Data model -/

/-- The fields of the external `Box` that `shape.c` reads: the subdivision
code `subdiv` (`uint64_t`), the `volume` and the three `dims`. -/
structure Box where
  subdiv : Nat
  volume : ℚ
  dims : Fin 3 → ℚ

/-- The `struct Shape` of `shape.h`. `args` is a `void *` that the code reads
as a `Surface` when the opcode is final and as the array of child shapes when
it is composite: the embedding keeps one slot for each reading (`surface`,
`args`). `alen` is the length of the child array, as `shape_init` builds it.
`last_box`, `last_box_result` are the memo of the last box test and `stats`
the table of accumulated volumes by signature. Children are owned subtrees. -/
inductive Shape (S : Type) where
  | mk (opc : Operation) (surface : S) (args : List (Shape S))
      (last_box : Nat) (last_box_result : Int) (stats : List (List Int × ℚ))

namespace Shape

variable {S : Type}

/-- Field `opc`. -/
def opc : Shape S → Operation
  | mk o _ _ _ _ _ => o
/-- The surface that `args` points to when the opcode is final. -/
def surface : Shape S → S
  | mk _ s _ _ _ _ => s
/-- The child shapes that `args` points to when the opcode is composite. -/
def args : Shape S → List (Shape S)
  | mk _ _ a _ _ _ => a
/-- Field `alen`. -/
def alen (s : Shape S) : Nat := s.args.length
/-- Field `last_box`. -/
def last_box : Shape S → Nat
  | mk _ _ _ b _ _ => b
/-- Field `last_box_result`. -/
def last_box_result : Shape S → Int
  | mk _ _ _ _ r _ => r
/-- Field `stats`. -/
def stats : Shape S → List (List Int × ℚ)
  | mk _ _ _ _ _ t => t

end Shape

/-- What one call of `shape_test_box` leaves behind: the value returned, the
shape with its memo fields as the call left them, and the calls made to
`surface_test_box`, in order. -/
structure BoxTest (S : Type) where
  result : Int
  shape : Shape S
  calls : List (S × Box)

/-- What the child loop of `shape_test_box` leaves behind: the array `sub`,
the children as the calls left them, and the calls made to
`surface_test_box`. -/
structure BoxTests (S : Type) where
  sub : List Int
  shapes : List (Shape S)
  calls : List (S × Box)

/-- The test at the head of `shape_test_box` that returns the memoised
result: `last_box != 0` and, with `bc = box_is_in(box, last_box)`,
`bc == 0 || bc > 0 && last_box_result != BOX_CAN_INTERSECT_SHAPE`. -/
def memo_hit (box_is_in : Box → Nat → Int) (last_box : Nat) (last_box_result : Int)
    (box : Box) : Bool :=
  last_box != 0 &&
    (box_is_in box last_box == 0 ||
      (decide (box_is_in box last_box > 0) && last_box_result != BOX_CAN_INTERSECT_SHAPE))

mutual
/-- The function `int shape_test_box(Shape * shape, const Box * box, char collect)`.
`surface_test_box` and `box_is_in` are the external classifiers. The block
that would record statistics is commented out in the source, so `stats` is
carried along unchanged. `none` only when a combining function returns
`none`. -/
def shape_test_box {S : Type} (surface_test_box : S → Box → Int)
    (box_is_in : Box → Nat → Int) : Shape S → Box → Int → Option (BoxTest S)
  | .mk opc surface args last_box last_box_result stats, box, collect =>
    if memo_hit box_is_in last_box last_box_result box then
      some ⟨last_box_result, .mk opc surface args last_box last_box_result stats, []⟩
    else if is_final opc then
      let result := surface_test_box surface box
      let result := if opc = COMPLEMENT then geom_complement result else result
      some ⟨result, .mk opc surface args box.subdiv result stats, [(surface, box)]⟩
    else if opc = UNIVERSE then
      some ⟨BOX_INSIDE_SHAPE, .mk opc surface args box.subdiv BOX_INSIDE_SHAPE stats, []⟩
    else if opc = EMPTY then
      some ⟨BOX_OUTSIDE_SHAPE, .mk opc surface args box.subdiv BOX_OUTSIDE_SHAPE stats, []⟩
    else
      match shape_test_box_args surface_test_box box_is_in args box collect with
      | none => none
      | some t =>
        match (if opc = INTERSECTION then geom_intersection t.sub args.length 1
               else geom_union t.sub args.length 1) with
        | none => none
        | some result =>
          some ⟨result, .mk opc surface t.shapes box.subdiv result stats, t.calls⟩
/-- The loop `for (i = 0; i < shape->alen; ++i) sub[i] = shape_test_box(shape->args[i], box, collect)`
over the children that remain. -/
def shape_test_box_args {S : Type} (surface_test_box : S → Box → Int)
    (box_is_in : Box → Nat → Int) : List (Shape S) → Box → Int → Option (BoxTests S)
  | [], _, _ => some ⟨[], [], []⟩
  | c :: cs, box, collect =>
    match shape_test_box surface_test_box box_is_in c box collect with
    | none => none
    | some r =>
      match shape_test_box_args surface_test_box box_is_in cs box collect with
      | none => none
      | some t => some ⟨r.result :: t.sub, r.shape :: t.shapes, r.calls ++ t.calls⟩
end

/-! ## Point classification -/

/-- The loop `for (i = 0; i < npts; ++i) result[i] = f(i)`, where `result`
points at cell `off` of the buffer `buf`. `none` when some `f i` is `none`. -/
def store_loop (f : Nat → Option Int) (off : Nat) : Nat → List Int → Option (List Int)
  | 0, buf => some buf
  | i + 1, buf =>
    match store_loop f off i buf with
    | none => none
    | some b =>
      match f i with
      | none => none
      | some v => some (b.set (off + i) v)

/-- Modelled from the spec: `surface_test_points` belongs to the Surface
collaborator, whose code is not part of the sources. The spec gives its
interface as `classify_points(points, n) -> array of {-1,+1}`: it writes, for
each `j < npts`, the surface's value `surface_point surface points j` of point
`j` into `result[j]`. -/
def surface_test_points {S P : Type} (surface_point : S → P → Nat → Int) (surface : S)
    (npts : Nat) (points : P) (buf : List Int) (off : Nat) : Option (List Int) :=
  store_loop (fun j => some (surface_point surface points j)) off npts buf

/-- Byte `k` (0 is the lowest) of the `int` value `v`, as the `char` the
combining functions read: the 32-bit two's complement representation of `v`,
bytes in little-endian order, each byte taken as a signed `char`. -/
def int_byte (v : Int) (k : Nat) : Int :=
  let b : Int := (v % 4294967296) / (256 ^ k) % 256
  if b < 128 then b else b - 256

/-- An `int` array seen through a `char *`: its bytes in memory order. The
combining functions `geom_intersection` and `geom_union` take a `char *`, and
`shape_test_points` hands them its `int` array `sub`. -/
def char_view (cells : List Int) : List Int :=
  cells.flatMap (fun v => [int_byte v 0, int_byte v 1, int_byte v 2, int_byte v 3])

/-- The outcome of the `k`-th call of `malloc`: `none` for `NULL`, otherwise
the content the fresh cells hold before anything is written to them. -/
abbrev Malloc := Nat → Option (Nat → Int)

/-- What one call of `shape_test_points` leaves behind: the status returned,
the buffer that `result` points into, and the number of `malloc` calls made
so far. -/
structure PointsTest where
  status : Int
  buf : List Int
  mallocs : Nat

mutual
/-- The function
`int shape_test_points(const Shape * shape, size_t npts, const double * points, int * result)`.
`result` points at cell `off` of `buf`; `k` counts the `malloc` calls made
before this one. The field read as `shape->len` is `alen`. The loop that
negates for COMPLEMENT reads each cell before it writes it, so the value read
is the one `surface_test_points` left there. The scratch array `sub` is an
`int` array that the call `(*op)(sub, n * npts, npts)` passes as the `char *`
argument, so the combining function reads the bytes `0, npts, 2 * npts, ...`
of `sub` (`char_view`), and the `char` it returns is stored in the `int`
cell `result[i]`. -/
def shape_test_points {S P : Type} (surface_point : S → P → Nat → Int) (malloc : Malloc) :
    Shape S → Nat → P → List Int → Nat → Nat → Option PointsTest
  | .mk opc surface args _ _ _, npts, points, buf, off, k =>
    if is_final opc then
      match surface_test_points surface_point surface npts points buf off with
      | none => none
      | some b =>
        match (if opc = COMPLEMENT then
                 store_loop (fun i => (b[off + i]?).map geom_complement) off npts b
               else some b) with
        | none => none
        | some b1 => some ⟨NODE_SUCCESS, b1, k⟩
    else if is_void opc then
      let fill : Int := if opc = UNIVERSE then 1 else -1
      match store_loop (fun _ => some fill) off npts buf with
      | none => none
      | some b => some ⟨NODE_SUCCESS, b, k⟩
    else
      let n := args.length
      match malloc k with
      | none => some ⟨SHAPE_NO_MEMORY, buf, k + 1⟩
      | some cells =>
        let sub := (List.range (n * npts)).map cells
        match shape_test_points_args surface_point malloc args npts points sub 0 (k + 1) with
        | none => none
        | some (sub1, k1) =>
          match store_loop
              (fun _ => if opc = INTERSECTION
                          then geom_intersection (char_view sub1) (n * npts) npts
                        else geom_union (char_view sub1) (n * npts) npts) off npts buf with
          | none => none
          | some b => some ⟨NODE_SUCCESS, b, k1⟩
/-- The loop `for (i = 0; i < n; ++i) shape_test_points(shape->args[i], npts, points, sub + i * npts)`
over the children that remain, child number `i` first; the status each call
returns is dropped, as in the source. -/
def shape_test_points_args {S P : Type} (surface_point : S → P → Nat → Int) (malloc : Malloc) :
    List (Shape S) → Nat → P → List Int → Nat → Nat → Option (List Int × Nat)
  | [], _, _, sub, _, k => some (sub, k)
  | c :: cs, npts, points, sub, i, k =>
    match shape_test_points surface_point malloc c npts points sub (i * npts) k with
    | none => none
    | some r =>
      shape_test_points_args surface_point malloc cs npts points r.buf (i + 1) r.mallocs
end

/-! ## Auxiliary definitions used in the statements and proofs -/

/-- Value the scan of `geom_intersection` reaches on the cells `l` that remain
when it holds `result`. -/
def inter_scan (result : Int) : List Int → Int
  | [] => result
  | v :: t => if v = 0 then inter_scan 0 t else if v = -1 then -1 else inter_scan result t

/-- Value the scan of `geom_union` reaches on the cells `l` that remain when
it holds `result`. -/
def union_scan (result : Int) : List Int → Int
  | [] => result
  | v :: t => if v = 0 then union_scan 0 t else if v = 1 then 1 else union_scan result t

/-- The child loop of `shape_test_box` written as the list `rs` of the
separate calls, one for each child: the array `sub` of their results, the
children as the calls left them, and their calls of `surface_test_box` in
order. -/
def gather {S : Type} (rs : List (BoxTest S)) : BoxTests S :=
  ⟨rs.map BoxTest.result, rs.map BoxTest.shape, (rs.map BoxTest.calls).flatten⟩

/-- Modelled from the spec: `box_is_in` belongs to the Box collaborator, whose
code is not part of the sources. The spec describes the subdivision address as
the position of a box in a binary-split hierarchy and the predicate as
yielding equal, strict subset or unrelated. `descends a b` tells whether
address `b` lies strictly below the address `a ≠ 0` when the halves of the box
at address `x` have the addresses `2 * x` and `2 * x + 1`, that is, whether
dropping some `k + 1` low binary digits of `b` gives `a`. -/
def descends (a b : Nat) : Bool :=
  a != 0 && (List.range b).any (fun k => b / 2 ^ (k + 1) == a)

/-- Modelled from the spec: the containment predicate `box_is_in(box, out_subdiv)`
of the Box collaborator for the addresses of one hierarchy: `0` when the box
has address `out_subdiv`, `+1` when it lies strictly inside the box of that
address, `-1` otherwise. -/
def subdiv_box_is_in (box : Box) (out_subdiv : Nat) : Int :=
  if box.subdiv = out_subdiv then 0
  else if descends out_subdiv box.subdiv then 1 else -1

/-- A Surface stub for concrete runs: the surface `s` classifies every box
as `s`. -/
def stub_surface_test_box (s : Int) (_ : Box) : Int := s

/-- A box of the hierarchy with the given subdivision address (unit volume
and dimensions, which the box classifier does not read). -/
def stub_box (subdiv : Nat) : Box := ⟨subdiv, 1, fun _ => 1⟩

mutual
/-- Invariant of the memo fields that `shape_test_box` maintains from cleared
memos: a node whose memo holds a box (`last_box ≠ 0`) with the result
AMBIGUOUS is final, or is composite with a child whose memo holds the same
address and the result AMBIGUOUS; and the same holds below. -/
def memo_ok {S : Type} : Shape S → Bool
  | .mk opc _ args lb lbr _ =>
    (lb == 0 || lbr != 0 || is_final opc ||
      (is_composite opc && args.any (fun c => c.last_box == lb && c.last_box_result == 0)))
    && memo_ok_args args
/-- The invariant `memo_ok` on every shape of a list. -/
def memo_ok_args {S : Type} : List (Shape S) → Bool
  | [] => true
  | c :: cs => memo_ok c && memo_ok_args cs
end

mutual
/-- The shape with every memo cleared (`last_box = 0`), as `shape_reset_cache`
is declared to leave it. -/
def clear_memo {S : Type} : Shape S → Shape S
  | .mk opc surface args _ _ stats => .mk opc surface (clear_memo_args args) 0 0 stats
/-- The shapes of a list with every memo cleared. -/
def clear_memo_args {S : Type} : List (Shape S) → List (Shape S)
  | [] => []
  | c :: cs => clear_memo c :: clear_memo_args cs
end

mutual
/-- The reference value of point `j` under a shape, in the words of the spec:
IDENTITY is the Surface's value for the point, COMPLEMENT its negation,
UNIVERSE `+1`, EMPTY `-1`, INTERSECTION `geom_intersection` of the children's
values for the point, UNION `geom_union` of them. -/
def point_reference {S P : Type} (surface_point : S → P → Nat → Int) :
    Shape S → P → Nat → Option Int
  | .mk opc surface args _ _ _, points, j =>
    if opc = IDENTITY then some (surface_point surface points j)
    else if opc = COMPLEMENT then some (- surface_point surface points j)
    else if opc = UNIVERSE then some 1
    else if opc = EMPTY then some (-1)
    else
      match point_reference_args surface_point args points j with
      | none => none
      | some vs =>
        if opc = INTERSECTION then geom_intersection vs vs.length 1
        else geom_union vs vs.length 1
/-- The reference values of point `j` under the shapes of a list. -/
def point_reference_args {S P : Type} (surface_point : S → P → Nat → Int) :
    List (Shape S) → P → Nat → Option (List Int)
  | [], _, _ => some []
  | c :: cs, points, j =>
    match point_reference surface_point c points j with
    | none => none
    | some v =>
      match point_reference_args surface_point cs points j with
      | none => none
      | some vs => some (v :: vs)
end

/-- A Surface stub for concrete runs: the surface is the list of the values it
gives to the points of the batch, by index. -/
def stub_surface_point (s : List Int) (_ : Unit) (j : Nat) : Int := s.getD j 0

/-- An allocator for concrete runs in which every `malloc` succeeds; the fresh
cells hold 0. -/
def malloc_ok : Malloc := fun _ => some (fun _ => 0)

/-- An allocator for concrete runs in which the first `malloc` succeeds, with
fresh cells that hold 0, and the second one returns `NULL`. -/
def malloc_second_fails : Malloc := fun k => if k = 1 then none else some (fun _ => 0)

/-- Modelled from the spec: the constant `BOX_SPLIT_AUTODIR` is declared in
`box.h`, which is not part of the sources; the spec only says that it selects
the automatic-direction policy of the Box collaborator. It is given the value
`-1`, which is none of the axis numbers 0, 1, 2. -/
def BOX_SPLIT_AUTODIR : Int := -1

/-- The function `int shape_ultimate_test_box(Shape * shape, const Box * box, double min_vol)`.
`box_split box dir ratio` is the external split, which gives the two halves.
The first argument bounds the depth of the nested calls: a call with `d + 1`
can nest at most `d` splits, and `none` is returned when the bound is used up.
The calls of `surface_test_box` are collected in order. -/
def shape_ultimate_test_box {S : Type} (surface_test_box : S → Box → Int)
    (box_is_in : Box → Nat → Int) (box_split : Box → Int → ℚ → Box × Box) :
    Nat → Shape S → Box → ℚ → Option (BoxTest S)
  | 0, _, _, _ => none
  | fuel + 1, shape, box, min_vol =>
    match shape_test_box surface_test_box box_is_in shape box 0 with
    | none => none
    | some t =>
      if t.result = BOX_CAN_INTERSECT_SHAPE ∧ box.volume > min_vol then
        match shape_ultimate_test_box surface_test_box box_is_in box_split fuel t.shape
            (box_split box BOX_SPLIT_AUTODIR (1 / 2)).1 min_vol with
        | none => none
        | some t1 =>
          match shape_ultimate_test_box surface_test_box box_is_in box_split fuel t1.shape
              (box_split box BOX_SPLIT_AUTODIR (1 / 2)).2 min_vol with
          | none => none
          | some t2 =>
            if t1.result ≠ BOX_CAN_INTERSECT_SHAPE ∧ t2.result ≠ BOX_CAN_INTERSECT_SHAPE then
              some ⟨t1.result, t2.shape, t.calls ++ t1.calls ++ t2.calls⟩
            else some ⟨t.result, t2.shape, t.calls ++ t1.calls ++ t2.calls⟩
      else some t

/-- What one call of `shape_volume` leaves behind: the volume returned and the
shape with its memo fields as the call left them. -/
structure VolumeRun (S : Type) where
  volume : ℚ
  shape : Shape S

/-- The function `double shape_volume(const Shape * shape, const Box * box, double min_vol)`.
The first argument bounds the depth of the nested calls, as for
`shape_ultimate_test_box`. -/
def shape_volume {S : Type} (surface_test_box : S → Box → Int)
    (box_is_in : Box → Nat → Int) (box_split : Box → Int → ℚ → Box × Box) :
    Nat → Shape S → Box → ℚ → Option (VolumeRun S)
  | 0, _, _, _ => none
  | fuel + 1, shape, box, min_vol =>
    match shape_test_box surface_test_box box_is_in shape box 0 with
    | none => none
    | some t =>
      if t.result = BOX_INSIDE_SHAPE then some ⟨box.volume, t.shape⟩
      else if t.result = BOX_OUTSIDE_SHAPE then some ⟨0, t.shape⟩
      else if box.volume > min_vol then
        match shape_volume surface_test_box box_is_in box_split fuel t.shape
            (box_split box BOX_SPLIT_AUTODIR (1 / 2)).1 min_vol with
        | none => none
        | some v1 =>
          match shape_volume surface_test_box box_is_in box_split fuel v1.shape
              (box_split box BOX_SPLIT_AUTODIR (1 / 2)).2 min_vol with
          | none => none
          | some v2 => some ⟨v1.volume + v2.volume, v2.shape⟩
      else some ⟨(1 / 2) * box.volume, t.shape⟩

/-- Modelled from the spec: `box_split` belongs to the Box collaborator, whose
code is not part of the sources. The spec gives `split(box, ratio, axis|auto)
-> (box, box)`. Here the halves of the box at address `a` get the addresses
`2 * a` and `2 * a + 1`, the volumes `ratio * V` and `(1 - ratio) * V`, and
along the split axis (axis 0 for the automatic direction) the dimensions
`ratio * d` and `(1 - ratio) * d`. -/
def stub_box_split (box : Box) (dir : Int) (ratio : ℚ) : Box × Box :=
  let axis : Fin 3 := if dir = 1 then 1 else if dir = 2 then 2 else 0
  (⟨2 * box.subdiv, ratio * box.volume,
      fun i => if i = axis then ratio * box.dims i else box.dims i⟩,
   ⟨2 * box.subdiv + 1, (1 - ratio) * box.volume,
      fun i => if i = axis then (1 - ratio) * box.dims i else box.dims i⟩)

/-- A Surface stub for concrete runs: the surface is the function that gives
its classification of a box from the subdivision address of the box. -/
def stub_surface_by_address (s : Nat → Int) (b : Box) : Int := s b.subdiv

/-- A Surface stub for concrete runs: a half-space whose boundary is the
split plane of the box of address 1. The first half (address 2) and the boxes
inside it are INSIDE, the second half (address 3) and the boxes inside it are
OUTSIDE, and the box of address 1 itself is AMBIGUOUS. -/
def stub_half_space (a : Nat) : Int :=
  if a = 2 ∨ descends 2 a then 1 else if a = 3 ∨ descends 3 a then -1 else 0

/-- The memo states reachable from cleared memos by queries: the cleared
shape, and the shape any `shape_test_box` call leaves behind when it starts
from a reachable one. The refiner and the volume estimator change the memo
only through such calls. -/
inductive Reachable {S : Type} (surface_test_box : S → Box → Int)
    (box_is_in : Box → Nat → Int) : Shape S → Prop
  | cleared (s : Shape S) : Reachable surface_test_box box_is_in (clear_memo s)
  | query (s : Shape S) (box : Box) (collect : Int) (t : BoxTest S) :
      Reachable surface_test_box box_is_in s →
      shape_test_box surface_test_box box_is_in s box collect = some t →
      Reachable surface_test_box box_is_in t.shape

/-- What one call of `shape_init` leaves behind: the status returned, the
struct as the call left it, and the number of `malloc` calls made so far. -/
structure InitRun (S : Type) where
  status : Int
  shape : Shape S
  mallocs : Nat

/-- The function `int shape_init(Shape * shape, char opc, size_t alen, const void * args)`.
`shape` is the struct as the caller passes it; its memo and statistics fields
are not written. The argument `args` is read as the Surface `surface` for a
final opcode and as the array `children` for a composite one, of which the
first `alen` entries are copied into the fresh array; for a void opcode, and
when `malloc` returns `NULL`, the struct holds no children. `k` counts the
`malloc` calls made before this one. -/
def shape_init {S : Type} (malloc : Malloc) (k : Nat) (shape : Shape S) (opc : Operation)
    (alen : Nat) (surface : S) (children : List (Shape S)) : InitRun S :=
  if is_void opc then
    ⟨SHAPE_SUCCESS, .mk opc shape.surface [] shape.last_box shape.last_box_result shape.stats, k⟩
  else if is_final opc then
    ⟨SHAPE_SUCCESS, .mk opc surface [] shape.last_box shape.last_box_result shape.stats, k⟩
  else
    match malloc k with
    | none =>
      ⟨SHAPE_FAILURE, .mk opc shape.surface [] shape.last_box shape.last_box_result shape.stats,
        k + 1⟩
    | some _ =>
      ⟨SHAPE_SUCCESS,
        .mk opc shape.surface (children.take alen) shape.last_box shape.last_box_result
          shape.stats,
        k + 1⟩

mutual
/-- The statistics tables of a shape tree: the table of the node, then the
tables of the trees below it, child by child. -/
def stats_tables {S : Type} : Shape S → List (List (List Int × ℚ))
  | .mk _ _ args _ _ stats => stats :: stats_tables_args args
/-- The statistics tables of the shape trees of a list. -/
def stats_tables_args {S : Type} : List (Shape S) → List (List (List Int × ℚ))
  | [] => []
  | c :: cs => stats_tables c ++ stats_tables_args cs
end

/-- The volume accumulated under the key `key` in a statistics table, if the
table has an entry for the key. -/
def stats_get (table : List (List Int × ℚ)) (key : List Int) : Option ℚ :=
  (table.find? (fun e => e.1 == key)).map Prod.snd

/-- An allocator for concrete runs in which every `malloc` returns `NULL`. -/
def malloc_fails : Malloc := fun _ => none

/-- Value of `INT_MIN` for the 32-bit `int`. -/
def INT_MIN : Int := -2147483648

/-- Value of `INT_MAX` for the 32-bit `int`. -/
def INT_MAX : Int := 2147483647

/-- The conversion of a `double` to the 32-bit `int`, used for
`int min_vol = tol * tol * tol`: it drops the fractional part (rounds toward
zero). When the value so obtained does not fit in `int` the C conversion is
undefined; the value here is the one the x86-64 conversion instruction gives
in that case, `INT_MIN`. -/
def double_to_int (x : ℚ) : Int :=
  let t : Int := if 0 ≤ x then ⌊x⌋ else ⌈x⌉
  if INT_MIN ≤ t ∧ t ≤ INT_MAX then t else INT_MIN

/-- The variables of `shape_bounding_box` that its loops change: the box, the
shape (its memo fields), and, for counting, the `min_vol` arguments of the
calls of `shape_ultimate_test_box` made so far, in order. -/
structure BoundState (S : Type) where
  box : Box
  shape : Shape S
  thresholds : List ℚ

/-- The first `while` loop of `shape_bounding_box` for the axis `dim`, entered
with the search bound `lower`: `while (box->dims[dim] - lower > tol) { ... }`.
`min_vol` is the `int` variable of the function, converted back to `double` at
the call. The first `Nat` bounds the depth of the refiner, the second the number
of iterations; `none` when a bound is used up. -/
def bounding_lower_loop {S : Type} (surface_test_box : S → Box → Int)
    (box_is_in : Box → Nat → Int) (box_split : Box → Int → ℚ → Box × Box)
    (rfuel : Nat) (dim : Fin 3) (tol : ℚ) (min_vol : Int) :
    Nat → BoundState S → ℚ → Option (BoundState S)
  | 0, st, lower => if st.box.dims dim - lower > tol then none else some st
  | fuel + 1, st, lower =>
    if st.box.dims dim - lower > tol then
      let ratio := (1 / 2) * (lower + st.box.dims dim) / st.box.dims dim
      let halves := box_split st.box ((dim : Nat) : Int) ratio
      match shape_ultimate_test_box surface_test_box box_is_in box_split rfuel st.shape
          halves.2 (min_vol : ℚ) with
      | none => none
      | some t =>
        if t.result = -1 then
          bounding_lower_loop surface_test_box box_is_in box_split rfuel dim tol min_vol fuel
            ⟨halves.1, t.shape, st.thresholds ++ [(min_vol : ℚ)]⟩ lower
        else
          bounding_lower_loop surface_test_box box_is_in box_split rfuel dim tol min_vol fuel
            ⟨st.box, t.shape, st.thresholds ++ [(min_vol : ℚ)]⟩ (halves.1.dims dim)
    else some st

/-- The second `while` loop of `shape_bounding_box` for the axis `dim`,
entered with the search bound `upper`:
`while (box->dims[dim] - upper > tol) { ... }`. -/
def bounding_upper_loop {S : Type} (surface_test_box : S → Box → Int)
    (box_is_in : Box → Nat → Int) (box_split : Box → Int → ℚ → Box × Box)
    (rfuel : Nat) (dim : Fin 3) (tol : ℚ) (min_vol : Int) :
    Nat → BoundState S → ℚ → Option (BoundState S)
  | 0, st, upper => if st.box.dims dim - upper > tol then none else some st
  | fuel + 1, st, upper =>
    if st.box.dims dim - upper > tol then
      let ratio := (1 / 2) * (st.box.dims dim - upper) / st.box.dims dim
      let halves := box_split st.box ((dim : Nat) : Int) ratio
      match shape_ultimate_test_box surface_test_box box_is_in box_split rfuel st.shape
          halves.1 (min_vol : ℚ) with
      | none => none
      | some t =>
        if t.result = -1 then
          bounding_upper_loop surface_test_box box_is_in box_split rfuel dim tol min_vol fuel
            ⟨halves.2, t.shape, st.thresholds ++ [(min_vol : ℚ)]⟩ upper
        else
          bounding_upper_loop surface_test_box box_is_in box_split rfuel dim tol min_vol fuel
            ⟨st.box, t.shape, st.thresholds ++ [(min_vol : ℚ)]⟩ (halves.2.dims dim)
    else some st

/-- The body of `for (dim = 0; dim < NDIM; ++dim)` in `shape_bounding_box`:
the two loops for one axis, each entered with its search bound at 0. -/
def bounding_axis {S : Type} (surface_test_box : S → Box → Int)
    (box_is_in : Box → Nat → Int) (box_split : Box → Int → ℚ → Box × Box)
    (rfuel fuel : Nat) (tol : ℚ) (min_vol : Int) (dim : Fin 3) (st : BoundState S) :
    Option (BoundState S) :=
  match bounding_lower_loop surface_test_box box_is_in box_split rfuel dim tol min_vol fuel
      st 0 with
  | none => none
  | some st1 =>
    bounding_upper_loop surface_test_box box_is_in box_split rfuel dim tol min_vol fuel st1 0

/-- What one call of `shape_bounding_box` leaves behind: the status returned
and the variables as the loops left them. -/
structure BoundRun (S : Type) where
  status : Int
  state : BoundState S

/-- The function `int shape_bounding_box(const Shape * shape, Box * box, double tol)`,
with `NDIM = 3`. `rfuel` bounds the depth of every refiner call and `fuel` the
number of iterations of every `while` loop. -/
def shape_bounding_box {S : Type} (surface_test_box : S → Box → Int)
    (box_is_in : Box → Nat → Int) (box_split : Box → Int → ℚ → Box × Box)
    (rfuel fuel : Nat) (shape : Shape S) (box : Box) (tol : ℚ) : Option (BoundRun S) :=
  let min_vol : Int := double_to_int (tol * tol * tol)
  match bounding_axis surface_test_box box_is_in box_split rfuel fuel tol min_vol 0
      ⟨box, shape, []⟩ with
  | none => none
  | some st0 =>
    match bounding_axis surface_test_box box_is_in box_split rfuel fuel tol min_vol 1 st0 with
    | none => none
    | some st1 =>
      match bounding_axis surface_test_box box_is_in box_split rfuel fuel tol min_vol 2 st1 with
      | none => none
      | some st2 => some ⟨NODE_SUCCESS, st2⟩

mutual
/-- The memo-free definition of the box classification, in the words of the
spec: a final node gives the Surface's classification of the box, negated for
COMPLEMENT; UNIVERSE gives INSIDE and EMPTY gives OUTSIDE; a composite node
gives `geom_intersection` or `geom_union` of the values of its children for
the same box. The memo fields are not read. -/
def reference_test_box {S : Type} (surface_test_box : S → Box → Int) :
    Shape S → Box → Option Int
  | .mk opc surface args _ _ _, box =>
    if opc = IDENTITY then some (surface_test_box surface box)
    else if opc = COMPLEMENT then some (geom_complement (surface_test_box surface box))
    else if opc = UNIVERSE then some BOX_INSIDE_SHAPE
    else if opc = EMPTY then some BOX_OUTSIDE_SHAPE
    else
      match reference_test_box_args surface_test_box args box with
      | none => none
      | some vs =>
        if opc = INTERSECTION then geom_intersection vs vs.length 1
        else geom_union vs vs.length 1
/-- The memo-free values of the shapes of a list for one box. -/
def reference_test_box_args {S : Type} (surface_test_box : S → Box → Int) :
    List (Shape S) → Box → Option (List Int)
  | [], _ => some []
  | c :: cs, box =>
    match reference_test_box surface_test_box c box with
    | none => none
    | some v =>
      match reference_test_box_args surface_test_box cs box with
      | none => none
      | some vs => some (v :: vs)
end

/-- A sequence of `shape_test_box` queries on one shape, each starting from
the memo state the query before left: the values returned, in order, and the
shape after the last query. -/
def shape_test_box_run {S : Type} (surface_test_box : S → Box → Int)
    (box_is_in : Box → Nat → Int) : Shape S → List Box → Int → Option (List Int × Shape S)
  | s, [], _ => some ([], s)
  | s, box :: boxes, collect =>
    match shape_test_box surface_test_box box_is_in s box collect with
    | none => none
    | some t =>
      match shape_test_box_run surface_test_box box_is_in t.shape boxes collect with
      | none => none
      | some (vs, final) => some (t.result :: vs, final)

mutual
/-- The memo of every node of the tree is empty or holds the address of a box
of the hierarchy together with the memo-free value of the node for that
box. -/
def memo_sound {S : Type} (hier : Box → Prop) (surface_test_box : S → Box → Int) :
    Shape S → Prop
  | .mk opc surface args lb lbr stats =>
    (lb = 0 ∨ ∃ B : Box, hier B ∧ B.subdiv = lb ∧
        reference_test_box surface_test_box (.mk opc surface args lb lbr stats) B = some lbr) ∧
      memo_sound_args hier surface_test_box args
/-- The property `memo_sound` for every shape of a list. -/
def memo_sound_args {S : Type} (hier : Box → Prop) (surface_test_box : S → Box → Int) :
    List (Shape S) → Prop
  | [] => True
  | c :: cs => memo_sound hier surface_test_box c ∧ memo_sound_args hier surface_test_box cs
end
/-- A small hierarchy for concrete runs: the box of address 1 and its two
halves, the boxes of addresses 2 and 3. -/
def stub_hier (b : Box) : Prop := b = stub_box 1 ∨ b = stub_box 2 ∨ b = stub_box 3

/-- A Surface stub for concrete runs: the only surface is the half-space
`stub_half_space`, which classifies a box from its address. -/
def stub_half_space_test_box (_ : Unit) (b : Box) : Int := stub_half_space b.subdiv

/-- The child loop of `shape_test_box`,
`for (i = 0; i < shape->alen; ++i) sub[i] = shape_test_box(shape->args[i], box, collect);`,
with its counter: the children that remain are entered with the counter at `i`.
Besides what `shape_test_box_args` gives, the loop keeps the list of its
assignments `sub[i] = v` in the order it makes them, one entry `(i, v)` for
each call of `shape_test_box` on a child. -/
def shape_test_box_args_indexed {S : Type} (surface_test_box : S → Box → Int)
    (box_is_in : Box → Nat → Int) :
    List (Shape S) → Box → Int → Nat → Option (BoxTests S × List (Nat × Int))
  | [], _, _, _ => some (⟨[], [], []⟩, [])
  | c :: cs, box, collect, i =>
    match shape_test_box surface_test_box box_is_in c box collect with
    | none => none
    | some r =>
      match shape_test_box_args_indexed surface_test_box box_is_in cs box collect (i + 1) with
      | none => none
      | some (t, writes) =>
        some (⟨r.result :: t.sub, r.shape :: t.shapes, r.calls ++ t.calls⟩,
          (i, r.result) :: writes)

/-- The bisection of `shape_bounding_box` in the words of the claim, as a
transition system on the variables of the function. `BoundingReach ... st0 dim
second st bound` says that the run that starts in the state `st0` can stand at
the head of the first (`second = false`) or the second (`second = true`)
`while` loop of the axis `dim`, with the box and the shape of `st` and the
search bound `bound`. Every iteration asks the refiner about the outer half of
the split of the current box along `dim` at the ratio the loop computes from
the current bound, on the current shape. The box is replaced, by the inner
half, only in the two `shrink` steps, where that answer is `-1`; in the `keep`
steps the box stays and the bound becomes the dimension of the inner half; the
`exit` steps leave a loop whose condition fails and do not touch the box. -/
inductive BoundingReach {S : Type} (surface_test_box : S → Box → Int)
    (box_is_in : Box → Nat → Int) (box_split : Box → Int → ℚ → Box × Box)
    (rfuel : Nat) (tol : ℚ) (min_vol : Int) (st0 : BoundState S) :
    Fin 3 → Bool → BoundState S → ℚ → Prop
  | start : BoundingReach surface_test_box box_is_in box_split rfuel tol min_vol st0 0 false st0 0
  | lower_shrink (dim : Fin 3) (st : BoundState S) (lower : ℚ) (t : BoxTest S) :
      BoundingReach surface_test_box box_is_in box_split rfuel tol min_vol st0 dim false st
        lower →
      st.box.dims dim - lower > tol →
      shape_ultimate_test_box surface_test_box box_is_in box_split rfuel st.shape
        (box_split st.box ((dim : Nat) : Int)
          ((1 / 2) * (lower + st.box.dims dim) / st.box.dims dim)).2 (min_vol : ℚ) = some t →
      t.result = -1 →
      BoundingReach surface_test_box box_is_in box_split rfuel tol min_vol st0 dim false
        ⟨(box_split st.box ((dim : Nat) : Int)
            ((1 / 2) * (lower + st.box.dims dim) / st.box.dims dim)).1,
          t.shape, st.thresholds ++ [(min_vol : ℚ)]⟩ lower
  | lower_keep (dim : Fin 3) (st : BoundState S) (lower : ℚ) (t : BoxTest S) :
      BoundingReach surface_test_box box_is_in box_split rfuel tol min_vol st0 dim false st
        lower →
      st.box.dims dim - lower > tol →
      shape_ultimate_test_box surface_test_box box_is_in box_split rfuel st.shape
        (box_split st.box ((dim : Nat) : Int)
          ((1 / 2) * (lower + st.box.dims dim) / st.box.dims dim)).2 (min_vol : ℚ) = some t →
      t.result ≠ -1 →
      BoundingReach surface_test_box box_is_in box_split rfuel tol min_vol st0 dim false
        ⟨st.box, t.shape, st.thresholds ++ [(min_vol : ℚ)]⟩
        ((box_split st.box ((dim : Nat) : Int)
          ((1 / 2) * (lower + st.box.dims dim) / st.box.dims dim)).1.dims dim)
  | lower_exit (dim : Fin 3) (st : BoundState S) (lower : ℚ) :
      BoundingReach surface_test_box box_is_in box_split rfuel tol min_vol st0 dim false st
        lower →
      ¬ st.box.dims dim - lower > tol →
      BoundingReach surface_test_box box_is_in box_split rfuel tol min_vol st0 dim true st 0
  | upper_shrink (dim : Fin 3) (st : BoundState S) (upper : ℚ) (t : BoxTest S) :
      BoundingReach surface_test_box box_is_in box_split rfuel tol min_vol st0 dim true st
        upper →
      st.box.dims dim - upper > tol →
      shape_ultimate_test_box surface_test_box box_is_in box_split rfuel st.shape
        (box_split st.box ((dim : Nat) : Int)
          ((1 / 2) * (st.box.dims dim - upper) / st.box.dims dim)).1 (min_vol : ℚ) = some t →
      t.result = -1 →
      BoundingReach surface_test_box box_is_in box_split rfuel tol min_vol st0 dim true
        ⟨(box_split st.box ((dim : Nat) : Int)
            ((1 / 2) * (st.box.dims dim - upper) / st.box.dims dim)).2,
          t.shape, st.thresholds ++ [(min_vol : ℚ)]⟩ upper
  | upper_keep (dim : Fin 3) (st : BoundState S) (upper : ℚ) (t : BoxTest S) :
      BoundingReach surface_test_box box_is_in box_split rfuel tol min_vol st0 dim true st
        upper →
      st.box.dims dim - upper > tol →
      shape_ultimate_test_box surface_test_box box_is_in box_split rfuel st.shape
        (box_split st.box ((dim : Nat) : Int)
          ((1 / 2) * (st.box.dims dim - upper) / st.box.dims dim)).1 (min_vol : ℚ) = some t →
      t.result ≠ -1 →
      BoundingReach surface_test_box box_is_in box_split rfuel tol min_vol st0 dim true
        ⟨st.box, t.shape, st.thresholds ++ [(min_vol : ℚ)]⟩
        ((box_split st.box ((dim : Nat) : Int)
          ((1 / 2) * (st.box.dims dim - upper) / st.box.dims dim)).2.dims dim)
  | next_axis (dim dim' : Fin 3) (st : BoundState S) (upper : ℚ) :
      BoundingReach surface_test_box box_is_in box_split rfuel tol min_vol st0 dim true st
        upper →
      ¬ st.box.dims dim - upper > tol →
      (dim' : Nat) = (dim : Nat) + 1 →
      BoundingReach surface_test_box box_is_in box_split rfuel tol min_vol st0 dim' false st 0

mutual
/-- The point set of a shape, given the point set `surf s` of every surface
`s`: IDENTITY is the set of its surface and COMPLEMENT the complement of it,
UNIVERSE holds every point and EMPTY none, INTERSECTION holds the points of
all children and UNION those of some child. -/
def member {S P : Type} (surf : S → P → Prop) : Shape S → P → Prop
  | .mk opc surface args _ _ _, p =>
    if opc = IDENTITY then surf surface p
    else if opc = COMPLEMENT then ¬ surf surface p
    else if opc = UNIVERSE then True
    else if opc = EMPTY then False
    else if opc = INTERSECTION then member_all surf args p
    else member_any surf args p
/-- The point belongs to every shape of the list. -/
def member_all {S P : Type} (surf : S → P → Prop) : List (Shape S) → P → Prop
  | [], _ => True
  | c :: cs, p => member surf c p ∧ member_all surf cs p
/-- The point belongs to some shape of the list. -/
def member_any {S P : Type} (surf : S → P → Prop) : List (Shape S) → P → Prop
  | [], _ => False
  | c :: cs, p => member surf c p ∨ member_any surf cs p
end

/-- What a classification `v` of the box `b` says about the point set
`inside`, where `pts b` are the points of the box: INSIDE (`+1`) only if every
point of the box belongs to the set, OUTSIDE (`-1`) only if none does;
AMBIGUOUS says nothing. -/
def classifies {P : Type} (pts : Box → P → Prop) (inside : P → Prop) (b : Box) (v : Int) :
    Prop :=
  (v = 1 → ∀ p, pts b p → inside p) ∧ (v = -1 → ∀ p, pts b p → ¬ inside p)

/-- A Surface stub for concrete runs: its point set is the whole space. The
classifier answers AMBIGUOUS on the box of address 1, which is allowed, and
INSIDE on every other box. -/
def stub_coarse_test_box (_ : Unit) (b : Box) : Int := if b.subdiv = 1 then 0 else 1

/-- The hierarchy of the concrete run for C12: the box of address 1 and the
two halves that `stub_box_split` makes of it at ratio 1/2. -/
def stub_split_hier (b : Box) : Prop :=
  b = stub_box 1 ∨ b = (stub_box_split (stub_box 1) BOX_SPLIT_AUTODIR (1 / 2)).1 ∨
    b = (stub_box_split (stub_box 1) BOX_SPLIT_AUTODIR (1 / 2)).2

/-- The points of the boxes in the concrete run for C12: one point, which
every box holds. -/
def stub_points (_ : Box) (_ : Unit) : Prop := True

/-- The point set of the surface in the concrete run for C12: the whole
space. -/
def stub_whole_space (_ : Unit) (_ : Unit) : Prop := True

/-! ## The three-valued algebra (C1, C2, C3) -/

theorem inter_scan_eq (l : List Int) (result : Int) :
    inter_scan result l = if (-1 : Int) ∈ l then -1 else if (0 : Int) ∈ l then 0 else result := by
  induction l generalizing result with
  | nil => simp [inter_scan]
  | cons v t ih =>
    simp only [inter_scan, List.mem_cons]
    by_cases h0 : v = 0
    · subst h0
      simp [ih]
    · by_cases h1 : v = -1
      · subst h1; simp
      · have h0' : ¬ (0 : Int) = v := fun h => h0 h.symm
        have h1' : ¬ (-1 : Int) = v := fun h => h1 h.symm
        simp [h0, h1, h0', h1', ih]

theorem union_scan_eq (l : List Int) (result : Int) :
    union_scan result l = if (1 : Int) ∈ l then 1 else if (0 : Int) ∈ l then 0 else result := by
  induction l generalizing result with
  | nil => simp [union_scan]
  | cons v t ih =>
    simp only [union_scan, List.mem_cons]
    by_cases h0 : v = 0
    · subst h0
      simp [ih]
    · by_cases h1 : v = 1
      · subst h1; simp
      · have h0' : ¬ (0 : Int) = v := fun h => h0 h.symm
        have h1' : ¬ (1 : Int) = v := fun h => h1 h.symm
        simp [h0, h1, h0', h1', ih]

theorem geom_intersection_loop_stride_one (args : List Int) :
    ∀ (fuel i : Nat) (result : Int), i + fuel = args.length →
      geom_intersection_loop args args.length 1 fuel i result
        = some (inter_scan result (args.drop i)) := by
  intro fuel
  induction fuel with
  | zero =>
    intro i result h
    have hi : i = args.length := by omega
    subst hi
    simp [geom_intersection_loop, inter_scan]
  | succ fuel ih =>
    intro i result h
    have hi : i < args.length := by omega
    have hd : args.drop i = args[i] :: args.drop (i + 1) := List.drop_eq_getElem_cons hi
    rw [geom_intersection_loop, if_pos hi, List.getElem?_eq_getElem hi, hd]
    simp only [inter_scan]
    rw [ih (i + 1) 0 (by omega), ih (i + 1) result (by omega)]
    split_ifs <;> rfl

theorem geom_union_loop_stride_one (args : List Int) :
    ∀ (fuel i : Nat) (result : Int), i + fuel = args.length →
      geom_union_loop args args.length 1 fuel i result
        = some (union_scan result (args.drop i)) := by
  intro fuel
  induction fuel with
  | zero =>
    intro i result h
    have hi : i = args.length := by omega
    subst hi
    simp [geom_union_loop, union_scan]
  | succ fuel ih =>
    intro i result h
    have hi : i < args.length := by omega
    have hd : args.drop i = args[i] :: args.drop (i + 1) := List.drop_eq_getElem_cons hi
    rw [geom_union_loop, if_pos hi, List.getElem?_eq_getElem hi, hd]
    simp only [union_scan]
    rw [ih (i + 1) 0 (by omega), ih (i + 1) result (by omega)]
    split_ifs <;> rfl

/-- Closed form of `geom_intersection` over `n` values with stride 1. -/
theorem geom_intersection_stride_one (args : List Int) :
    geom_intersection args args.length 1
      = some (if (-1 : Int) ∈ args then -1 else if (0 : Int) ∈ args then 0 else 1) := by
  unfold geom_intersection
  rw [geom_intersection_loop_stride_one args args.length 0 1 (by omega), List.drop_zero,
    inter_scan_eq]

/-- Closed form of `geom_union` over `n` values with stride 1. -/
theorem geom_union_stride_one (args : List Int) :
    geom_union args args.length 1
      = some (if (1 : Int) ∈ args then 1 else if (0 : Int) ∈ args then 0 else -1) := by
  unfold geom_union
  rw [geom_union_loop_stride_one args args.length 0 (-1) (by omega), List.drop_zero,
    union_scan_eq]

/-- C1: for every sequence `vs` of values (in particular of values in
{-1,0,+1}), `geom_intersection` called with stride 1 over the `vs.length`
values returns a value `r` such that `r = -1` if and only if some element is
-1; otherwise `r = 0` if and only if some element is 0; otherwise `r = +1`. -/
theorem geom_intersection_spec (vs : List Int) :
    ∃ r : Int, geom_intersection vs vs.length 1 = some r ∧
      (r = -1 ↔ (-1 : Int) ∈ vs) ∧
      ((-1 : Int) ∉ vs → (r = 0 ↔ (0 : Int) ∈ vs)) ∧
      ((-1 : Int) ∉ vs → (0 : Int) ∉ vs → r = 1) := by
  refine ⟨_, geom_intersection_stride_one vs, ?_, ?_, ?_⟩
  · by_cases h : (-1 : Int) ∈ vs
    · simp [h]
    · by_cases h0 : (0 : Int) ∈ vs <;> simp [h, h0]
  · intro h
    by_cases h0 : (0 : Int) ∈ vs <;> simp [h, h0]
  · intro h h0
    simp [h, h0]

/-- C2: `geom_union` is the De Morgan dual of `geom_intersection`: for every
sequence `vs`, `geom_union(vs)` is `geom_complement` of `geom_intersection`
of the complemented values; and it returns `+1` iff some element is `+1`,
else `0` iff some element is `0`, else `-1`. -/
theorem geom_union_de_morgan (vs : List Int) :
    geom_union vs vs.length 1
        = (geom_intersection (vs.map geom_complement) (vs.map geom_complement).length 1).map
            geom_complement ∧
      ∃ r : Int, geom_union vs vs.length 1 = some r ∧
        (r = 1 ↔ (1 : Int) ∈ vs) ∧
        ((1 : Int) ∉ vs → (r = 0 ↔ (0 : Int) ∈ vs)) ∧
        ((1 : Int) ∉ vs → (0 : Int) ∉ vs → r = -1) := by
  have hneg : ((-1 : Int) ∈ vs.map geom_complement) ↔ (1 : Int) ∈ vs := by
    simp only [List.mem_map, geom_complement]
    constructor
    · rintro ⟨a, ha, h⟩
      have : a = 1 := by omega
      exact this ▸ ha
    · intro h
      exact ⟨1, h, by norm_num⟩
  have hzero : ((0 : Int) ∈ vs.map geom_complement) ↔ (0 : Int) ∈ vs := by
    simp only [List.mem_map, geom_complement]
    constructor
    · rintro ⟨a, ha, h⟩
      have : a = 0 := by omega
      exact this ▸ ha
    · intro h
      exact ⟨0, h, by norm_num⟩
  refine ⟨?_, _, geom_union_stride_one vs, ?_, ?_, ?_⟩
  · rw [geom_union_stride_one, geom_intersection_stride_one, Option.map_some']
    by_cases h1 : (1 : Int) ∈ vs
    · simp [hneg, h1, geom_complement]
    · by_cases h0 : (0 : Int) ∈ vs <;> simp [hneg, hzero, h1, h0, geom_complement]
  · by_cases h : (1 : Int) ∈ vs
    · simp [h]
    · by_cases h0 : (0 : Int) ∈ vs <;> simp [h, h0]
  · intro h
    by_cases h0 : (0 : Int) ∈ vs <;> simp [h, h0]
  · intro h h0
    simp [h, h0]

/-- C3: the order of the values never changes the result: for every sequence
`vs` and every permutation `ws` of it, `geom_intersection` returns the same
value on both and so does `geom_union`. -/
theorem geom_ops_perm_invariant (vs ws : List Int) (h : vs.Perm ws) :
    geom_intersection vs vs.length 1 = geom_intersection ws ws.length 1 ∧
      geom_union vs vs.length 1 = geom_union ws ws.length 1 := by
  simp only [geom_intersection_stride_one, geom_union_stride_one, h.mem_iff, and_self]

/-- Witness for C3 on `[1, 0, -1, 1]` and its permutation `[-1, 1, 1, 0]`: the
first scan stops at its third cell, the second at its first. -/
theorem geom_ops_perm_invariant_witness :
    [(1 : Int), 0, -1, 1].Perm [-1, 1, 1, 0] ∧
      (geom_intersection [1, 0, -1, 1] [(1 : Int), 0, -1, 1].length 1
          = geom_intersection [-1, 1, 1, 0] [(-1 : Int), 1, 1, 0].length 1 ∧
        geom_union [1, 0, -1, 1] [(1 : Int), 0, -1, 1].length 1
          = geom_union [-1, 1, 1, 0] [(-1 : Int), 1, 1, 0].length 1) :=
  ⟨by decide, geom_ops_perm_invariant _ _ (by decide)⟩

/-! ## The box classifier (C4 to C7) -/

section BoxClassifier

variable {S : Type} (surface_test_box : S → Box → Int) (box_is_in : Box → Nat → Int)

theorem memo_hit_eq_false_iff (lb : Nat) (lbr : Int) (box : Box) :
    memo_hit box_is_in lb lbr box = false ↔
      (lb = 0 ∨ (box_is_in box lb ≠ 0 ∧
        ¬ (box_is_in box lb > 0 ∧ lbr ≠ BOX_CAN_INTERSECT_SHAPE))) := by
  simp only [memo_hit, Bool.and_eq_false_iff, Bool.or_eq_false_iff, bne_eq_false_iff_eq,
    beq_eq_false_iff_ne, ne_eq, decide_eq_false_iff_not, not_and, not_not, not_lt,
    BOX_CAN_INTERSECT_SHAPE]
  constructor
  · rintro (h | ⟨h1, h2⟩)
    · exact Or.inl h
    · refine Or.inr ⟨h1, fun hpos => ?_⟩
      rcases h2 with h2 | h2
      · omega
      · exact h2
  · rintro (h | ⟨h1, h2⟩)
    · exact Or.inl h
    · refine Or.inr ⟨h1, ?_⟩
      by_cases hpos : box_is_in box lb > 0
      · exact Or.inr (h2 hpos)
      · exact Or.inl (by omega)

theorem shape_test_box_of_hit (opc : Operation) (surface : S) (args : List (Shape S))
    (lb : Nat) (lbr : Int) (stats : List (List Int × ℚ)) (box : Box) (collect : Int)
    (h : memo_hit box_is_in lb lbr box = true) :
    shape_test_box surface_test_box box_is_in (.mk opc surface args lb lbr stats) box collect
      = some ⟨lbr, .mk opc surface args lb lbr stats, []⟩ := by
  rw [shape_test_box, if_pos h]

theorem shape_test_box_of_final (opc : Operation) (surface : S) (args : List (Shape S))
    (lb : Nat) (lbr : Int) (stats : List (List Int × ℚ)) (box : Box) (collect : Int)
    (h : memo_hit box_is_in lb lbr box = false) (hf : is_final opc = true) :
    shape_test_box surface_test_box box_is_in (.mk opc surface args lb lbr stats) box collect
      = some ⟨if opc = COMPLEMENT then geom_complement (surface_test_box surface box)
              else surface_test_box surface box,
          .mk opc surface args box.subdiv
            (if opc = COMPLEMENT then geom_complement (surface_test_box surface box)
             else surface_test_box surface box) stats,
          [(surface, box)]⟩ := by
  rw [shape_test_box, if_neg (by simp [h]), if_pos hf]

theorem shape_test_box_of_universe (surface : S) (args : List (Shape S))
    (lb : Nat) (lbr : Int) (stats : List (List Int × ℚ)) (box : Box) (collect : Int)
    (h : memo_hit box_is_in lb lbr box = false) :
    shape_test_box surface_test_box box_is_in (.mk UNIVERSE surface args lb lbr stats) box collect
      = some ⟨1, .mk UNIVERSE surface args box.subdiv 1 stats, []⟩ := by
  rw [shape_test_box, if_neg (by simp [h]), if_neg (by decide), if_pos rfl]
  rfl

theorem shape_test_box_of_empty (surface : S) (args : List (Shape S))
    (lb : Nat) (lbr : Int) (stats : List (List Int × ℚ)) (box : Box) (collect : Int)
    (h : memo_hit box_is_in lb lbr box = false) :
    shape_test_box surface_test_box box_is_in (.mk EMPTY surface args lb lbr stats) box collect
      = some ⟨-1, .mk EMPTY surface args box.subdiv (-1) stats, []⟩ := by
  rw [shape_test_box, if_neg (by simp [h]), if_neg (by decide), if_neg (by decide), if_pos rfl]
  rfl

theorem shape_test_box_of_intersection (surface : S) (args : List (Shape S))
    (lb : Nat) (lbr : Int) (stats : List (List Int × ℚ)) (box : Box) (collect : Int)
    (h : memo_hit box_is_in lb lbr box = false) (t : BoxTests S)
    (ht : shape_test_box_args surface_test_box box_is_in args box collect = some t) (r : Int)
    (hr : geom_intersection t.sub args.length 1 = some r) :
    shape_test_box surface_test_box box_is_in (.mk INTERSECTION surface args lb lbr stats)
        box collect
      = some ⟨r, .mk INTERSECTION surface t.shapes box.subdiv r stats, t.calls⟩ := by
  rw [shape_test_box, if_neg (by simp [h]), if_neg (by decide), if_neg (by decide),
    if_neg (by decide), ht]
  simp only [if_true, hr]

theorem shape_test_box_of_union (surface : S) (args : List (Shape S))
    (lb : Nat) (lbr : Int) (stats : List (List Int × ℚ)) (box : Box) (collect : Int)
    (h : memo_hit box_is_in lb lbr box = false) (t : BoxTests S)
    (ht : shape_test_box_args surface_test_box box_is_in args box collect = some t) (r : Int)
    (hr : geom_union t.sub args.length 1 = some r) :
    shape_test_box surface_test_box box_is_in (.mk UNION surface args lb lbr stats) box collect
      = some ⟨r, .mk UNION surface t.shapes box.subdiv r stats, t.calls⟩ := by
  rw [shape_test_box, if_neg (by simp [h]), if_neg (by decide), if_neg (by decide),
    if_neg (by decide), ht]
  simp only [if_neg (show ¬ UNION = INTERSECTION by decide), hr]

mutual
/-- Totality: `shape_test_box` returns on every shape tree, box and memo state. -/
theorem shape_test_box_total : ∀ (s : Shape S) (box : Box) (collect : Int),
    ∃ t, shape_test_box surface_test_box box_is_in s box collect = some t
  | .mk opc surface args lb lbr stats, box, collect => by
    cases h : memo_hit box_is_in lb lbr box
    · obtain ⟨rs, hrs, ht⟩ := shape_test_box_args_eq args box collect
      have hlen : (gather rs).sub.length = args.length := by
        simp [gather, hrs.length_eq]
      cases opc
      · exact ⟨_, shape_test_box_of_intersection surface_test_box box_is_in _ _ _ _ _ _ _ h _ ht _
          (hlen ▸ geom_intersection_stride_one _)⟩
      · exact ⟨_, shape_test_box_of_final surface_test_box box_is_in _ _ _ _ _ _ _ _ h rfl⟩
      · exact ⟨_, shape_test_box_of_empty surface_test_box box_is_in _ _ _ _ _ _ _ h⟩
      · exact ⟨_, shape_test_box_of_union surface_test_box box_is_in _ _ _ _ _ _ _ h _ ht _
          (hlen ▸ geom_union_stride_one _)⟩
      · exact ⟨_, shape_test_box_of_final surface_test_box box_is_in _ _ _ _ _ _ _ _ h rfl⟩
      · exact ⟨_, shape_test_box_of_universe surface_test_box box_is_in _ _ _ _ _ _ _ h⟩
    · exact ⟨_, shape_test_box_of_hit surface_test_box box_is_in _ _ _ _ _ _ _ _ h⟩
/-- The child loop is the list of the separate calls on the children. -/
theorem shape_test_box_args_eq : ∀ (l : List (Shape S)) (box : Box) (collect : Int),
    ∃ rs : List (BoxTest S),
      List.Forall₂
        (fun c r => shape_test_box surface_test_box box_is_in c box collect = some r) l rs ∧
      shape_test_box_args surface_test_box box_is_in l box collect = some (gather rs)
  | [], box, collect => ⟨[], List.Forall₂.nil, by rw [shape_test_box_args]; rfl⟩
  | c :: cs, box, collect => by
    obtain ⟨r, hr⟩ := shape_test_box_total c box collect
    obtain ⟨rs, hrs, ht⟩ := shape_test_box_args_eq cs box collect
    refine ⟨r :: rs, List.Forall₂.cons hr hrs, ?_⟩
    rw [shape_test_box_args, hr, ht]
    rfl
end

/-- C4: when `shape_test_box` recomputes (the memo is empty, `last_box = 0`,
or the query box is neither the memoised box nor a strict subset of a resolved
memoised box) it returns, and the value is determined by the opcode: IDENTITY
gives the Surface's classification of the box, COMPLEMENT its negation,
UNIVERSE `+1`, EMPTY `-1`, INTERSECTION `geom_intersection` of the results
`rs` of `shape_test_box` on the children for the same box, UNION `geom_union`
of them. -/
theorem shape_test_box_recompute (opc : Operation) (surface : S) (args : List (Shape S))
    (last_box : Nat) (last_box_result : Int) (stats : List (List Int × ℚ)) (box : Box)
    (collect : Int)
    (h : last_box = 0 ∨ (box_is_in box last_box ≠ 0 ∧
        ¬ (box_is_in box last_box > 0 ∧ last_box_result ≠ BOX_CAN_INTERSECT_SHAPE))) :
    ∃ t, shape_test_box surface_test_box box_is_in
          (.mk opc surface args last_box last_box_result stats) box collect = some t ∧
      (opc = IDENTITY → t.result = surface_test_box surface box) ∧
      (opc = COMPLEMENT → t.result = - surface_test_box surface box) ∧
      (opc = UNIVERSE → t.result = BOX_INSIDE_SHAPE) ∧
      (opc = EMPTY → t.result = BOX_OUTSIDE_SHAPE) ∧
      ∃ rs : List (BoxTest S),
        List.Forall₂
          (fun c r => shape_test_box surface_test_box box_is_in c box collect = some r)
          args rs ∧
        (opc = INTERSECTION →
          geom_intersection (rs.map BoxTest.result) args.length 1 = some t.result) ∧
        (opc = UNION → geom_union (rs.map BoxTest.result) args.length 1 = some t.result) := by
  have hm : memo_hit box_is_in last_box last_box_result box = false :=
    (memo_hit_eq_false_iff box_is_in _ _ _).2 h
  obtain ⟨rs, hrs, ht⟩ := shape_test_box_args_eq surface_test_box box_is_in args box collect
  have hlen : (rs.map BoxTest.result).length = args.length := by
    simp [hrs.length_eq]
  have hi := geom_intersection_stride_one (rs.map BoxTest.result)
  have hu := geom_union_stride_one (rs.map BoxTest.result)
  rw [hlen] at hi hu
  cases opc
  · refine ⟨_, shape_test_box_of_intersection surface_test_box box_is_in _ _ _ _ _ _ _ hm _ ht _
      hi, ?_, ?_, ?_, ?_, rs, hrs, fun _ => hi, ?_⟩ <;> intro hc <;> cases hc
  · refine ⟨_, shape_test_box_of_final surface_test_box box_is_in _ _ _ _ _ _ _ _ hm rfl,
      ?_, ?_, ?_, ?_, rs, hrs, ?_, ?_⟩ <;> intro hc <;> cases hc
    simp [geom_complement]
  · refine ⟨_, shape_test_box_of_empty surface_test_box box_is_in _ _ _ _ _ _ _ hm,
      ?_, ?_, ?_, ?_, rs, hrs, ?_, ?_⟩ <;> intro hc <;> cases hc
    rfl
  · refine ⟨_, shape_test_box_of_union surface_test_box box_is_in _ _ _ _ _ _ _ hm _ ht _
      hu, ?_, ?_, ?_, ?_, rs, hrs, ?_, fun _ => hu⟩ <;> intro hc <;> cases hc
  · refine ⟨_, shape_test_box_of_final surface_test_box box_is_in _ _ _ _ _ _ _ _ hm rfl,
      ?_, ?_, ?_, ?_, rs, hrs, ?_, ?_⟩ <;> intro hc <;> cases hc
    simp
  · refine ⟨_, shape_test_box_of_universe surface_test_box box_is_in _ _ _ _ _ _ _ hm,
      ?_, ?_, ?_, ?_, rs, hrs, ?_, ?_⟩ <;> intro hc <;> cases hc
    rfl

end BoxClassifier

/-- Witness for C4: an INTERSECTION of an IDENTITY and a COMPLEMENT node with
an empty memo, queried with the box of address 1. -/
theorem shape_test_box_recompute_witness :
    ((0 : Nat) = 0 ∨ (subdiv_box_is_in (stub_box 1) 0 ≠ 0 ∧
        ¬ (subdiv_box_is_in (stub_box 1) 0 > 0 ∧ (0 : Int) ≠ BOX_CAN_INTERSECT_SHAPE))) ∧
    ∃ t, shape_test_box stub_surface_test_box subdiv_box_is_in
          (.mk INTERSECTION 0 [.mk IDENTITY 1 [] 0 0 [], .mk COMPLEMENT 0 [] 0 0 []] 0 0 [])
          (stub_box 1) 0 = some t ∧
      (INTERSECTION = IDENTITY → t.result = stub_surface_test_box 0 (stub_box 1)) ∧
      (INTERSECTION = COMPLEMENT → t.result = - stub_surface_test_box 0 (stub_box 1)) ∧
      (INTERSECTION = UNIVERSE → t.result = BOX_INSIDE_SHAPE) ∧
      (INTERSECTION = EMPTY → t.result = BOX_OUTSIDE_SHAPE) ∧
      ∃ rs : List (BoxTest Int),
        List.Forall₂
          (fun c r => shape_test_box stub_surface_test_box subdiv_box_is_in c (stub_box 1) 0
            = some r)
          [.mk IDENTITY 1 [] 0 0 [], .mk COMPLEMENT 0 [] 0 0 []] rs ∧
        (INTERSECTION = INTERSECTION →
          geom_intersection (rs.map BoxTest.result)
            [Shape.mk IDENTITY (1 : Int) [] 0 0 [], .mk COMPLEMENT 0 [] 0 0 []].length 1
            = some t.result) ∧
        (INTERSECTION = UNION →
          geom_union (rs.map BoxTest.result)
            [Shape.mk IDENTITY (1 : Int) [] 0 0 [], .mk COMPLEMENT 0 [] 0 0 []].length 1
            = some t.result) :=
  ⟨Or.inl rfl,
    shape_test_box_recompute stub_surface_test_box subdiv_box_is_in INTERSECTION 0
      [.mk IDENTITY 1 [] 0 0 [], .mk COMPLEMENT 0 [] 0 0 []] 0 0 [] (stub_box 1) 0 (Or.inl rfl)⟩

section BoxMemo

variable {S : Type} (surface_test_box : S → Box → Int) (box_is_in : Box → Nat → Int)

/-- What a call of `shape_test_box` does to the memo: the cached result is the
value returned; on a memo hit the node is left as it was and no Surface is
called; otherwise the cached address is the query box's. -/
theorem shape_test_box_memo (s : Shape S) (box : Box) (collect : Int) (t : BoxTest S)
    (ht : shape_test_box surface_test_box box_is_in s box collect = some t) :
    t.shape.last_box_result = t.result ∧ t.shape.opc = s.opc ∧
      ((memo_hit box_is_in s.last_box s.last_box_result box = true ∧
          t = ⟨s.last_box_result, s, []⟩) ∨
        (memo_hit box_is_in s.last_box s.last_box_result box = false ∧
          t.shape.last_box = box.subdiv)) := by
  obtain ⟨opc, surface, args, lb, lbr, stats⟩ := s
  simp only [Shape.last_box, Shape.last_box_result, Shape.opc]
  cases h : memo_hit box_is_in lb lbr box
  · obtain ⟨rs, hrs, hargs⟩ := shape_test_box_args_eq surface_test_box box_is_in args box collect
    have hlen : (gather rs).sub.length = args.length := by
      simp [gather, hrs.length_eq]
    cases opc
    · rw [shape_test_box_of_intersection surface_test_box box_is_in _ _ _ _ _ _ _ h _ hargs _
        (hlen ▸ geom_intersection_stride_one _)] at ht
      cases ht
      simp [Shape.last_box, Shape.last_box_result, Shape.opc]
    · rw [shape_test_box_of_final surface_test_box box_is_in COMPLEMENT _ _ _ _ _ _ _ h rfl] at ht
      cases ht
      simp [Shape.last_box, Shape.last_box_result, Shape.opc]
    · rw [shape_test_box_of_empty surface_test_box box_is_in _ _ _ _ _ _ _ h] at ht
      cases ht
      simp [Shape.last_box, Shape.last_box_result, Shape.opc]
    · rw [shape_test_box_of_union surface_test_box box_is_in _ _ _ _ _ _ _ h _ hargs _
        (hlen ▸ geom_union_stride_one _)] at ht
      cases ht
      simp [Shape.last_box, Shape.last_box_result, Shape.opc]
    · rw [shape_test_box_of_final surface_test_box box_is_in IDENTITY _ _ _ _ _ _ _ h rfl] at ht
      cases ht
      simp [Shape.last_box, Shape.last_box_result, Shape.opc]
    · rw [shape_test_box_of_universe surface_test_box box_is_in _ _ _ _ _ _ _ h] at ht
      cases ht
      simp [Shape.last_box, Shape.last_box_result, Shape.opc]
  · rw [shape_test_box_of_hit surface_test_box box_is_in _ _ _ _ _ _ _ _ h] at ht
    cases ht
    simp [Shape.last_box, Shape.last_box_result, Shape.opc]

/-- A memo that holds the query box's own nonzero address is hit when the
containment predicate reports the box equal to its address. -/
theorem memo_hit_of_same (lbr : Int) (box : Box) (h0 : box.subdiv ≠ 0)
    (hrefl : box_is_in box box.subdiv = 0) :
    memo_hit box_is_in box.subdiv lbr box = true := by
  simp [memo_hit, h0, hrefl]

/-- A memo that holds a resolved result for a nonzero address is hit by every
box strictly inside that address. -/
theorem memo_hit_of_inside (lb : Nat) (lbr : Int) (box : Box) (h0 : lb ≠ 0)
    (hin : box_is_in box lb > 0) (hr : lbr ≠ 0) :
    memo_hit box_is_in lb lbr box = true := by
  simp [memo_hit, h0, hin, hr, BOX_CAN_INTERSECT_SHAPE]

/-- A memo that holds the result AMBIGUOUS is not hit by a box strictly inside
its address. -/
theorem memo_hit_of_ambiguous (lb : Nat) (box : Box) (hin : box_is_in box lb > 0) :
    memo_hit box_is_in lb 0 box = false := by
  have : box_is_in box lb ≠ 0 := by omega
  simp [memo_hit, this, BOX_CAN_INTERSECT_SHAPE]

/-- A hit of a memo whose result is AMBIGUOUS is an exact repeat. -/
theorem memo_hit_ambiguous_exact (lb : Nat) (box : Box)
    (h : memo_hit box_is_in lb 0 box = true) : lb ≠ 0 ∧ box_is_in box lb = 0 := by
  simpa [memo_hit, BOX_CAN_INTERSECT_SHAPE] using h

/-- With a hit the memo is not empty and the box is equal to or inside the
memoised box. -/
theorem memo_hit_nonneg (lb : Nat) (lbr : Int) (box : Box)
    (h : memo_hit box_is_in lb lbr box = true) :
    lb ≠ 0 ∧ box_is_in box lb ≥ 0 ∧ (box_is_in box lb = 0 ∨ lbr ≠ 0) := by
  simp only [memo_hit, Bool.and_eq_true, Bool.or_eq_true, bne_iff_ne, ne_eq, beq_iff_eq,
    decide_eq_true_eq, BOX_CAN_INTERSECT_SHAPE] at h
  obtain ⟨h0, h1 | ⟨h1, h2⟩⟩ := h
  · exact ⟨h0, by omega, Or.inl h1⟩
  · exact ⟨h0, by omega, Or.inr h2⟩

end BoxMemo

section BoxRepeat

variable {S : Type} (surface_test_box : S → Box → Int) (box_is_in : Box → Nat → Int)

/-- C5 (amended): for every shape node and every box whose subdivision address
is not 0 (the value that marks an empty memo), given a containment predicate
that reports the box equal to its own address, calling `shape_test_box` twice
consecutively with that box returns the same result both times and the second
call makes no call to the Surface box classifier. -/
theorem shape_test_box_repeat (s : Shape S) (box : Box) (collect : Int)
    (h0 : box.subdiv ≠ 0) (hrefl : box_is_in box box.subdiv = 0) :
    ∃ t1 t2, shape_test_box surface_test_box box_is_in s box collect = some t1 ∧
      shape_test_box surface_test_box box_is_in t1.shape box collect = some t2 ∧
      t2.result = t1.result ∧ t2.calls = [] := by
  obtain ⟨t1, h1⟩ := shape_test_box_total surface_test_box box_is_in s box collect
  obtain ⟨hres, -, hcase⟩ := shape_test_box_memo surface_test_box box_is_in s box collect t1 h1
  rcases hcase with ⟨-, ht⟩ | ⟨-, hbox⟩
  · refine ⟨t1, t1, h1, ?_, rfl, ?_⟩
    · rw [ht] at h1 ⊢
      exact h1
    · rw [ht]
  · obtain ⟨r, s1, c⟩ := t1
    obtain ⟨opc, surface, args, lb, lbr, stats⟩ := s1
    simp only [Shape.last_box, Shape.last_box_result] at hres hbox
    subst hres hbox
    exact ⟨_, _, h1, shape_test_box_of_hit surface_test_box box_is_in _ _ _ _ _ _ _ _
      (memo_hit_of_same box_is_in _ _ h0 hrefl), rfl, rfl⟩

/-- C7 (amended): after every `shape_test_box` call the node's cached result
equals the value returned; when the call recomputed, the cached address equals
the query box's subdivision address; when the value came from the memo (exact
repeat or inherited), the node is left unchanged, its cached address
included. -/
theorem shape_test_box_cache_update (s : Shape S) (box : Box) (collect : Int) :
    ∃ t, shape_test_box surface_test_box box_is_in s box collect = some t ∧
      t.shape.last_box_result = t.result ∧
      (memo_hit box_is_in s.last_box s.last_box_result box = false →
        t.shape.last_box = box.subdiv) ∧
      (memo_hit box_is_in s.last_box s.last_box_result box = true → t.shape = s) := by
  obtain ⟨t, ht⟩ := shape_test_box_total surface_test_box box_is_in s box collect
  obtain ⟨hres, -, hcase⟩ := shape_test_box_memo surface_test_box box_is_in s box collect t ht
  refine ⟨t, ht, hres, ?_, ?_⟩
  · intro hm
    rcases hcase with ⟨hm', -⟩ | ⟨-, hbox⟩
    · rw [hm] at hm'
      cases hm'
    · exact hbox
  · intro hm
    rcases hcase with ⟨-, heq⟩ | ⟨hm', -⟩
    · rw [heq]
    · rw [hm] at hm'
      cases hm'

end BoxRepeat

/-- Witness for C5 (amended): an IDENTITY node with an empty memo and the box
of address 1. -/
theorem shape_test_box_repeat_witness :
    (stub_box 1).subdiv ≠ 0 ∧ subdiv_box_is_in (stub_box 1) (stub_box 1).subdiv = 0 ∧
    ∃ t1 t2, shape_test_box stub_surface_test_box subdiv_box_is_in
          (.mk IDENTITY 0 [] 0 0 []) (stub_box 1) 0 = some t1 ∧
      shape_test_box stub_surface_test_box subdiv_box_is_in t1.shape (stub_box 1) 0 = some t2 ∧
      t2.result = t1.result ∧ t2.calls = [] :=
  ⟨by decide, by decide,
    shape_test_box_repeat stub_surface_test_box subdiv_box_is_in (.mk IDENTITY 0 [] 0 0 [])
      (stub_box 1) 0 (by decide) (by decide)⟩

/-- Counterexample to C5 as stated: with a box whose subdivision address is 0
the first call stores the address 0, which `shape_test_box` reads as an empty
memo, so the second call with the same box calls the Surface classifier
again. -/
theorem shape_test_box_repeat_counterexample :
    ∃ t1 t2, shape_test_box stub_surface_test_box subdiv_box_is_in
          (.mk IDENTITY 1 [] 0 0 []) (stub_box 0) 0 = some t1 ∧
      shape_test_box stub_surface_test_box subdiv_box_is_in t1.shape (stub_box 0) 0 = some t2 ∧
      t2.calls.length = 1 :=
  ⟨_, _, rfl, rfl, rfl⟩

/-- Counterexample to C7 as stated: an IDENTITY node with an empty memo
classifies the box of address 1 as INSIDE; the query with the box of address
2, a strict subset, inherits that result and leaves the cached address at 1,
not at the query box's address 2. -/
theorem shape_test_box_cache_update_counterexample :
    ∃ t1 t2, shape_test_box stub_surface_test_box subdiv_box_is_in
          (.mk IDENTITY 1 [] 0 0 []) (stub_box 1) 0 = some t1 ∧
      shape_test_box stub_surface_test_box subdiv_box_is_in t1.shape (stub_box 2) 0 = some t2 ∧
      t2.result = 1 ∧ t2.shape.last_box = 1 ∧ t2.shape.last_box ≠ (stub_box 2).subdiv :=
  ⟨_, _, rfl, rfl, rfl, rfl, by decide⟩

section BoxInherit

variable {S : Type} (surface_test_box : S → Box → Int) (box_is_in : Box → Nat → Int)

mutual
/-- The memo invariant holds once every memo is cleared. -/
theorem memo_ok_clear_memo : ∀ s : Shape S, memo_ok (clear_memo s) = true
  | .mk opc surface args lb lbr stats => by
    simp only [clear_memo, memo_ok, beq_self_eq_true, Bool.true_or, Bool.true_and]
    exact memo_ok_clear_memo_list args
/-- The memo invariant holds on a list of cleared shapes. -/
theorem memo_ok_clear_memo_list : ∀ l : List (Shape S),
    memo_ok_args (clear_memo_args l) = true
  | [] => by simp [clear_memo_args, memo_ok_args]
  | c :: cs => by
    simp only [clear_memo_args, memo_ok_args, Bool.and_eq_true]
    exact ⟨memo_ok_clear_memo c, memo_ok_clear_memo_list cs⟩
end

/-- A child that returned AMBIGUOUS holds the query box's address in its memo
afterwards, when the containment predicate reports equality only for a box
and its own address. -/
theorem shape_test_box_args_ambiguous
    (heq : ∀ (b : Box) (a : Nat), box_is_in b a = 0 → b.subdiv = a)
    (box : Box) (collect : Int) : ∀ (l : List (Shape S)) (t : BoxTests S),
    shape_test_box_args surface_test_box box_is_in l box collect = some t →
    (0 : Int) ∈ t.sub →
    t.shapes.any (fun c => c.last_box == box.subdiv && c.last_box_result == 0) = true
  | [], t, ht, h0 => by
    rw [shape_test_box_args] at ht
    cases ht
    simp at h0
  | c :: cs, t, ht, h0 => by
    obtain ⟨r, hr⟩ := shape_test_box_total surface_test_box box_is_in c box collect
    obtain ⟨t', ht'⟩ : ∃ t', shape_test_box_args surface_test_box box_is_in cs box collect
        = some t' := by
      obtain ⟨rs, -, h⟩ := shape_test_box_args_eq surface_test_box box_is_in cs box collect
      exact ⟨_, h⟩
    rw [shape_test_box_args, hr, ht'] at ht
    cases ht
    simp only [List.mem_cons] at h0
    simp only [List.any_cons, Bool.or_eq_true]
    rcases h0 with h0 | h0
    · left
      obtain ⟨hres, -, hcase⟩ :=
        shape_test_box_memo surface_test_box box_is_in c box collect r hr
      have hr0 : r.result = 0 := h0.symm
      have hlbr : r.shape.last_box_result = 0 := by rw [hres, hr0]
      have hlb : r.shape.last_box = box.subdiv := by
        rcases hcase with ⟨hm, hrt⟩ | ⟨-, hb⟩
        · have hc0 : c.last_box_result = 0 := by
            have := congrArg BoxTest.result hrt
            simp only at this
            rw [← this, hr0]
          rw [hc0] at hm
          have := memo_hit_ambiguous_exact box_is_in _ _ hm
          have hsh : r.shape = c := by rw [hrt]
          rw [hsh]
          exact (heq _ _ this.2).symm
        · exact hb
      simp [hlbr, hlb]
    · right
      exact shape_test_box_args_ambiguous heq box collect cs t' ht' h0

mutual
/-- The function `shape_test_box` preserves the memo invariant. -/
theorem memo_ok_shape_test_box
    (heq : ∀ (b : Box) (a : Nat), box_is_in b a = 0 → b.subdiv = a) :
    ∀ (s : Shape S) (box : Box) (collect : Int) (t : BoxTest S), memo_ok s = true →
      shape_test_box surface_test_box box_is_in s box collect = some t →
      memo_ok t.shape = true
  | .mk opc surface args lb lbr stats, box, collect, t, hok, ht => by
    have hargs_ok : memo_ok_args args = true := by
      simp only [memo_ok, Bool.and_eq_true] at hok
      exact hok.2
    cases h : memo_hit box_is_in lb lbr box
    · obtain ⟨rs, hrs, hargs⟩ :=
        shape_test_box_args_eq surface_test_box box_is_in args box collect
      have hlen : (gather rs).sub.length = args.length := by
        simp [gather, hrs.length_eq]
      have hch := memo_ok_shape_test_box_args heq args box collect _ hargs_ok hargs
      have hamb := shape_test_box_args_ambiguous surface_test_box box_is_in heq box collect
        args _ hargs
      cases opc
      · rw [shape_test_box_of_intersection surface_test_box box_is_in _ _ _ _ _ _ _ h _ hargs _
          (hlen ▸ geom_intersection_stride_one _)] at ht
        cases ht
        simp only [memo_ok, Bool.and_eq_true, Bool.or_eq_true, hch, and_true]
        by_cases hm : (-1 : Int) ∈ (gather rs).sub
        · simp [hm]
        · by_cases h0 : (0 : Int) ∈ (gather rs).sub
          · right
            simp [is_composite, hamb h0]
          · simp [hm, h0]
      · rw [shape_test_box_of_final surface_test_box box_is_in COMPLEMENT _ _ _ _ _ _ _ h rfl]
          at ht
        cases ht
        simp [memo_ok, is_final, hargs_ok]
      · rw [shape_test_box_of_empty surface_test_box box_is_in _ _ _ _ _ _ _ h] at ht
        cases ht
        simp [memo_ok, hargs_ok]
      · rw [shape_test_box_of_union surface_test_box box_is_in _ _ _ _ _ _ _ h _ hargs _
          (hlen ▸ geom_union_stride_one _)] at ht
        cases ht
        simp only [memo_ok, Bool.and_eq_true, Bool.or_eq_true, hch, and_true]
        by_cases hm : (1 : Int) ∈ (gather rs).sub
        · simp [hm]
        · by_cases h0 : (0 : Int) ∈ (gather rs).sub
          · right
            simp [is_composite, hamb h0]
          · simp [hm, h0]
      · rw [shape_test_box_of_final surface_test_box box_is_in IDENTITY _ _ _ _ _ _ _ h rfl]
          at ht
        cases ht
        simp [memo_ok, is_final, hargs_ok]
      · rw [shape_test_box_of_universe surface_test_box box_is_in _ _ _ _ _ _ _ h] at ht
        cases ht
        simp [memo_ok, hargs_ok]
    · rw [shape_test_box_of_hit surface_test_box box_is_in _ _ _ _ _ _ _ _ h] at ht
      cases ht
      exact hok
/-- The child loop of `shape_test_box` preserves the memo invariant. -/
theorem memo_ok_shape_test_box_args
    (heq : ∀ (b : Box) (a : Nat), box_is_in b a = 0 → b.subdiv = a) :
    ∀ (l : List (Shape S)) (box : Box) (collect : Int) (t : BoxTests S),
      memo_ok_args l = true →
      shape_test_box_args surface_test_box box_is_in l box collect = some t →
      memo_ok_args t.shapes = true
  | [], box, collect, t, _, ht => by
    rw [shape_test_box_args] at ht
    cases ht
    simp [memo_ok_args]
  | c :: cs, box, collect, t, hok, ht => by
    simp only [memo_ok_args, Bool.and_eq_true] at hok
    obtain ⟨r, hr⟩ := shape_test_box_total surface_test_box box_is_in c box collect
    obtain ⟨t', ht'⟩ : ∃ t', shape_test_box_args surface_test_box box_is_in cs box collect
        = some t' := by
      obtain ⟨rs, -, h⟩ := shape_test_box_args_eq surface_test_box box_is_in cs box collect
      exact ⟨_, h⟩
    rw [shape_test_box_args, hr, ht'] at ht
    cases ht
    simp only [memo_ok_args, Bool.and_eq_true]
    exact ⟨memo_ok_shape_test_box heq c box collect r hok.1 hr,
      memo_ok_shape_test_box_args heq cs box collect t' hok.2 ht'⟩
end

end BoxInherit

/-! ### The modelled containment predicate -/

theorem descends_iff (a b : Nat) :
    descends a b = true ↔ a ≠ 0 ∧ ∃ k, b / 2 ^ (k + 1) = a := by
  simp only [descends, Bool.and_eq_true, bne_iff_ne, ne_eq, List.any_eq_true, List.mem_range,
    beq_iff_eq]
  constructor
  · rintro ⟨ha, k, -, hk⟩
    exact ⟨ha, k, hk⟩
  · rintro ⟨ha, k, hk⟩
    refine ⟨ha, k, ?_, hk⟩
    by_contra hlt
    have h1 : b < 2 ^ (k + 1) :=
      lt_of_le_of_lt (not_lt.1 hlt) (lt_trans (Nat.lt_succ_self k) (Nat.lt_two_pow (k + 1)))
    rw [Nat.div_eq_of_lt h1] at hk
    exact ha hk.symm

theorem descends_lt (a b : Nat) (h : descends a b = true) : a < b := by
  obtain ⟨ha, k, hk⟩ := (descends_iff a b).1 h
  have hb : b ≠ 0 := by
    rintro rfl
    simp at hk
    exact ha hk.symm
  rw [← hk]
  exact Nat.div_lt_self (Nat.pos_of_ne_zero hb) (Nat.one_lt_two_pow (by omega))

theorem descends_trans (a b c : Nat) (h1 : descends a b = true) (h2 : descends b c = true) :
    descends a c = true := by
  obtain ⟨ha, k, hk⟩ := (descends_iff a b).1 h1
  obtain ⟨-, j, hj⟩ := (descends_iff b c).1 h2
  refine (descends_iff a c).2 ⟨ha, j + 1 + k, ?_⟩
  rw [← hk, ← hj, Nat.div_div_eq_div_mul, ← pow_add]
  congr 2

/-- The modelled predicate reports equality only for a box and its own
address. -/
theorem subdiv_box_is_in_eq_zero (b : Box) (a : Nat) (h : subdiv_box_is_in b a = 0) :
    b.subdiv = a := by
  unfold subdiv_box_is_in at h
  by_contra hne
  rw [if_neg hne] at h
  by_cases hd : descends a b.subdiv = true
  · rw [if_pos hd] at h
    omega
  · rw [if_neg hd] at h
    omega

/-- The modelled predicate is positive exactly on the strict descendants. -/
theorem subdiv_box_is_in_pos_iff (b : Box) (a : Nat) :
    subdiv_box_is_in b a > 0 ↔ descends a b.subdiv = true := by
  unfold subdiv_box_is_in
  by_cases he : b.subdiv = a
  · have hd : ¬ descends a b.subdiv = true := fun hd => by
      have := descends_lt _ _ hd
      omega
    simp [he, hd, he ▸ hd]
  · by_cases hd : descends a b.subdiv = true
    · simp [he, hd]
    · simp [he, hd]

/-- The modelled predicate is transitive: a box strictly inside `b` is
strictly inside every box that `b` is equal to or inside. -/
theorem subdiv_box_is_in_trans (b b' : Box) (a : Nat) (h1 : subdiv_box_is_in b a ≥ 0)
    (h2 : subdiv_box_is_in b' b.subdiv > 0) : subdiv_box_is_in b' a > 0 := by
  rw [subdiv_box_is_in_pos_iff] at h2 ⊢
  by_cases he : b.subdiv = a
  · rw [← he]
    exact h2
  · have hpos : subdiv_box_is_in b a > 0 := by
      have hne : subdiv_box_is_in b a ≠ 0 := fun h0 => he (subdiv_box_is_in_eq_zero b a h0)
      omega
    rw [subdiv_box_is_in_pos_iff] at hpos
    exact descends_trans _ _ _ hpos h2

section BoxAmbiguous

variable {S : Type} (surface_test_box : S → Box → Int) (box_is_in : Box → Nat → Int)

mutual
/-- A node whose memo holds the result AMBIGUOUS for a box calls the Surface
classifier at least once when it is queried with a box strictly inside the
memoised one. -/
theorem shape_test_box_calls_of_ambiguous : ∀ (s : Shape S) (box : Box) (collect : Int),
    memo_ok s = true → s.last_box ≠ 0 → s.last_box_result = 0 →
    box_is_in box s.last_box > 0 →
    ∃ t, shape_test_box surface_test_box box_is_in s box collect = some t ∧ t.calls ≠ []
  | .mk opc surface args lb lbr stats, box, collect, hok, hlb, hres, hin => by
    simp only [Shape.last_box, Shape.last_box_result] at hres hin hlb
    subst hres
    have h := memo_hit_of_ambiguous box_is_in lb box hin
    simp only [memo_ok, Bool.and_eq_true, Bool.or_eq_true, beq_iff_eq, bne_iff_ne, ne_eq,
      not_true_eq_false, or_false] at hok
    obtain ⟨hnode, hargs_ok⟩ := hok
    have hchild : is_final opc = false →
        ∃ ta, shape_test_box_args surface_test_box box_is_in args box collect = some ta ∧
          ta.calls ≠ [] ∧ ta.sub.length = args.length := by
      intro hf
      rcases hnode with (hnode | hnode) | hnode
      · exact absurd hnode hlb
      · rw [hf] at hnode
        cases hnode
      · exact shape_test_box_args_calls_of_ambiguous args lb box collect hargs_ok hlb hin
          hnode.2
    cases opc
    · obtain ⟨ta, hta, hcalls, hlen⟩ := hchild rfl
      exact ⟨_, shape_test_box_of_intersection surface_test_box box_is_in _ _ _ _ _ _ _ h _
        hta _ (hlen ▸ geom_intersection_stride_one _), hcalls⟩
    · exact ⟨_, shape_test_box_of_final surface_test_box box_is_in COMPLEMENT _ _ _ _ _ _ _ h
        rfl, by simp⟩
    · rcases hnode with (hnode | hnode) | hnode
      · exact absurd hnode hlb
      · cases hnode
      · cases hnode.1
    · obtain ⟨ta, hta, hcalls, hlen⟩ := hchild rfl
      exact ⟨_, shape_test_box_of_union surface_test_box box_is_in _ _ _ _ _ _ _ h _
        hta _ (hlen ▸ geom_union_stride_one _), hcalls⟩
    · exact ⟨_, shape_test_box_of_final surface_test_box box_is_in IDENTITY _ _ _ _ _ _ _ h
        rfl, by simp⟩
    · rcases hnode with (hnode | hnode) | hnode
      · exact absurd hnode hlb
      · cases hnode
      · cases hnode.1
/-- The child loop calls the Surface classifier at least once when some child
holds the result AMBIGUOUS for a box that the query box is strictly inside. -/
theorem shape_test_box_args_calls_of_ambiguous : ∀ (l : List (Shape S)) (lb : Nat) (box : Box)
    (collect : Int), memo_ok_args l = true → lb ≠ 0 → box_is_in box lb > 0 →
    l.any (fun c => c.last_box == lb && c.last_box_result == 0) = true →
    ∃ ta, shape_test_box_args surface_test_box box_is_in l box collect = some ta ∧
      ta.calls ≠ [] ∧ ta.sub.length = l.length
  | [], lb, box, collect, _, _, _, hany => by simp at hany
  | c :: cs, lb, box, collect, hok, hlb, hin, hany => by
    simp only [memo_ok_args, Bool.and_eq_true] at hok
    obtain ⟨rs, hrs, hcs⟩ := shape_test_box_args_eq surface_test_box box_is_in cs box collect
    simp only [List.any_cons, Bool.or_eq_true, Bool.and_eq_true, beq_iff_eq] at hany
    rcases hany with ⟨hclb, hcres⟩ | hany
    · obtain ⟨r, hr, hcalls⟩ :=
        shape_test_box_calls_of_ambiguous c box collect hok.1 (hclb ▸ hlb) hcres (hclb ▸ hin)
      refine ⟨_, by rw [shape_test_box_args, hr, hcs], ?_, ?_⟩
      · simp [hcalls]
      · simp [gather, hrs.length_eq]
    · obtain ⟨r, hr⟩ := shape_test_box_total surface_test_box box_is_in c box collect
      obtain ⟨ta, hta, hcalls, hlen⟩ :=
        shape_test_box_args_calls_of_ambiguous cs lb box collect hok.2 hlb hin hany
      refine ⟨_, by rw [shape_test_box_args, hr, hta], ?_, ?_⟩
      · simp [hcalls]
      · simp [hlen]
end

end BoxAmbiguous

/-- C6 (amended): let the memo state satisfy the invariant `memo_ok` that
holds from cleared memos on, let `B` be a box with a nonzero subdivision
address, and let the containment predicate report equality only for a box and
its own address and be transitive. Then `shape_test_box` classifies `B` with a
result `r` such that: when `r` is INSIDE or OUTSIDE, every query with a box
strictly inside `B` returns `r` with no Surface call and leaves the node as it
was (so this holds for every later such query as well); when `r` is AMBIGUOUS,
the next query with a box strictly inside `B` makes at least one Surface
call. -/
theorem shape_test_box_inherit {S : Type} (surface_test_box : S → Box → Int)
    (box_is_in : Box → Nat → Int) (s : Shape S) (B : Box) (collect : Int)
    (hB : B.subdiv ≠ 0)
    (heq : ∀ (b : Box) (a : Nat), box_is_in b a = 0 → b.subdiv = a)
    (htrans : ∀ (b b' : Box) (a : Nat), box_is_in b a ≥ 0 → box_is_in b' b.subdiv > 0 →
      box_is_in b' a > 0)
    (hok : memo_ok s = true) :
    ∃ t, shape_test_box surface_test_box box_is_in s B collect = some t ∧
      ((t.result = BOX_INSIDE_SHAPE ∨ t.result = BOX_OUTSIDE_SHAPE) →
        ∀ (b' : Box) (collect' : Int), box_is_in b' B.subdiv > 0 →
          shape_test_box surface_test_box box_is_in t.shape b' collect'
            = some ⟨t.result, t.shape, []⟩) ∧
      (t.result = BOX_CAN_INTERSECT_SHAPE →
        ∀ (b' : Box) (collect' : Int), box_is_in b' B.subdiv > 0 →
          ∃ t', shape_test_box surface_test_box box_is_in t.shape b' collect' = some t' ∧
            t'.calls ≠ []) := by
  obtain ⟨t, ht⟩ := shape_test_box_total surface_test_box box_is_in s B collect
  obtain ⟨hres, -, hcase⟩ := shape_test_box_memo surface_test_box box_is_in s B collect t ht
  have hok' := memo_ok_shape_test_box surface_test_box box_is_in heq s B collect t hok ht
  refine ⟨t, ht, ?_, ?_⟩
  · intro hr b' collect' hin
    have hr0 : t.result ≠ 0 := by
      rcases hr with hr | hr <;> rw [hr] <;> decide
    have hlb : t.shape.last_box ≠ 0 ∧ box_is_in b' t.shape.last_box > 0 := by
      rcases hcase with ⟨hm, hte⟩ | ⟨-, hbox⟩
      · have hsh : t.shape = s := by rw [hte]
        rw [hsh]
        obtain ⟨h1, h2, -⟩ := memo_hit_nonneg box_is_in _ _ _ hm
        exact ⟨h1, htrans B b' _ h2 hin⟩
      · rw [hbox]
        exact ⟨hB, hin⟩
    obtain ⟨r, s1, c⟩ := t
    obtain ⟨opc, surface, args, lb, lbr, stats⟩ := s1
    simp only [Shape.last_box, Shape.last_box_result] at hres hlb hr0
    subst hres
    exact shape_test_box_of_hit surface_test_box box_is_in _ _ _ _ _ _ _ _
      (memo_hit_of_inside box_is_in _ _ _ hlb.1 hlb.2 hr0)
  · intro hr b' collect' hin
    have hr0 : t.result = 0 := hr
    have hlb : t.shape.last_box = B.subdiv := by
      rcases hcase with ⟨hm, hte⟩ | ⟨-, hbox⟩
      · have hsh : t.shape = s := by rw [hte]
        have hs0 : s.last_box_result = 0 := by
          rw [← hsh, hres, hr0]
        rw [hs0] at hm
        rw [hsh]
        exact (heq _ _ (memo_hit_ambiguous_exact box_is_in _ _ hm).2).symm
      · exact hbox
    exact shape_test_box_calls_of_ambiguous surface_test_box box_is_in t.shape b' collect' hok'
      (hlb ▸ hB) (hres.trans hr0) (hlb ▸ hin)

/-- Witness for C6 (amended): an INTERSECTION of an INSIDE and an AMBIGUOUS
surface with cleared memos, first classified on the box of address 1. -/
theorem shape_test_box_inherit_witness :
    (stub_box 1).subdiv ≠ 0 ∧
    (∀ (b : Box) (a : Nat), subdiv_box_is_in b a = 0 → b.subdiv = a) ∧
    (∀ (b b' : Box) (a : Nat), subdiv_box_is_in b a ≥ 0 → subdiv_box_is_in b' b.subdiv > 0 →
      subdiv_box_is_in b' a > 0) ∧
    memo_ok (Shape.mk INTERSECTION (0 : Int)
      [.mk IDENTITY 1 [] 0 0 [], .mk IDENTITY 0 [] 0 0 []] 0 0 []) = true ∧
    ∃ t, shape_test_box stub_surface_test_box subdiv_box_is_in
          (.mk INTERSECTION 0 [.mk IDENTITY 1 [] 0 0 [], .mk IDENTITY 0 [] 0 0 []] 0 0 [])
          (stub_box 1) 0 = some t ∧
      ((t.result = BOX_INSIDE_SHAPE ∨ t.result = BOX_OUTSIDE_SHAPE) →
        ∀ (b' : Box) (collect' : Int), subdiv_box_is_in b' (stub_box 1).subdiv > 0 →
          shape_test_box stub_surface_test_box subdiv_box_is_in t.shape b' collect'
            = some ⟨t.result, t.shape, []⟩) ∧
      (t.result = BOX_CAN_INTERSECT_SHAPE →
        ∀ (b' : Box) (collect' : Int), subdiv_box_is_in b' (stub_box 1).subdiv > 0 →
          ∃ t', shape_test_box stub_surface_test_box subdiv_box_is_in t.shape b' collect'
              = some t' ∧
            t'.calls ≠ []) :=
  ⟨by decide, subdiv_box_is_in_eq_zero, subdiv_box_is_in_trans, by decide,
    shape_test_box_inherit stub_surface_test_box subdiv_box_is_in _ (stub_box 1) 0 (by decide)
      subdiv_box_is_in_eq_zero subdiv_box_is_in_trans (by decide)⟩

/-- Counterexample to C6 as stated: an IDENTITY node with an AMBIGUOUS stub
surface classifies the box of address 1 as AMBIGUOUS; the box of address 2 is
strictly inside it and the first query with it recomputes, but the next query
with the same box, also a later query with a strict-subset box of the first
one, is an exact repeat and makes no Surface call. -/
theorem shape_test_box_inherit_counterexample :
    ∃ t1 t2 t3, shape_test_box stub_surface_test_box subdiv_box_is_in
          (.mk IDENTITY 0 [] 0 0 []) (stub_box 1) 0 = some t1 ∧
      t1.result = BOX_CAN_INTERSECT_SHAPE ∧
      subdiv_box_is_in (stub_box 2) (stub_box 1).subdiv > 0 ∧
      shape_test_box stub_surface_test_box subdiv_box_is_in t1.shape (stub_box 2) 0 = some t2 ∧
      shape_test_box stub_surface_test_box subdiv_box_is_in t2.shape (stub_box 2) 0 = some t3 ∧
      t3.calls = [] :=
  ⟨_, _, _, rfl, rfl, by decide, rfl, rfl, rfl⟩

/-! ## The point classifier (C8 to C10) -/

/-! ### What `shape_test_points` does on every input -/

/-- The loop `for (i = 0; i < npts; ++i) result[i] = f(i)` with values `g i`:
it writes the cells `off .. off + npts - 1` and no other. -/
theorem store_loop_spec (f : Nat → Option Int) (g : Nat → Int) (off : Nat) :
    ∀ (n : Nat) (buf : List Int), (∀ j < n, f j = some (g j)) → off + n ≤ buf.length →
    ∃ b, store_loop f off n buf = some b ∧ b.length = buf.length ∧
      (∀ j < n, b[off + j]? = some (g j)) ∧
      (∀ i, (i < off ∨ off + n ≤ i) → b[i]? = buf[i]?)
  | 0, buf, _, _ => ⟨buf, rfl, rfl, fun j hj => absurd hj (Nat.not_lt_zero j), fun _ _ => rfl⟩
  | n + 1, buf, hf, hlen => by
    obtain ⟨b, hb, hblen, hbval, hbframe⟩ :=
      store_loop_spec f g off n buf (fun j hj => hf j (Nat.lt_succ_of_lt hj)) (by omega)
    refine ⟨b.set (off + n) (g n), ?_, ?_, ?_, ?_⟩
    · rw [store_loop, hb, hf n (Nat.lt_succ_self n)]
    · rw [List.length_set, hblen]
    · intro j hj
      by_cases hjn : j = n
      · subst hjn
        exact List.getElem?_set_self (by omega)
      · rw [List.getElem?_set_ne (by omega)]
        exact hbval j (by omega)
    · intro i hi
      rw [List.getElem?_set_ne (by omega)]
      exact hbframe i (by omega)

/-- The scan of `geom_intersection` with a stride `inc ≥ 1` inside the array
returns; the value is the one it held, or `-1`, or `0` read from a cell. -/
theorem geom_intersection_loop_total (args : List Int) (n inc : Nat) (hinc : 1 ≤ inc)
    (hn : n ≤ args.length) : ∀ (fuel i : Nat) (result : Int), n ≤ i + fuel * inc →
    ∃ v, geom_intersection_loop args n inc fuel i result = some v ∧
      (v = result ∨ v = -1 ∨ (v = 0 ∧ ∃ m < n, args[m]? = some 0))
  | 0, i, result, h => by
    have : ¬ i < n := by omega
    exact ⟨result, by rw [geom_intersection_loop, if_neg this], Or.inl rfl⟩
  | fuel + 1, i, result, h => by
    rw [geom_intersection_loop]
    by_cases hi : i < n
    · have hget : args[i]? = some args[i] := List.getElem?_eq_getElem (by omega)
      have hfuel : n ≤ i + inc + fuel * inc := by
        have : (fuel + 1) * inc = fuel * inc + inc := Nat.succ_mul fuel inc
        omega
      rw [if_pos hi, hget]
      simp only
      by_cases h0 : args[i] = 0
      · rw [if_pos h0]
        obtain ⟨v, hv, hcase⟩ := geom_intersection_loop_total args n inc hinc hn fuel (i + inc) 0
          hfuel
        refine ⟨v, hv, ?_⟩
        rcases hcase with h1 | h1 | h1
        · exact Or.inr (Or.inr ⟨h1, i, hi, by rw [hget, h0]⟩)
        · exact Or.inr (Or.inl h1)
        · exact Or.inr (Or.inr h1)
      · rw [if_neg h0]
        by_cases h1 : args[i] = -1
        · rw [if_pos h1]
          exact ⟨-1, rfl, Or.inr (Or.inl rfl)⟩
        · rw [if_neg h1]
          exact geom_intersection_loop_total args n inc hinc hn fuel (i + inc) result hfuel
    · exact ⟨result, by rw [if_neg hi], Or.inl rfl⟩

/-- The scan of `geom_union` with a stride `inc ≥ 1` inside the array returns;
the value is the one it held, or `+1`, or `0` read from a cell. -/
theorem geom_union_loop_total (args : List Int) (n inc : Nat) (hinc : 1 ≤ inc)
    (hn : n ≤ args.length) : ∀ (fuel i : Nat) (result : Int), n ≤ i + fuel * inc →
    ∃ v, geom_union_loop args n inc fuel i result = some v ∧
      (v = result ∨ v = 1 ∨ (v = 0 ∧ ∃ m < n, args[m]? = some 0))
  | 0, i, result, h => by
    have : ¬ i < n := by omega
    exact ⟨result, by rw [geom_union_loop, if_neg this], Or.inl rfl⟩
  | fuel + 1, i, result, h => by
    rw [geom_union_loop]
    by_cases hi : i < n
    · have hget : args[i]? = some args[i] := List.getElem?_eq_getElem (by omega)
      have hfuel : n ≤ i + inc + fuel * inc := by
        have : (fuel + 1) * inc = fuel * inc + inc := Nat.succ_mul fuel inc
        omega
      rw [if_pos hi, hget]
      simp only
      by_cases h0 : args[i] = 0
      · rw [if_pos h0]
        obtain ⟨v, hv, hcase⟩ := geom_union_loop_total args n inc hinc hn fuel (i + inc) 0 hfuel
        refine ⟨v, hv, ?_⟩
        rcases hcase with h1 | h1 | h1
        · exact Or.inr (Or.inr ⟨h1, i, hi, by rw [hget, h0]⟩)
        · exact Or.inr (Or.inl h1)
        · exact Or.inr (Or.inr h1)
      · rw [if_neg h0]
        by_cases h1 : args[i] = 1
        · rw [if_pos h1]
          exact ⟨1, rfl, Or.inr (Or.inl rfl)⟩
        · rw [if_neg h1]
          exact geom_union_loop_total args n inc hinc hn fuel (i + inc) result hfuel
    · exact ⟨result, by rw [if_neg hi], Or.inl rfl⟩

/-- With a stride `inc ≥ 1` inside the array `geom_intersection` returns `+1`,
`-1`, or `0` read from a cell. -/
theorem geom_intersection_total (args : List Int) (n inc : Nat) (hinc : 1 ≤ inc)
    (hn : n ≤ args.length) :
    ∃ v, geom_intersection args n inc = some v ∧
      (v = 1 ∨ v = -1 ∨ (v = 0 ∧ ∃ m < n, args[m]? = some 0)) :=
  geom_intersection_loop_total args n inc hinc hn n 0 1 (by
    have : n * 1 ≤ n * inc := Nat.mul_le_mul_left n hinc
    omega)

/-- With a stride `inc ≥ 1` inside the array `geom_union` returns `-1`, `+1`,
or `0` read from a cell. -/
theorem geom_union_total (args : List Int) (n inc : Nat) (hinc : 1 ≤ inc)
    (hn : n ≤ args.length) :
    ∃ v, geom_union args n inc = some v ∧
      (v = -1 ∨ v = 1 ∨ (v = 0 ∧ ∃ m < n, args[m]? = some 0)) :=
  geom_union_loop_total args n inc hinc hn n 0 (-1) (by
    have : n * 1 ≤ n * inc := Nat.mul_le_mul_left n hinc
    omega)


section PointsRun

variable {S P : Type} (surface_point : S → P → Nat → Int) (malloc : Malloc)

theorem shape_test_points_of_composite_null (opc : Operation) (surface : S)
    (args : List (Shape S)) (lb : Nat) (lbr : Int) (stats : List (List Int × ℚ)) (npts : Nat)
    (points : P) (buf : List Int) (off k : Nat) (hf : is_final opc = false)
    (hv : is_void opc = false) (hm : malloc k = none) :
    shape_test_points surface_point malloc (.mk opc surface args lb lbr stats) npts points buf
      off k = some ⟨SHAPE_NO_MEMORY, buf, k + 1⟩ := by
  rw [shape_test_points, if_neg (by simp [hf]), if_neg (by simp [hv])]
  simp only [hm]

/-- The `char` view of an `int` array has four bytes for each cell. -/
theorem char_view_length (cells : List Int) : (char_view cells).length = 4 * cells.length := by
  induction cells with
  | nil => rfl
  | cons v t ih =>
    simp only [char_view, List.flatMap_cons, List.length_append, List.length_cons,
      List.length_nil] at ih ⊢
    omega

mutual
/-- The function `shape_test_points` returns whenever `result` has room for `npts` cells;
it writes only the cells `result[0 .. npts - 1]`; and it returns
`SHAPE_NO_MEMORY` exactly when the node is composite and its own `malloc`
fails, success otherwise. -/
theorem shape_test_points_total : ∀ (s : Shape S) (npts : Nat) (points : P) (buf : List Int)
    (off k : Nat), off + npts ≤ buf.length →
    ∃ r, shape_test_points surface_point malloc s npts points buf off k = some r ∧
      r.buf.length = buf.length ∧
      (∀ i, (i < off ∨ off + npts ≤ i) → r.buf[i]? = buf[i]?) ∧
      (r.status = SHAPE_NO_MEMORY ↔
        (is_final s.opc = false ∧ is_void s.opc = false ∧ malloc k = none)) ∧
      (r.status = SHAPE_NO_MEMORY ∨ r.status = NODE_SUCCESS)
  | .mk opc surface args lb lbr stats, npts, points, buf, off, k, hlen => by
    have hfinal : is_final opc = true →
        ∃ r, shape_test_points surface_point malloc (.mk opc surface args lb lbr stats) npts
            points buf off k = some r ∧
          r.buf.length = buf.length ∧
          (∀ i, (i < off ∨ off + npts ≤ i) → r.buf[i]? = buf[i]?) ∧
          r.status = NODE_SUCCESS := by
      intro hf
      obtain ⟨b, hb, hbl, hbv, hbf⟩ := store_loop_spec
        (fun j => some (surface_point surface points j)) (fun j => surface_point surface points j)
        off npts buf (fun _ _ => rfl) hlen
      rw [shape_test_points, if_pos hf, surface_test_points, hb]
      by_cases hc : opc = COMPLEMENT
      · obtain ⟨b1, hb1, hb1l, hb1v, hb1f⟩ := store_loop_spec
          (fun i => (b[off + i]?).map geom_complement)
          (fun j => geom_complement (surface_point surface points j))
          off npts b (fun j hj => by simp [hbv j hj]) (by omega)
        simp only [if_pos hc, hb1]
        exact ⟨_, rfl, by simp [hb1l, hbl], fun i hi => by simp only; rw [hb1f i hi, hbf i hi],
          rfl⟩
      · simp only [if_neg hc]
        exact ⟨_, rfl, hbl, hbf, rfl⟩
    have hvoid : is_final opc = false → is_void opc = true →
        ∃ r, shape_test_points surface_point malloc (.mk opc surface args lb lbr stats) npts
            points buf off k = some r ∧
          r.buf.length = buf.length ∧
          (∀ i, (i < off ∨ off + npts ≤ i) → r.buf[i]? = buf[i]?) ∧
          r.status = NODE_SUCCESS := by
      intro hf hv
      obtain ⟨b, hb, hbl, hbv, hbf⟩ := store_loop_spec
        (fun _ => some (if opc = UNIVERSE then (1 : Int) else -1))
        (fun _ => if opc = UNIVERSE then (1 : Int) else -1)
        off npts buf (fun _ _ => rfl) hlen
      rw [shape_test_points, if_neg (by simp [hf]), if_pos hv]
      simp only [hb]
      exact ⟨_, rfl, hbl, hbf, rfl⟩
    have hcomp : is_final opc = false → is_void opc = false →
        ∃ r, shape_test_points surface_point malloc (.mk opc surface args lb lbr stats) npts
            points buf off k = some r ∧
          r.buf.length = buf.length ∧
          (∀ i, (i < off ∨ off + npts ≤ i) → r.buf[i]? = buf[i]?) ∧
          (r.status = SHAPE_NO_MEMORY ↔ malloc k = none) ∧
          (r.status = SHAPE_NO_MEMORY ∨ r.status = NODE_SUCCESS) := by
      intro hf hv
      cases hm : malloc k with
      | none =>
        exact ⟨_, shape_test_points_of_composite_null surface_point malloc _ _ _ _ _ _ _ _ _ _ _
          hf hv hm, rfl, fun _ _ => rfl, by simp, Or.inl rfl⟩
      | some cells =>
        obtain ⟨r, hr, hrl, -⟩ := shape_test_points_args_total args npts points
          ((List.range (args.length * npts)).map cells) 0 (k + 1) (by simp)
        have hsub : args.length * npts ≤ (char_view r.1).length := by
          rw [char_view_length, hrl]
          simp
          omega
        have hop : ∀ j < npts, (fun (_ : Nat) =>
            if opc = INTERSECTION
              then geom_intersection (char_view r.1) (args.length * npts) npts
            else geom_union (char_view r.1) (args.length * npts) npts) j
            = some ((fun (_ : Nat) =>
                ((if opc = INTERSECTION
                    then geom_intersection (char_view r.1) (args.length * npts) npts
                  else geom_union (char_view r.1) (args.length * npts) npts).getD 0)) j) := by
          intro j hj
          have hinc : 1 ≤ npts := by omega
          by_cases hi : opc = INTERSECTION
          · obtain ⟨v, hv', -⟩ := geom_intersection_total (char_view r.1) _ npts hinc hsub
            simp [hi, hv']
          · obtain ⟨v, hv', -⟩ := geom_union_total (char_view r.1) _ npts hinc hsub
            simp [hi, hv']
        obtain ⟨b, hb, hbl, hbv, hbf⟩ := store_loop_spec _ _ off npts buf hop hlen
        rw [shape_test_points, if_neg (by simp [hf]), if_neg (by simp [hv])]
        simp only [hm, hr, hb]
        exact ⟨_, rfl, hbl, hbf, by simp [NODE_SUCCESS, SHAPE_NO_MEMORY], Or.inr rfl⟩
    simp only [Shape.opc]
    cases hf : is_final opc
    · cases hv : is_void opc
      · obtain ⟨r, hr, h1, h2, h3, h4⟩ := hcomp hf hv
        exact ⟨r, hr, h1, h2, by simpa using h3, h4⟩
      · obtain ⟨r, hr, h1, h2, h3⟩ := hvoid hf hv
        exact ⟨r, hr, h1, h2, by simp [h3, NODE_SUCCESS, SHAPE_NO_MEMORY], Or.inr h3⟩
    · obtain ⟨r, hr, h1, h2, h3⟩ := hfinal hf
      exact ⟨r, hr, h1, h2, by simp [h3, NODE_SUCCESS, SHAPE_NO_MEMORY], Or.inr h3⟩
/-- The child loop of `shape_test_points` returns whenever `sub` has room for
the rows of the children that remain, and writes only those rows. -/
theorem shape_test_points_args_total : ∀ (l : List (Shape S)) (npts : Nat) (points : P)
    (sub : List Int) (i k : Nat), (i + l.length) * npts ≤ sub.length →
    ∃ r, shape_test_points_args surface_point malloc l npts points sub i k = some r ∧
      r.1.length = sub.length ∧
      (∀ m, (m < i * npts ∨ (i + l.length) * npts ≤ m) → r.1[m]? = sub[m]?)
  | [], npts, points, sub, i, k, _ => ⟨(sub, k), by rw [shape_test_points_args], rfl,
      fun _ _ => rfl⟩
  | c :: cs, npts, points, sub, i, k, hlen => by
    have e1 : (i + (c :: cs).length) * npts = (i + 1 + cs.length) * npts := by
      simp only [List.length_cons]; ring_nf
    have e2 : (i + 1 + cs.length) * npts = i * npts + npts + cs.length * npts := by ring
    have e3 : (i + 1) * npts = i * npts + npts := by ring
    rw [e1] at hlen
    obtain ⟨r, hr, hrl, hrf, -, -⟩ := shape_test_points_total c npts points sub (i * npts) k
      (by omega)
    obtain ⟨r2, hr2, hr2l, hr2f⟩ := shape_test_points_args_total cs npts points r.buf
      (i + 1) r.mallocs (by omega)
    refine ⟨r2, by rw [shape_test_points_args, hr]; exact hr2, by omega, ?_⟩
    intro m hm
    rw [e1] at hm
    rw [hr2f m (by omega), hrf m (by omega)]
end

end PointsRun

/-- C8, the code at the failing input: for `S = A UNION B` and two points,
where `A` gives `-1, +1` and `B` gives `-1, -1`, the reference value of point
1 is `+1` (INSIDE under `A`), yet `shape_test_points` succeeds and writes `-1`
to `result[1]`: the call `(*op)(sub, n * npts, npts)` does not depend on `i`,
so every `result[i]` is combined from the same bytes of `sub`, here the bytes
0 and 2, which both belong to `sub[0] = -1`. -/
theorem shape_test_points_column_zero :
    ∃ r, shape_test_points stub_surface_point malloc_ok
          (.mk UNION [] [.mk IDENTITY [-1, 1] [] 0 0 [], .mk IDENTITY [-1, -1] [] 0 0 []] 0 0 [])
          2 () [0, 0] 0 0 = some r ∧
      r.status = SHAPE_SUCCESS ∧ r.buf = [-1, -1] ∧
      point_reference stub_surface_point
          (.mk UNION [] [.mk IDENTITY [-1, 1] [] 0 0 [], .mk IDENTITY [-1, -1] [] 0 0 []] 0 0 [])
          () 1 = some 1 ∧
      point_reference stub_surface_point (.mk IDENTITY [-1, 1] [] 0 0 []) () 1 = some 1 :=
  ⟨_, rfl, rfl, rfl, rfl, rfl⟩

/-- C9, the code at the failing input: an INTERSECTION whose only child is a
UNION of one surface that gives `+1` to both points. The `malloc` of the child
fails, the child returns without writing its row of `sub`, the parent drops
the status and combines the cells as `malloc` left them (here 0): it returns
success with `0` written to both entries of `result`. -/
theorem shape_test_points_writes_zero :
    ∃ r, shape_test_points stub_surface_point malloc_second_fails
          (.mk INTERSECTION [] [.mk UNION [] [.mk IDENTITY [1, 1] [] 0 0 []] 0 0 []] 0 0 [])
          2 () [1, 1] 0 0 = some r ∧
      r.buf = [0, 0] :=
  ⟨_, rfl, rfl⟩

/-- C10, the code at the failing input: an INTERSECTION whose only child is a
UNION of one surface. The second `malloc` of the call, made while classifying
the nested UNION, fails; `shape_test_points` still returns success (0), not
`SHAPE_NO_MEMORY`. -/
theorem shape_test_points_nested_no_memory :
    malloc_second_fails 1 = none ∧
    ∃ r, shape_test_points stub_surface_point malloc_second_fails
          (.mk INTERSECTION [] [.mk UNION [] [.mk IDENTITY [1] [] 0 0 []] 0 0 []] 0 0 [])
          1 () [1] 0 0 = some r ∧
      r.mallocs = 2 ∧ r.status = 0 ∧ r.status ≠ SHAPE_NO_MEMORY :=
  ⟨rfl, _, rfl, rfl, rfl, by decide⟩

/-- The bytes of the `int` values that the classifiers produce: `+1` is the
byte 1 followed by three bytes 0, `-1` is four bytes `-1`. -/
theorem char_view_values :
    char_view [1, -1, 0] = [1, 0, 0, 0, -1, -1, -1, -1, 0, 0, 0, 0] := by
  decide

/-- The combining functions read the `int` scratch array through a `char *`:
for an INTERSECTION of two surfaces that give `+1` to both of two points, with
no failing `malloc`, the cells read are the bytes 0 and 2 of `sub`, which are
the lowest byte of `sub[0]` (1) and a zero byte of the same cell, and
`shape_test_points` writes 0 to both entries of `result`. -/
theorem shape_test_points_reads_bytes :
    ∃ r, shape_test_points stub_surface_point malloc_ok
          (.mk INTERSECTION [] [.mk IDENTITY [1, 1] [] 0 0 [], .mk IDENTITY [1, 1] [] 0 0 []]
            0 0 [])
          2 () [7, 7] 0 0 = some r ∧
      r.status = SHAPE_SUCCESS ∧ r.buf = [0, 0] :=
  ⟨_, rfl, rfl, rfl⟩

/-! ## The adaptive refiner (C11 to C13) -/

section Refiner

variable {S : Type} (surface_test_box : S → Box → Int) (box_is_in : Box → Nat → Int)
  (box_split : Box → Int → ℚ → Box × Box)

/-- A result of `shape_ultimate_test_box` does not depend on the depth bound,
once the bound is large enough for the call to return. -/
theorem shape_ultimate_test_box_fuel_succ : ∀ (fuel : Nat) (s : Shape S) (box : Box)
    (min_vol : ℚ) (t : BoxTest S),
    shape_ultimate_test_box surface_test_box box_is_in box_split fuel s box min_vol = some t →
    shape_ultimate_test_box surface_test_box box_is_in box_split (fuel + 1) s box min_vol
      = some t
  | 0, s, box, min_vol, t, h => by
    rw [shape_ultimate_test_box] at h
    cases h
  | fuel + 1, s, box, min_vol, t, h => by
    rw [shape_ultimate_test_box] at h ⊢
    cases ht : shape_test_box surface_test_box box_is_in s box 0 with
    | none => rw [ht] at h; cases h
    | some t0 =>
      rw [ht] at h
      simp only at h ⊢
      by_cases hc : t0.result = BOX_CAN_INTERSECT_SHAPE ∧ box.volume > min_vol
      · rw [if_pos hc] at h ⊢
        cases h1 : shape_ultimate_test_box surface_test_box box_is_in box_split fuel t0.shape
            (box_split box BOX_SPLIT_AUTODIR (1 / 2)).1 min_vol with
        | none => rw [h1] at h; cases h
        | some t1 =>
          rw [h1] at h
          rw [shape_ultimate_test_box_fuel_succ fuel _ _ _ _ h1]
          simp only at h ⊢
          cases h2 : shape_ultimate_test_box surface_test_box box_is_in box_split fuel t1.shape
              (box_split box BOX_SPLIT_AUTODIR (1 / 2)).2 min_vol with
          | none => rw [h2] at h; cases h
          | some t2 =>
            rw [h2] at h
            rw [shape_ultimate_test_box_fuel_succ fuel _ _ _ _ h2]
            exact h
      · rw [if_neg hc] at h ⊢
        exact h

/-- One level of `shape_ultimate_test_box`, in terms of the outcome `t` of
`shape_test_box` on the box and of the outcomes `t1`, `t2` of the refiner on
the two halves. -/
theorem shape_ultimate_test_box_step (fuel : Nat) (s : Shape S) (box : Box)
    (min_vol : ℚ) :
    ∃ t, shape_test_box surface_test_box box_is_in s box 0 = some t ∧
      ((t.result ≠ BOX_CAN_INTERSECT_SHAPE ∨ box.volume ≤ min_vol) →
        shape_ultimate_test_box surface_test_box box_is_in box_split (fuel + 1) s box min_vol
          = some t) ∧
      ((t.result = BOX_CAN_INTERSECT_SHAPE ∧ box.volume > min_vol) →
        ∀ t1 t2,
          shape_ultimate_test_box surface_test_box box_is_in box_split fuel t.shape
            (box_split box BOX_SPLIT_AUTODIR (1 / 2)).1 min_vol = some t1 →
          shape_ultimate_test_box surface_test_box box_is_in box_split fuel t1.shape
            (box_split box BOX_SPLIT_AUTODIR (1 / 2)).2 min_vol = some t2 →
          ∃ u, shape_ultimate_test_box surface_test_box box_is_in box_split (fuel + 1) s box
                min_vol = some u ∧
            u.shape = t2.shape ∧ u.calls = t.calls ++ t1.calls ++ t2.calls ∧
            ((t1.result ≠ BOX_CAN_INTERSECT_SHAPE ∧ t2.result ≠ BOX_CAN_INTERSECT_SHAPE) →
              u.result = t1.result) ∧
            ((t1.result = BOX_CAN_INTERSECT_SHAPE ∨ t2.result = BOX_CAN_INTERSECT_SHAPE) →
              u.result = BOX_CAN_INTERSECT_SHAPE)) := by
  obtain ⟨t, ht⟩ := shape_test_box_total surface_test_box box_is_in s box 0
  refine ⟨t, ht, ?_, ?_⟩
  · intro h
    have hc : ¬ (t.result = BOX_CAN_INTERSECT_SHAPE ∧ box.volume > min_vol) := by
      rintro ⟨h1, h2⟩
      rcases h with h | h
      · exact h h1
      · exact absurd h2 (not_lt.2 h)
    rw [shape_ultimate_test_box, ht]
    simp only [if_neg hc]
  · intro hc t1 t2 h1 h2
    rw [shape_ultimate_test_box, ht]
    simp only [if_pos hc, h1, h2]
    by_cases hr : t1.result ≠ BOX_CAN_INTERSECT_SHAPE ∧ t2.result ≠ BOX_CAN_INTERSECT_SHAPE
    · rw [if_pos hr]
      refine ⟨_, rfl, rfl, rfl, fun _ => rfl, ?_⟩
      rintro (h | h)
      · exact absurd h hr.1
      · exact absurd h hr.2
    · rw [if_neg hr]
      exact ⟨_, rfl, rfl, rfl, fun h => absurd h hr, fun _ => hc.1⟩

/-- With a split whose halves have half the volume, a box whose volume is at
most `min_vol * 2 ^ d` is refined within `d` nested splits. -/
theorem shape_ultimate_test_box_depth
    (hsplit : ∀ b : Box, (box_split b BOX_SPLIT_AUTODIR (1 / 2)).1.volume = b.volume / 2 ∧
      (box_split b BOX_SPLIT_AUTODIR (1 / 2)).2.volume = b.volume / 2)
    (min_vol : ℚ) : ∀ (d : Nat) (s : Shape S) (box : Box), box.volume ≤ min_vol * 2 ^ d →
    ∃ t, shape_ultimate_test_box surface_test_box box_is_in box_split (d + 1) s box min_vol
      = some t
  | 0, s, box, h => by
    obtain ⟨t, ht, hbase, -⟩ := shape_ultimate_test_box_step surface_test_box box_is_in
      box_split 0 s box min_vol
    exact ⟨t, hbase (Or.inr (by simpa using h))⟩
  | d + 1, s, box, h => by
    obtain ⟨t, ht, hbase, hstep⟩ := shape_ultimate_test_box_step surface_test_box
      box_is_in box_split (d + 1) s box min_vol
    by_cases hc : t.result = BOX_CAN_INTERSECT_SHAPE ∧ box.volume > min_vol
    · have hhalf : box.volume / 2 ≤ min_vol * 2 ^ d := by
        rw [pow_succ] at h
        linarith
      obtain ⟨t1, h1⟩ := shape_ultimate_test_box_depth hsplit min_vol d t.shape
        (box_split box BOX_SPLIT_AUTODIR (1 / 2)).1 (by rw [(hsplit box).1]; exact hhalf)
      obtain ⟨t2, h2⟩ := shape_ultimate_test_box_depth hsplit min_vol d t1.shape
        (box_split box BOX_SPLIT_AUTODIR (1 / 2)).2 (by rw [(hsplit box).2]; exact hhalf)
      obtain ⟨u, hu, -⟩ := hstep hc t1 t2 h1 h2
      exact ⟨u, hu⟩
    · refine ⟨t, hbase ?_⟩
      by_cases hr : t.result = BOX_CAN_INTERSECT_SHAPE
      · exact Or.inr (not_lt.1 (fun hv => hc ⟨hr, hv⟩))
      · exact Or.inl hr

/-- The number `⌈log₂ (V / m)⌉` is a `d` with `V ≤ m * 2 ^ d`. -/
theorem le_mul_two_pow_ceil_logb (V m : ℚ) (hm : 0 < m) :
    V ≤ m * 2 ^ ⌈Real.logb 2 ((V : ℝ) / (m : ℝ))⌉₊ := by
  by_cases hV : V ≤ 0
  · exact le_trans hV (by positivity)
  · have hVpos : (0 : ℝ) < (V : ℝ) := by exact_mod_cast not_le.1 hV
    have hmpos : (0 : ℝ) < (m : ℝ) := by exact_mod_cast hm
    have hx : (0 : ℝ) < (V : ℝ) / (m : ℝ) := div_pos hVpos hmpos
    have h1 : (V : ℝ) / (m : ℝ) = (2 : ℝ) ^ Real.logb 2 ((V : ℝ) / (m : ℝ)) :=
      (Real.rpow_logb (by norm_num) (by norm_num) hx).symm
    have h2 : (2 : ℝ) ^ Real.logb 2 ((V : ℝ) / (m : ℝ))
        ≤ (2 : ℝ) ^ ((⌈Real.logb 2 ((V : ℝ) / (m : ℝ))⌉₊ : ℕ) : ℝ) :=
      Real.rpow_le_rpow_of_exponent_le (by norm_num) (Nat.le_ceil _)
    rw [Real.rpow_natCast] at h2
    have h3 : (V : ℝ) ≤ (m : ℝ) * 2 ^ ⌈Real.logb 2 ((V : ℝ) / (m : ℝ))⌉₊ := by
      have := mul_le_mul_of_nonneg_left (h1.le.trans h2) hmpos.le
      rwa [mul_div_cancel₀ _ hmpos.ne'] at this
    exact_mod_cast h3

/-- C11: `shape_ultimate_test_box` follows the refinement recurrence. With `t`
the outcome of `shape_test_box` on the box: if its result is not AMBIGUOUS, or
the box volume is at or below `min_vol`, the refiner returns exactly that
outcome (no split, no further Surface call); otherwise it splits the box
(automatic direction, ratio 1/2), refines the first half and then the second
with the same `min_vol`, and once both have returned `t1` and `t2` it returns
the result of `t1` when both results are non-AMBIGUOUS and AMBIGUOUS when at
least one of them is AMBIGUOUS. -/
theorem shape_ultimate_test_box_recurrence (fuel : Nat) (s : Shape S) (box : Box)
    (min_vol : ℚ) :
    ∃ t, shape_test_box surface_test_box box_is_in s box 0 = some t ∧
      ((t.result ≠ BOX_CAN_INTERSECT_SHAPE ∨ box.volume ≤ min_vol) →
        shape_ultimate_test_box surface_test_box box_is_in box_split (fuel + 1) s box min_vol
          = some t) ∧
      ((t.result = BOX_CAN_INTERSECT_SHAPE ∧ box.volume > min_vol) →
        ∀ t1 t2,
          shape_ultimate_test_box surface_test_box box_is_in box_split fuel t.shape
            (box_split box BOX_SPLIT_AUTODIR (1 / 2)).1 min_vol = some t1 →
          shape_ultimate_test_box surface_test_box box_is_in box_split fuel t1.shape
            (box_split box BOX_SPLIT_AUTODIR (1 / 2)).2 min_vol = some t2 →
          ∃ u, shape_ultimate_test_box surface_test_box box_is_in box_split (fuel + 1) s box
                min_vol = some u ∧
            u.shape = t2.shape ∧ u.calls = t.calls ++ t1.calls ++ t2.calls ∧
            ((t1.result ≠ BOX_CAN_INTERSECT_SHAPE ∧ t2.result ≠ BOX_CAN_INTERSECT_SHAPE) →
              u.result = t1.result) ∧
            ((t1.result = BOX_CAN_INTERSECT_SHAPE ∨ t2.result = BOX_CAN_INTERSECT_SHAPE) →
              u.result = BOX_CAN_INTERSECT_SHAPE)) :=
  shape_ultimate_test_box_step surface_test_box box_is_in box_split fuel s box min_vol

end Refiner

/-- C13: the refiner's recursion terminates. For every shape, box and
threshold `min_vol > 0`, given a split whose two halves each have half the
parent's volume, `shape_ultimate_test_box` returns within a nesting depth of
`⌈log₂ (volume / min_vol)⌉` splits (the depth bound `d + 1` of the embedding
allows at most `d` nested splits), whatever the Surface classifier answers. -/
theorem shape_ultimate_test_box_terminates {S : Type} (surface_test_box : S → Box → Int)
    (box_is_in : Box → Nat → Int) (box_split : Box → Int → ℚ → Box × Box)
    (s : Shape S) (box : Box) (min_vol : ℚ) (hmin : 0 < min_vol)
    (hsplit : ∀ b : Box, (box_split b BOX_SPLIT_AUTODIR (1 / 2)).1.volume = b.volume / 2 ∧
      (box_split b BOX_SPLIT_AUTODIR (1 / 2)).2.volume = b.volume / 2) :
    ∃ t, shape_ultimate_test_box surface_test_box box_is_in box_split
      (⌈Real.logb 2 ((box.volume : ℝ) / (min_vol : ℝ))⌉₊ + 1) s box min_vol = some t :=
  shape_ultimate_test_box_depth surface_test_box box_is_in box_split hsplit min_vol _ s box
    (le_mul_two_pow_ceil_logb box.volume min_vol hmin)

/-- The modelled split halves the volume at ratio 1/2. -/
theorem stub_box_split_volume (b : Box) :
    (stub_box_split b BOX_SPLIT_AUTODIR (1 / 2)).1.volume = b.volume / 2 ∧
      (stub_box_split b BOX_SPLIT_AUTODIR (1 / 2)).2.volume = b.volume / 2 := by
  constructor <;> simp only [stub_box_split] <;> ring

/-- Witness for C13: an always AMBIGUOUS surface, the box of address 1 with
volume 1 and the threshold 1/8. -/
theorem shape_ultimate_test_box_terminates_witness :
    (0 : ℚ) < 1 / 8 ∧
    (∀ b : Box, (stub_box_split b BOX_SPLIT_AUTODIR (1 / 2)).1.volume = b.volume / 2 ∧
      (stub_box_split b BOX_SPLIT_AUTODIR (1 / 2)).2.volume = b.volume / 2) ∧
    ∃ t, shape_ultimate_test_box stub_surface_test_box subdiv_box_is_in stub_box_split
      (⌈Real.logb 2 (((stub_box 1).volume : ℝ) / ((1 / 8 : ℚ) : ℝ))⌉₊ + 1)
      (.mk IDENTITY 0 [] 0 0 []) (stub_box 1) (1 / 8) = some t :=
  ⟨by norm_num, stub_box_split_volume,
    shape_ultimate_test_box_terminates stub_surface_test_box subdiv_box_is_in stub_box_split
      (.mk IDENTITY 0 [] 0 0 []) (stub_box 1) (1 / 8) (by norm_num) stub_box_split_volume⟩

/-- Counterexample for C12 as stated, with no condition on the Surface: an
IDENTITY node with cleared memo on a Surface classifier that answers AMBIGUOUS
on the box of address 1 (volume 1, threshold 1/2), INSIDE on its first half
and OUTSIDE on its second half. A classifier that is sound for a point set
cannot give these answers when the halves share a point; the code does not
check them. The four values are, in this order: the result of
`shape_test_box` on the box (AMBIGUOUS, so the box is split), the result of
the refiner on the first half (INSIDE), its result on the second half
(OUTSIDE), both refined from the memo state the call before left, and the
result of the refiner on the box itself: INSIDE, the result of the first half,
although the two non-AMBIGUOUS results differ. -/
theorem shape_ultimate_test_box_halves_agree_counterexample :
    (shape_test_box stub_surface_by_address subdiv_box_is_in
        (.mk IDENTITY stub_half_space [] 0 0 []) (stub_box 1) 0).bind (fun t =>
      (shape_ultimate_test_box stub_surface_by_address subdiv_box_is_in stub_box_split 1
          t.shape (stub_box_split (stub_box 1) BOX_SPLIT_AUTODIR (1 / 2)).1 (1 / 2)).bind
        (fun t1 =>
      (shape_ultimate_test_box stub_surface_by_address subdiv_box_is_in stub_box_split 1
          t1.shape (stub_box_split (stub_box 1) BOX_SPLIT_AUTODIR (1 / 2)).2 (1 / 2)).bind
        (fun t2 =>
      (shape_ultimate_test_box stub_surface_by_address subdiv_box_is_in stub_box_split 2
          (.mk IDENTITY stub_half_space [] 0 0 []) (stub_box 1) (1 / 2)).map
        (fun u => (t.result, t1.result, t2.result, u.result)))))
      = some (BOX_CAN_INTERSECT_SHAPE, BOX_INSIDE_SHAPE, BOX_OUTSIDE_SHAPE, BOX_INSIDE_SHAPE) := by
  decide!

/-! ## The volume estimator (C14, C15) -/

section Volume

variable {S : Type} (surface_test_box : S → Box → Int) (box_is_in : Box → Nat → Int)
  (box_split : Box → Int → ℚ → Box × Box)

/-- A result of `shape_volume` does not depend on the depth bound, once the
bound is large enough for the call to return. -/
theorem shape_volume_fuel_succ : ∀ (fuel : Nat) (s : Shape S) (box : Box)
    (min_vol : ℚ) (r : VolumeRun S),
    shape_volume surface_test_box box_is_in box_split fuel s box min_vol = some r →
    shape_volume surface_test_box box_is_in box_split (fuel + 1) s box min_vol = some r
  | 0, s, box, min_vol, r, h => by
    rw [shape_volume] at h
    cases h
  | fuel + 1, s, box, min_vol, r, h => by
    rw [shape_volume] at h ⊢
    cases ht : shape_test_box surface_test_box box_is_in s box 0 with
    | none => rw [ht] at h; cases h
    | some t0 =>
      rw [ht] at h
      simp only at h ⊢
      by_cases hi : t0.result = BOX_INSIDE_SHAPE
      · rw [if_pos hi] at h ⊢
        exact h
      · rw [if_neg hi] at h ⊢
        by_cases ho : t0.result = BOX_OUTSIDE_SHAPE
        · rw [if_pos ho] at h ⊢
          exact h
        · rw [if_neg ho] at h ⊢
          by_cases hv : box.volume > min_vol
          · rw [if_pos hv] at h ⊢
            cases h1 : shape_volume surface_test_box box_is_in box_split fuel t0.shape
                (box_split box BOX_SPLIT_AUTODIR (1 / 2)).1 min_vol with
            | none => rw [h1] at h; cases h
            | some v1 =>
              rw [h1] at h
              rw [shape_volume_fuel_succ fuel _ _ _ _ h1]
              simp only at h ⊢
              cases h2 : shape_volume surface_test_box box_is_in box_split fuel v1.shape
                  (box_split box BOX_SPLIT_AUTODIR (1 / 2)).2 min_vol with
              | none => rw [h2] at h; cases h
              | some v2 =>
                rw [h2] at h
                rw [shape_volume_fuel_succ fuel _ _ _ _ h2]
                exact h
          · rw [if_neg hv] at h ⊢
            exact h

/-- One level of `shape_volume`, in terms of the outcome `t` of
`shape_test_box` on the box and of the outcomes `v1`, `v2` of `shape_volume`
on the two halves. -/
theorem shape_volume_step (fuel : Nat) (s : Shape S) (box : Box) (min_vol : ℚ) :
    ∃ t, shape_test_box surface_test_box box_is_in s box 0 = some t ∧
      (t.result = BOX_INSIDE_SHAPE →
        shape_volume surface_test_box box_is_in box_split (fuel + 1) s box min_vol
          = some ⟨box.volume, t.shape⟩) ∧
      (t.result = BOX_OUTSIDE_SHAPE →
        shape_volume surface_test_box box_is_in box_split (fuel + 1) s box min_vol
          = some ⟨0, t.shape⟩) ∧
      ((t.result = BOX_CAN_INTERSECT_SHAPE ∧ box.volume > min_vol) →
        ∀ v1 v2,
          shape_volume surface_test_box box_is_in box_split fuel t.shape
            (box_split box BOX_SPLIT_AUTODIR (1 / 2)).1 min_vol = some v1 →
          shape_volume surface_test_box box_is_in box_split fuel v1.shape
            (box_split box BOX_SPLIT_AUTODIR (1 / 2)).2 min_vol = some v2 →
          shape_volume surface_test_box box_is_in box_split (fuel + 1) s box min_vol
            = some ⟨v1.volume + v2.volume, v2.shape⟩) ∧
      ((t.result = BOX_CAN_INTERSECT_SHAPE ∧ box.volume ≤ min_vol) →
        shape_volume surface_test_box box_is_in box_split (fuel + 1) s box min_vol
          = some ⟨box.volume / 2, t.shape⟩) := by
  obtain ⟨t, ht⟩ := shape_test_box_total surface_test_box box_is_in s box 0
  refine ⟨t, ht, ?_, ?_, ?_, ?_⟩
  · intro h
    rw [shape_volume, ht]
    simp only [if_pos h]
  · intro h
    have hi : ¬ t.result = BOX_INSIDE_SHAPE := by rw [h]; decide
    rw [shape_volume, ht]
    simp only [if_neg hi, if_pos h]
  · rintro ⟨h, hv⟩ v1 v2 h1 h2
    have hi : ¬ t.result = BOX_INSIDE_SHAPE := by rw [h]; decide
    have ho : ¬ t.result = BOX_OUTSIDE_SHAPE := by rw [h]; decide
    rw [shape_volume, ht]
    simp only [if_neg hi, if_neg ho, if_pos hv, h1, h2]
  · rintro ⟨h, hv⟩
    have hi : ¬ t.result = BOX_INSIDE_SHAPE := by rw [h]; decide
    have ho : ¬ t.result = BOX_OUTSIDE_SHAPE := by rw [h]; decide
    rw [shape_volume, ht]
    simp only [if_neg hi, if_neg ho, if_neg (not_lt.2 hv)]
    congr 2
    ring

/-- With a split whose halves have half the volume, `shape_volume` returns on
a box whose volume is at most `min_vol * 2 ^ d` within `d` nested splits. -/
theorem shape_volume_depth
    (hsplit : ∀ b : Box, (box_split b BOX_SPLIT_AUTODIR (1 / 2)).1.volume = b.volume / 2 ∧
      (box_split b BOX_SPLIT_AUTODIR (1 / 2)).2.volume = b.volume / 2)
    (min_vol : ℚ) : ∀ (d : Nat) (s : Shape S) (box : Box), box.volume ≤ min_vol * 2 ^ d →
    ∃ r, shape_volume surface_test_box box_is_in box_split (d + 1) s box min_vol = some r
  | 0, s, box, h => by
    rw [shape_volume]
    obtain ⟨t, ht⟩ := shape_test_box_total surface_test_box box_is_in s box 0
    have hv : ¬ box.volume > min_vol := not_lt.2 (by simpa using h)
    rw [ht]
    simp only [if_neg hv]
    split_ifs <;> exact ⟨_, rfl⟩
  | d + 1, s, box, h => by
    rw [shape_volume]
    obtain ⟨t, ht⟩ := shape_test_box_total surface_test_box box_is_in s box 0
    have hhalf : box.volume / 2 ≤ min_vol * 2 ^ d := by
      rw [pow_succ] at h
      linarith
    obtain ⟨v1, h1⟩ := shape_volume_depth hsplit min_vol d t.shape
      (box_split box BOX_SPLIT_AUTODIR (1 / 2)).1 (by rw [(hsplit box).1]; exact hhalf)
    obtain ⟨v2, h2⟩ := shape_volume_depth hsplit min_vol d v1.shape
      (box_split box BOX_SPLIT_AUTODIR (1 / 2)).2 (by rw [(hsplit box).2]; exact hhalf)
    rw [ht]
    simp only [h1, h2]
    split_ifs <;> exact ⟨_, rfl⟩

/-- In every reachable memo state the memo of a UNIVERSE node is empty or
holds INSIDE, and the memo of an EMPTY node is empty or holds OUTSIDE. -/
theorem reachable_void_memo (s : Shape S) (h : Reachable surface_test_box box_is_in s) :
    (s.opc = UNIVERSE → s.last_box = 0 ∨ s.last_box_result = BOX_INSIDE_SHAPE) ∧
      (s.opc = EMPTY → s.last_box = 0 ∨ s.last_box_result = BOX_OUTSIDE_SHAPE) := by
  induction h with
  | cleared s =>
    obtain ⟨opc, surface, args, lb, lbr, stats⟩ := s
    simp [clear_memo, Shape.last_box]
  | query s box collect t _ ht ih =>
    obtain ⟨opc, surface, args, lb, lbr, stats⟩ := s
    simp only [Shape.opc, Shape.last_box, Shape.last_box_result] at ih
    cases hm : memo_hit box_is_in lb lbr box
    · constructor
      · intro ho
        obtain ⟨-, hopc, -⟩ := shape_test_box_memo surface_test_box box_is_in _ box collect t ht
        rw [ho] at hopc
        simp only [Shape.opc] at hopc
        subst hopc
        rw [shape_test_box_of_universe surface_test_box box_is_in _ _ _ _ _ _ _ hm] at ht
        cases ht
        exact Or.inr rfl
      · intro ho
        obtain ⟨-, hopc, -⟩ := shape_test_box_memo surface_test_box box_is_in _ box collect t ht
        rw [ho] at hopc
        simp only [Shape.opc] at hopc
        subst hopc
        rw [shape_test_box_of_empty surface_test_box box_is_in _ _ _ _ _ _ _ hm] at ht
        cases ht
        exact Or.inr rfl
    · rw [shape_test_box_of_hit surface_test_box box_is_in _ _ _ _ _ _ _ _ hm] at ht
      cases ht
      exact ih

/-- On a UNIVERSE node in a reachable memo state `shape_test_box` returns
INSIDE, and on an EMPTY node it returns OUTSIDE. -/
theorem shape_test_box_void (s : Shape S) (h : Reachable surface_test_box box_is_in s)
    (box : Box) (collect : Int) :
    ∃ t, shape_test_box surface_test_box box_is_in s box collect = some t ∧
      (s.opc = UNIVERSE → t.result = BOX_INSIDE_SHAPE) ∧
      (s.opc = EMPTY → t.result = BOX_OUTSIDE_SHAPE) := by
  obtain ⟨hu, he⟩ := reachable_void_memo surface_test_box box_is_in s h
  obtain ⟨opc, surface, args, lb, lbr, stats⟩ := s
  simp only [Shape.opc, Shape.last_box, Shape.last_box_result] at hu he ⊢
  cases hm : memo_hit box_is_in lb lbr box
  · obtain ⟨t, ht⟩ := shape_test_box_total surface_test_box box_is_in
      (.mk opc surface args lb lbr stats) box collect
    refine ⟨t, ht, ?_, ?_⟩
    · intro ho
      subst ho
      rw [shape_test_box_of_universe surface_test_box box_is_in _ _ _ _ _ _ _ hm] at ht
      cases ht
      rfl
    · intro ho
      subst ho
      rw [shape_test_box_of_empty surface_test_box box_is_in _ _ _ _ _ _ _ hm] at ht
      cases ht
      rfl
  · have hlb := (memo_hit_nonneg box_is_in _ _ _ hm).1
    refine ⟨_, shape_test_box_of_hit surface_test_box box_is_in _ _ _ _ _ _ _ _ hm, ?_, ?_⟩
    · intro ho
      rcases hu ho with h0 | h1
      · exact absurd h0 hlb
      · exact h1
    · intro ho
      rcases he ho with h0 | h1
      · exact absurd h0 hlb
      · exact h1

/-- C15: `shape_volume` follows the volume recurrence. With `t` the outcome of
`shape_test_box` on the box: it returns the box's full volume when the result
is INSIDE, 0 when it is OUTSIDE, the sum of `shape_volume` over the two halves
(automatic direction, ratio 1/2, first half first) when it is AMBIGUOUS and
the box volume exceeds `min_vol`, and half the box's volume when it is
AMBIGUOUS and the box volume is at or below `min_vol`. -/
theorem shape_volume_recurrence (fuel : Nat) (s : Shape S) (box : Box) (min_vol : ℚ) :
    ∃ t, shape_test_box surface_test_box box_is_in s box 0 = some t ∧
      (t.result = BOX_INSIDE_SHAPE →
        shape_volume surface_test_box box_is_in box_split (fuel + 1) s box min_vol
          = some ⟨box.volume, t.shape⟩) ∧
      (t.result = BOX_OUTSIDE_SHAPE →
        shape_volume surface_test_box box_is_in box_split (fuel + 1) s box min_vol
          = some ⟨0, t.shape⟩) ∧
      ((t.result = BOX_CAN_INTERSECT_SHAPE ∧ box.volume > min_vol) →
        ∀ v1 v2,
          shape_volume surface_test_box box_is_in box_split fuel t.shape
            (box_split box BOX_SPLIT_AUTODIR (1 / 2)).1 min_vol = some v1 →
          shape_volume surface_test_box box_is_in box_split fuel v1.shape
            (box_split box BOX_SPLIT_AUTODIR (1 / 2)).2 min_vol = some v2 →
          shape_volume surface_test_box box_is_in box_split (fuel + 1) s box min_vol
            = some ⟨v1.volume + v2.volume, v2.shape⟩) ∧
      ((t.result = BOX_CAN_INTERSECT_SHAPE ∧ box.volume ≤ min_vol) →
        shape_volume surface_test_box box_is_in box_split (fuel + 1) s box min_vol
          = some ⟨box.volume / 2, t.shape⟩) :=
  shape_volume_step surface_test_box box_is_in box_split fuel s box min_vol

end Volume

/-- C14: for every box and every threshold `min_vol`, in every memo state
reachable from a cleared memo by earlier queries, `shape_volume` of a UNIVERSE
shape returns the box's volume exactly and `shape_volume` of an EMPTY shape
returns 0 exactly (with any depth bound that allows the call itself). -/
theorem shape_volume_void {S : Type} (surface_test_box : S → Box → Int)
    (box_is_in : Box → Nat → Int) (box_split : Box → Int → ℚ → Box × Box)
    (s : Shape S) (hreach : Reachable surface_test_box box_is_in s)
    (box : Box) (min_vol : ℚ) (fuel : Nat) :
    (s.opc = UNIVERSE →
      ∃ r, shape_volume surface_test_box box_is_in box_split (fuel + 1) s box min_vol = some r ∧
        r.volume = box.volume) ∧
    (s.opc = EMPTY →
      ∃ r, shape_volume surface_test_box box_is_in box_split (fuel + 1) s box min_vol = some r ∧
        r.volume = 0) := by
  obtain ⟨t, ht, hu, he⟩ := shape_test_box_void surface_test_box box_is_in s hreach box 0
  obtain ⟨t', ht', hin, hout, -, -⟩ := shape_volume_step surface_test_box box_is_in
    box_split fuel s box min_vol
  rw [ht] at ht'
  cases ht'
  exact ⟨fun ho => ⟨_, hin (hu ho), rfl⟩, fun ho => ⟨_, hout (he ho), rfl⟩⟩

/-- Witness for C14: a UNIVERSE node that has classified the box of address 1
before, queried with the box of address 5 and the threshold 0. -/
theorem shape_volume_void_witness :
    Reachable stub_surface_test_box subdiv_box_is_in
      (Shape.mk UNIVERSE (0 : Int) [] 1 1 []) ∧
    ((Shape.mk UNIVERSE (0 : Int) [] 1 1 []).opc = UNIVERSE →
      ∃ r, shape_volume stub_surface_test_box subdiv_box_is_in stub_box_split (0 + 1)
          (Shape.mk UNIVERSE (0 : Int) [] 1 1 []) (stub_box 5) 0 = some r ∧
        r.volume = (stub_box 5).volume) ∧
    ((Shape.mk UNIVERSE (0 : Int) [] 1 1 []).opc = EMPTY →
      ∃ r, shape_volume stub_surface_test_box subdiv_box_is_in stub_box_split (0 + 1)
          (Shape.mk UNIVERSE (0 : Int) [] 1 1 []) (stub_box 5) 0 = some r ∧
        r.volume = 0) :=
  have hreach : Reachable stub_surface_test_box subdiv_box_is_in
      (Shape.mk UNIVERSE (0 : Int) [] 1 1 []) :=
    Reachable.query (clear_memo (Shape.mk UNIVERSE (0 : Int) [] 0 0 [])) (stub_box 1) 0
      ⟨1, Shape.mk UNIVERSE (0 : Int) [] 1 1 [], []⟩ (Reachable.cleared _) rfl
  ⟨hreach, shape_volume_void stub_surface_test_box subdiv_box_is_in stub_box_split _ hreach
    (stub_box 5) 0 0⟩

/-! ## Construction (C18) -/

/-- The status of `shape_init`: `SHAPE_FAILURE` exactly when the opcode is
composite and `malloc` returns `NULL`, `SHAPE_SUCCESS` in every other case;
`SHAPE_NO_MEMORY` is never returned. -/
theorem shape_init_status {S : Type} (malloc : Malloc) (k : Nat) (shape : Shape S)
    (opc : Operation) (alen : Nat) (surface : S) (children : List (Shape S)) :
    ((shape_init malloc k shape opc alen surface children).status = SHAPE_FAILURE ↔
        (is_composite opc = true ∧ malloc k = none)) ∧
      ((shape_init malloc k shape opc alen surface children).status = SHAPE_SUCCESS ↔
        ¬ (is_composite opc = true ∧ malloc k = none)) ∧
      (shape_init malloc k shape opc alen surface children).status ≠ SHAPE_NO_MEMORY := by
  cases opc <;> cases hm : malloc k <;>
    simp [shape_init, is_void, is_final, is_composite, hm, SHAPE_FAILURE, SHAPE_SUCCESS,
      SHAPE_NO_MEMORY]

/-- C18, the code at the failing input: an INTERSECTION of two children whose
child array cannot be allocated. `shape_init` returns `SHAPE_FAILURE` (-1),
not `SHAPE_NO_MEMORY` (-2). -/
theorem shape_init_alloc_failure :
    malloc_fails 0 = none ∧
    (shape_init malloc_fails 0 (Shape.mk EMPTY (0 : Int) [] 0 0 []) INTERSECTION 2 0
        [.mk UNIVERSE 0 [] 0 0 [], .mk EMPTY 0 [] 0 0 []]).status = SHAPE_FAILURE ∧
    (shape_init malloc_fails 0 (Shape.mk EMPTY (0 : Int) [] 0 0 []) INTERSECTION 2 0
        [.mk UNIVERSE 0 [] 0 0 [], .mk EMPTY 0 [] 0 0 []]).status ≠ SHAPE_NO_MEMORY :=
  ⟨rfl, rfl, by decide⟩

/-! ## Statistics (C19) -/

section Statistics

variable {S : Type} (surface_test_box : S → Box → Int) (box_is_in : Box → Nat → Int)

mutual
/-- A call of `shape_test_box` leaves every statistics table of the tree as
it was. -/
theorem stats_tables_shape_test_box : ∀ (s : Shape S) (box : Box) (collect : Int)
    (t : BoxTest S), shape_test_box surface_test_box box_is_in s box collect = some t →
    stats_tables t.shape = stats_tables s
  | .mk opc surface args lb lbr stats, box, collect, t, ht => by
    cases h : memo_hit box_is_in lb lbr box
    · obtain ⟨rs, hrs, hargs⟩ :=
        shape_test_box_args_eq surface_test_box box_is_in args box collect
      have hlen : (gather rs).sub.length = args.length := by
        simp [gather, hrs.length_eq]
      have hch := stats_tables_shape_test_box_args args box collect _ hargs
      cases opc
      · rw [shape_test_box_of_intersection surface_test_box box_is_in _ _ _ _ _ _ _ h _ hargs _
          (hlen ▸ geom_intersection_stride_one _)] at ht
        cases ht
        simp only [stats_tables, hch]
      · rw [shape_test_box_of_final surface_test_box box_is_in COMPLEMENT _ _ _ _ _ _ _ h rfl]
          at ht
        cases ht
        simp only [stats_tables]
      · rw [shape_test_box_of_empty surface_test_box box_is_in _ _ _ _ _ _ _ h] at ht
        cases ht
        simp only [stats_tables]
      · rw [shape_test_box_of_union surface_test_box box_is_in _ _ _ _ _ _ _ h _ hargs _
          (hlen ▸ geom_union_stride_one _)] at ht
        cases ht
        simp only [stats_tables, hch]
      · rw [shape_test_box_of_final surface_test_box box_is_in IDENTITY _ _ _ _ _ _ _ h rfl]
          at ht
        cases ht
        simp only [stats_tables]
      · rw [shape_test_box_of_universe surface_test_box box_is_in _ _ _ _ _ _ _ h] at ht
        cases ht
        simp only [stats_tables]
    · rw [shape_test_box_of_hit surface_test_box box_is_in _ _ _ _ _ _ _ _ h] at ht
      cases ht
      rfl
/-- The child loop of `shape_test_box` leaves every statistics table of the
children as it was. -/
theorem stats_tables_shape_test_box_args : ∀ (l : List (Shape S)) (box : Box) (collect : Int)
    (t : BoxTests S), shape_test_box_args surface_test_box box_is_in l box collect = some t →
    stats_tables_args t.shapes = stats_tables_args l
  | [], box, collect, t, ht => by
    rw [shape_test_box_args] at ht
    cases ht
    rfl
  | c :: cs, box, collect, t, ht => by
    obtain ⟨r, hr⟩ := shape_test_box_total surface_test_box box_is_in c box collect
    obtain ⟨t', ht'⟩ : ∃ t', shape_test_box_args surface_test_box box_is_in cs box collect
        = some t' := by
      obtain ⟨rs, -, h⟩ := shape_test_box_args_eq surface_test_box box_is_in cs box collect
      exact ⟨_, h⟩
    rw [shape_test_box_args, hr, ht'] at ht
    cases ht
    simp only [stats_tables_args]
    rw [stats_tables_shape_test_box c box collect r hr,
      stats_tables_shape_test_box_args cs box collect t' ht']
end

/-- Whatever the value of `collect`, a call of `shape_test_box` returns and
leaves the statistics table of the node, and of every node below it, exactly
as it was: the block that would accumulate the box volume is commented out in
the source, and `collect` is only passed on to the children. -/
theorem shape_test_box_stats_unchanged (s : Shape S) (box : Box) (collect : Int) :
    ∃ t, shape_test_box surface_test_box box_is_in s box collect = some t ∧
      t.shape.stats = s.stats ∧ stats_tables t.shape = stats_tables s := by
  obtain ⟨t, ht⟩ := shape_test_box_total surface_test_box box_is_in s box collect
  have h := stats_tables_shape_test_box surface_test_box box_is_in s box collect t ht
  refine ⟨t, ht, ?_, h⟩
  obtain ⟨r, s1, c⟩ := t
  obtain ⟨opc, surface, args, lb, lbr, stats⟩ := s
  obtain ⟨opc1, surface1, args1, lb1, lbr1, stats1⟩ := s1
  simp only [stats_tables, List.cons.injEq] at h
  exact h.1

end Statistics

/-- C19, the code at the failing input: an INTERSECTION of an INSIDE and an
OUTSIDE surface with cleared memos and an empty statistics table, queried with
`collect = 1` and the box of address 1 (volume 1). The node recomputes, its
children return `+1` and `-1`, the result is OUTSIDE, and afterwards the table
is still empty: it has no entry for the key `[1, -1]`, where the accumulated
volume `0 + 1` is expected. -/
theorem shape_test_box_collect_ignored :
    ∃ t, shape_test_box stub_surface_test_box subdiv_box_is_in
          (.mk INTERSECTION 0 [.mk IDENTITY 1 [] 0 0 [], .mk IDENTITY (-1) [] 0 0 []] 0 0 [])
          (stub_box 1) 1 = some t ∧
      t.result = BOX_OUTSIDE_SHAPE ∧ t.calls.length = 2 ∧ t.shape.stats = [] ∧
      stats_get t.shape.stats [1, -1] = none ∧
      stats_get t.shape.stats [1, -1] ≠ some (0 + (stub_box 1).volume) :=
  ⟨_, rfl, rfl, rfl, rfl, rfl, by simp [stats_get, Shape.stats]⟩

/-! ## The bounding-box solver (C16, C17) -/

section Bounding

variable {S : Type} (surface_test_box : S → Box → Int) (box_is_in : Box → Nat → Int)
  (box_split : Box → Int → ℚ → Box × Box)

/-- Every threshold that the first loop passes to the refiner is the `int`
variable `min_vol`. -/
theorem bounding_lower_loop_thresholds (rfuel : Nat) (dim : Fin 3) (tol : ℚ) (min_vol : Int) :
    ∀ (fuel : Nat) (st : BoundState S) (lower : ℚ) (out : BoundState S),
    bounding_lower_loop surface_test_box box_is_in box_split rfuel dim tol min_vol fuel st lower
      = some out →
    ∀ x ∈ out.thresholds, x ∈ st.thresholds ∨ x = (min_vol : ℚ)
  | 0, st, lower, out, h => by
    rw [bounding_lower_loop] at h
    split_ifs at h
    cases h
    exact fun x hx => Or.inl hx
  | fuel + 1, st, lower, out, h => by
    rw [bounding_lower_loop] at h
    by_cases hc : st.box.dims dim - lower > tol
    · rw [if_pos hc] at h
      simp only at h
      cases ht : shape_ultimate_test_box surface_test_box box_is_in box_split rfuel st.shape
          (box_split st.box ((dim : Nat) : Int)
            ((1 / 2) * (lower + st.box.dims dim) / st.box.dims dim)).2 (min_vol : ℚ) with
      | none => rw [ht] at h; cases h
      | some t =>
        rw [ht] at h
        simp only at h
        intro x hx
        by_cases hr : t.result = -1
        · rw [if_pos hr] at h
          rcases bounding_lower_loop_thresholds rfuel dim tol min_vol fuel _ _ out h x hx
            with h1 | h1
          · simp only [List.mem_append, List.mem_singleton] at h1
            exact h1
          · exact Or.inr h1
        · rw [if_neg hr] at h
          rcases bounding_lower_loop_thresholds rfuel dim tol min_vol fuel _ _ out h x hx
            with h1 | h1
          · simp only [List.mem_append, List.mem_singleton] at h1
            exact h1
          · exact Or.inr h1
    · rw [if_neg hc] at h
      cases h
      exact fun x hx => Or.inl hx

/-- Every threshold that the second loop passes to the refiner is the `int`
variable `min_vol`. -/
theorem bounding_upper_loop_thresholds (rfuel : Nat) (dim : Fin 3) (tol : ℚ) (min_vol : Int) :
    ∀ (fuel : Nat) (st : BoundState S) (upper : ℚ) (out : BoundState S),
    bounding_upper_loop surface_test_box box_is_in box_split rfuel dim tol min_vol fuel st upper
      = some out →
    ∀ x ∈ out.thresholds, x ∈ st.thresholds ∨ x = (min_vol : ℚ)
  | 0, st, upper, out, h => by
    rw [bounding_upper_loop] at h
    split_ifs at h
    cases h
    exact fun x hx => Or.inl hx
  | fuel + 1, st, upper, out, h => by
    rw [bounding_upper_loop] at h
    by_cases hc : st.box.dims dim - upper > tol
    · rw [if_pos hc] at h
      simp only at h
      cases ht : shape_ultimate_test_box surface_test_box box_is_in box_split rfuel st.shape
          (box_split st.box ((dim : Nat) : Int)
            ((1 / 2) * (st.box.dims dim - upper) / st.box.dims dim)).1 (min_vol : ℚ) with
      | none => rw [ht] at h; cases h
      | some t =>
        rw [ht] at h
        simp only at h
        intro x hx
        by_cases hr : t.result = -1
        · rw [if_pos hr] at h
          rcases bounding_upper_loop_thresholds rfuel dim tol min_vol fuel _ _ out h x hx
            with h1 | h1
          · simp only [List.mem_append, List.mem_singleton] at h1
            exact h1
          · exact Or.inr h1
        · rw [if_neg hr] at h
          rcases bounding_upper_loop_thresholds rfuel dim tol min_vol fuel _ _ out h x hx
            with h1 | h1
          · simp only [List.mem_append, List.mem_singleton] at h1
            exact h1
          · exact Or.inr h1
    · rw [if_neg hc] at h
      cases h
      exact fun x hx => Or.inl hx

/-- Every threshold that the two loops of one axis pass to the refiner is the
`int` variable `min_vol`. -/
theorem bounding_axis_thresholds (rfuel fuel : Nat) (tol : ℚ) (min_vol : Int) (dim : Fin 3)
    (st out : BoundState S)
    (h : bounding_axis surface_test_box box_is_in box_split rfuel fuel tol min_vol dim st
      = some out) :
    ∀ x ∈ out.thresholds, x ∈ st.thresholds ∨ x = (min_vol : ℚ) := by
  unfold bounding_axis at h
  cases h1 : bounding_lower_loop surface_test_box box_is_in box_split rfuel dim tol min_vol fuel
      st 0 with
  | none => rw [h1] at h; cases h
  | some st1 =>
    rw [h1] at h
    intro x hx
    rcases bounding_upper_loop_thresholds surface_test_box box_is_in box_split rfuel dim tol
      min_vol fuel st1 0 out h x hx with h2 | h2
    · exact bounding_lower_loop_thresholds surface_test_box box_is_in box_split rfuel dim tol
        min_vol fuel st 0 st1 h1 x h2
    · exact Or.inr h2

/-- Every call that `shape_bounding_box` makes to the refiner passes the
threshold `tol * tol * tol` cut down to an integer. -/
theorem shape_bounding_box_thresholds (rfuel fuel : Nat) (shape : Shape S) (box : Box)
    (tol : ℚ) (r : BoundRun S)
    (h : shape_bounding_box surface_test_box box_is_in box_split rfuel fuel shape box tol
      = some r) :
    ∀ x ∈ r.state.thresholds, x = ((double_to_int (tol * tol * tol) : Int) : ℚ) := by
  unfold shape_bounding_box at h
  simp only at h
  cases h0 : bounding_axis surface_test_box box_is_in box_split rfuel fuel tol
      (double_to_int (tol * tol * tol)) 0 ⟨box, shape, []⟩ with
  | none => rw [h0] at h; cases h
  | some st0 =>
    rw [h0] at h
    simp only at h
    cases h1 : bounding_axis surface_test_box box_is_in box_split rfuel fuel tol
        (double_to_int (tol * tol * tol)) 1 st0 with
    | none => rw [h1] at h; cases h
    | some st1 =>
      rw [h1] at h
      simp only at h
      cases h2 : bounding_axis surface_test_box box_is_in box_split rfuel fuel tol
          (double_to_int (tol * tol * tol)) 2 st1 with
      | none => rw [h2] at h; cases h
      | some st2 =>
        rw [h2] at h
        cases h
        intro x hx
        rcases bounding_axis_thresholds surface_test_box box_is_in box_split _ _ _ _ _ _ _ h2
          x hx with hx | hx
        · rcases bounding_axis_thresholds surface_test_box box_is_in box_split _ _ _ _ _ _ _ h1
            x hx with hx | hx
          · rcases bounding_axis_thresholds surface_test_box box_is_in box_split _ _ _ _ _ _ _
              h0 x hx with hx | hx
            · simp at hx
            · exact hx
          · exact hx
        · exact hx

/-- One iteration of the first loop, when the refiner returns: with a split
along the axis at ratio `q` whose halves have the dimensions `q * d` and
`(1 - q) * d`, the remaining search interval (box dimension minus the search
bound) is halved, whichever branch is taken. -/
theorem bounding_lower_loop_step
    (hsplit : ∀ (b : Box) (dim : Fin 3) (q : ℚ),
      (box_split b ((dim : Nat) : Int) q).1.dims dim = q * b.dims dim ∧
      (box_split b ((dim : Nat) : Int) q).2.dims dim = (1 - q) * b.dims dim)
    (rfuel : Nat) (dim : Fin 3) (tol : ℚ) (min_vol : Int) (htol : 0 < tol)
    (href : ∀ (s : Shape S) (b : Box), ∃ t, shape_ultimate_test_box surface_test_box box_is_in
      box_split rfuel s b (min_vol : ℚ) = some t)
    (fuel : Nat) (st : BoundState S) (lower : ℚ) (hl : 0 ≤ lower)
    (hc : st.box.dims dim - lower > tol) :
    ∃ (st' : BoundState S) (lower' : ℚ),
      bounding_lower_loop surface_test_box box_is_in box_split rfuel dim tol min_vol (fuel + 1)
          st lower
        = bounding_lower_loop surface_test_box box_is_in box_split rfuel dim tol min_vol fuel
          st' lower' ∧
      st'.box.dims dim - lower' = (st.box.dims dim - lower) / 2 ∧ 0 ≤ lower' ∧
      st'.box.dims dim ≤ st.box.dims dim := by
  have hd : st.box.dims dim ≠ 0 := by
    have : 0 < st.box.dims dim := by linarith
    exact this.ne'
  have hq : (1 / 2) * (lower + st.box.dims dim) / st.box.dims dim * st.box.dims dim
      = (lower + st.box.dims dim) / 2 := by
    field_simp
    ring
  obtain ⟨t, ht⟩ := href st.shape (box_split st.box ((dim : Nat) : Int)
    ((1 / 2) * (lower + st.box.dims dim) / st.box.dims dim)).2
  have h1 := (hsplit st.box dim ((1 / 2) * (lower + st.box.dims dim) / st.box.dims dim)).1
  rw [hq] at h1
  rw [bounding_lower_loop, if_pos hc]
  simp only [ht]
  by_cases hr : t.result = -1
  · rw [if_pos hr]
    refine ⟨_, _, rfl, ?_, hl, ?_⟩
    · simp only [h1]
      ring
    · simp only [h1]
      linarith
  · rw [if_neg hr]
    refine ⟨_, _, rfl, ?_, ?_, le_refl _⟩
    · simp only [h1]
      ring
    · rw [h1]
      linarith

/-- The first loop terminates when the refiner returns: with the interval at
most `tol * 2 ^ n` it leaves within `n` iterations. -/
theorem bounding_lower_loop_terminates
    (hsplit : ∀ (b : Box) (dim : Fin 3) (q : ℚ),
      (box_split b ((dim : Nat) : Int) q).1.dims dim = q * b.dims dim ∧
      (box_split b ((dim : Nat) : Int) q).2.dims dim = (1 - q) * b.dims dim)
    (rfuel : Nat) (dim : Fin 3) (tol : ℚ) (min_vol : Int) (htol : 0 < tol)
    (href : ∀ (s : Shape S) (b : Box), ∃ t, shape_ultimate_test_box surface_test_box box_is_in
      box_split rfuel s b (min_vol : ℚ) = some t) :
    ∀ (n : Nat) (st : BoundState S) (lower : ℚ), 0 ≤ lower →
      st.box.dims dim - lower ≤ tol * 2 ^ n →
      ∃ out, bounding_lower_loop surface_test_box box_is_in box_split rfuel dim tol min_vol n
        st lower = some out
  | 0, st, lower, _, h => by
    have hc : ¬ st.box.dims dim - lower > tol := not_lt.2 (by simpa using h)
    exact ⟨st, by rw [bounding_lower_loop, if_neg hc]⟩
  | n + 1, st, lower, hl, h => by
    by_cases hc : st.box.dims dim - lower > tol
    · obtain ⟨st', lower', heq, hhalf, hl', -⟩ := bounding_lower_loop_step surface_test_box
        box_is_in box_split hsplit rfuel dim tol min_vol htol href n st lower hl hc
      rw [heq]
      refine bounding_lower_loop_terminates hsplit rfuel dim tol min_vol htol href n st' lower'
        hl' ?_
      rw [hhalf]
      rw [pow_succ] at h
      linarith
    · exact ⟨st, by rw [bounding_lower_loop, if_neg hc]⟩

/-- One iteration of the second loop, when the refiner returns: the remaining
search interval is halved, whichever branch is taken. -/
theorem bounding_upper_loop_step
    (hsplit : ∀ (b : Box) (dim : Fin 3) (q : ℚ),
      (box_split b ((dim : Nat) : Int) q).1.dims dim = q * b.dims dim ∧
      (box_split b ((dim : Nat) : Int) q).2.dims dim = (1 - q) * b.dims dim)
    (rfuel : Nat) (dim : Fin 3) (tol : ℚ) (min_vol : Int) (htol : 0 < tol)
    (href : ∀ (s : Shape S) (b : Box), ∃ t, shape_ultimate_test_box surface_test_box box_is_in
      box_split rfuel s b (min_vol : ℚ) = some t)
    (fuel : Nat) (st : BoundState S) (upper : ℚ) (hu : 0 ≤ upper)
    (hc : st.box.dims dim - upper > tol) :
    ∃ (st' : BoundState S) (upper' : ℚ),
      bounding_upper_loop surface_test_box box_is_in box_split rfuel dim tol min_vol (fuel + 1)
          st upper
        = bounding_upper_loop surface_test_box box_is_in box_split rfuel dim tol min_vol fuel
          st' upper' ∧
      st'.box.dims dim - upper' = (st.box.dims dim - upper) / 2 ∧ 0 ≤ upper' ∧
      st'.box.dims dim ≤ st.box.dims dim := by
  have hdpos : 0 < st.box.dims dim := by linarith
  have hd : st.box.dims dim ≠ 0 := hdpos.ne'
  have hq : (1 - (1 / 2) * (st.box.dims dim - upper) / st.box.dims dim) * st.box.dims dim
      = (st.box.dims dim + upper) / 2 := by
    field_simp
    ring
  obtain ⟨t, ht⟩ := href st.shape (box_split st.box ((dim : Nat) : Int)
    ((1 / 2) * (st.box.dims dim - upper) / st.box.dims dim)).1
  have h2 := (hsplit st.box dim ((1 / 2) * (st.box.dims dim - upper) / st.box.dims dim)).2
  rw [hq] at h2
  rw [bounding_upper_loop, if_pos hc]
  simp only [ht]
  by_cases hr : t.result = -1
  · rw [if_pos hr]
    refine ⟨_, _, rfl, ?_, hu, ?_⟩
    · simp only [h2]
      ring
    · simp only [h2]
      linarith
  · rw [if_neg hr]
    refine ⟨_, _, rfl, ?_, ?_, le_refl _⟩
    · simp only [h2]
      ring
    · rw [h2]
      linarith

/-- The second loop terminates when the refiner returns: with the interval at
most `tol * 2 ^ n` it leaves within `n` iterations. -/
theorem bounding_upper_loop_terminates
    (hsplit : ∀ (b : Box) (dim : Fin 3) (q : ℚ),
      (box_split b ((dim : Nat) : Int) q).1.dims dim = q * b.dims dim ∧
      (box_split b ((dim : Nat) : Int) q).2.dims dim = (1 - q) * b.dims dim)
    (rfuel : Nat) (dim : Fin 3) (tol : ℚ) (min_vol : Int) (htol : 0 < tol)
    (href : ∀ (s : Shape S) (b : Box), ∃ t, shape_ultimate_test_box surface_test_box box_is_in
      box_split rfuel s b (min_vol : ℚ) = some t) :
    ∀ (n : Nat) (st : BoundState S) (upper : ℚ), 0 ≤ upper →
      st.box.dims dim - upper ≤ tol * 2 ^ n →
      ∃ out, bounding_upper_loop surface_test_box box_is_in box_split rfuel dim tol min_vol n
        st upper = some out
  | 0, st, upper, _, h => by
    have hc : ¬ st.box.dims dim - upper > tol := not_lt.2 (by simpa using h)
    exact ⟨st, by rw [bounding_upper_loop, if_neg hc]⟩
  | n + 1, st, upper, hu, h => by
    by_cases hc : st.box.dims dim - upper > tol
    · obtain ⟨st', upper', heq, hhalf, hu', -⟩ := bounding_upper_loop_step surface_test_box
        box_is_in box_split hsplit rfuel dim tol min_vol htol href n st upper hu hc
      rw [heq]
      refine bounding_upper_loop_terminates hsplit rfuel dim tol min_vol htol href n st' upper'
        hu' ?_
      rw [hhalf]
      rw [pow_succ] at h
      linarith
    · exact ⟨st, by rw [bounding_upper_loop, if_neg hc]⟩

end Bounding

/-- For a tolerance below 1 the threshold `int min_vol = tol * tol * tol` is 0. -/
theorem double_to_int_cube_lt_one (tol : ℚ) (h0 : 0 < tol) (h1 : tol < 1) :
    double_to_int (tol * tol * tol) = 0 := by
  have hpos : 0 ≤ tol * tol * tol := by positivity
  have hlt : tol * tol * tol < 1 := by
    have h2 : tol * tol < 1 := by nlinarith
    nlinarith
  have hfloor : ⌊tol * tol * tol⌋ = 0 := by
    rw [Int.floor_eq_iff]
    constructor
    · simpa using hpos
    · simpa using hlt
  simp only [double_to_int, if_pos hpos, hfloor]
  decide

/-- A cube that does not fit in the 32-bit `int`: for `tol = 2048` the
threshold `int min_vol = tol * tol * tol` is `INT_MIN`, not `2 ^ 33`. -/
theorem double_to_int_out_of_range :
    double_to_int ((2048 : ℚ) * 2048 * 2048) = INT_MIN := by
  decide!

/-- C16, the code at the failing input: an EMPTY shape, the box of address 1
with dimensions 1 and the tolerance 1/2. `shape_bounding_box` succeeds after
three calls of the refiner, one for each axis, and passes the threshold 0 to
each of them, while `tol * tol * tol` is 1/8: the variable `min_vol` is
declared `int`. -/
theorem shape_bounding_box_threshold_truncated :
    (shape_bounding_box stub_surface_test_box subdiv_box_is_in stub_box_split 1 2
        (Shape.mk EMPTY (0 : Int) [] 0 0 []) (stub_box 1) (1 / 2)).map
        (fun r => (r.status, r.state.thresholds)) = some (0, [0, 0, 0]) ∧
      ((1 / 2 : ℚ) * (1 / 2) * (1 / 2) = 1 / 8) := by
  constructor
  · decide!
  · norm_num

/-- With the threshold 0 the refiner does not return on a surface that is
AMBIGUOUS on every box, when the split gives halves of positive volume: each
level splits again. -/
theorem shape_ultimate_test_box_no_floor (box_is_in : Box → Nat → Int) :
    ∀ (rfuel : Nat) (lb : Nat) (lbr : Int) (box : Box), (lb = 0 ∨ lbr = 0) →
    0 < box.volume →
    shape_ultimate_test_box stub_surface_test_box box_is_in stub_box_split rfuel
      (Shape.mk IDENTITY (0 : Int) [] lb lbr []) box 0 = none
  | 0, lb, lbr, box, _, _ => by rw [shape_ultimate_test_box]
  | rfuel + 1, lb, lbr, box, hmemo, hvol => by
    have hhalf : 0 < (stub_box_split box BOX_SPLIT_AUTODIR (1 / 2)).1.volume := by
      simp only [stub_box_split]
      positivity
    rw [shape_ultimate_test_box]
    cases hm : memo_hit box_is_in lb lbr box
    · rw [shape_test_box_of_final stub_surface_test_box box_is_in IDENTITY _ _ _ _ _ _ _ hm rfl]
      have hc : (stub_surface_test_box 0 box = BOX_CAN_INTERSECT_SHAPE) ∧ box.volume > 0 :=
        ⟨rfl, hvol⟩
      simp only [if_neg (show ¬ IDENTITY = COMPLEMENT by decide), if_pos hc]
      rw [shape_ultimate_test_box_no_floor box_is_in rfuel box.subdiv
        (stub_surface_test_box 0 box) _ (Or.inr rfl) hhalf]
    · rw [shape_test_box_of_hit stub_surface_test_box box_is_in _ _ _ _ _ _ _ _ hm]
      have hlbr : lbr = 0 := by
        rcases hmemo with h | h
        · exact absurd h (memo_hit_nonneg box_is_in _ _ _ hm).1
        · exact h
      have hc : (lbr = BOX_CAN_INTERSECT_SHAPE) ∧ box.volume > 0 := ⟨hlbr, hvol⟩
      simp only [if_pos hc]
      rw [shape_ultimate_test_box_no_floor box_is_in rfuel lb lbr _ hmemo hhalf]

/-- C17, the code at the failing input: an IDENTITY node on a surface that is
AMBIGUOUS on every box, the box of address 1 with dimensions 1 and volume 1,
the tolerance 1/2 and a split that halves volume and dimension. The threshold
is `(int) (1/8) = 0`, so the first call of the refiner, in the first iteration
of the first loop, never returns: whatever the bounds on depth and iterations,
`shape_bounding_box` does not return. -/
theorem shape_bounding_box_first_loop_diverges (rfuel fuel : Nat) :
    shape_bounding_box stub_surface_test_box subdiv_box_is_in stub_box_split rfuel fuel
      (Shape.mk IDENTITY (0 : Int) [] 0 0 []) (stub_box 1) (1 / 2) = none := by
  have hmin : double_to_int ((1 / 2 : ℚ) * (1 / 2) * (1 / 2)) = 0 :=
    double_to_int_cube_lt_one (1 / 2) (by norm_num) (by norm_num)
  have hc : (stub_box 1).dims 0 - 0 > (1 / 2 : ℚ) := by
    simp only [stub_box]
    norm_num
  have hvol : 0 < (stub_box_split (stub_box 1) (((0 : Fin 3) : Nat) : Int)
      ((1 / 2) * (0 + (stub_box 1).dims 0) / (stub_box 1).dims 0)).2.volume := by
    simp only [stub_box_split, stub_box]
    norm_num
  have hloop : bounding_lower_loop stub_surface_test_box subdiv_box_is_in stub_box_split rfuel 0
      (1 / 2) 0 fuel ⟨stub_box 1, Shape.mk IDENTITY (0 : Int) [] 0 0 [], []⟩ 0 = none := by
    cases fuel with
    | zero => rw [bounding_lower_loop, if_pos hc]
    | succ fuel =>
      rw [bounding_lower_loop, if_pos hc]
      simp only [Int.cast_zero]
      rw [shape_ultimate_test_box_no_floor subdiv_box_is_in rfuel 0 0 _ (Or.inl rfl) hvol]
  unfold shape_bounding_box
  simp only [hmin, bounding_axis, hloop]

/-! ## The memoised classifier refines the memo-free definition (C20) -/

section Refinement

variable {S : Type} (surface_test_box : S → Box → Int) (box_is_in : Box → Nat → Int)

/-- Values that are kept where they are not AMBIGUOUS keep every
non-AMBIGUOUS member. -/
theorem forall₂_keep_mem {vsB vsb : List Int}
    (h : List.Forall₂ (fun vB vb => vB ≠ 0 → vb = vB) vsB vsb) (v : Int) (hv : v ≠ 0)
    (hmem : v ∈ vsB) : v ∈ vsb := by
  induction h with
  | nil => cases hmem
  | cons hab _ ih =>
    rcases List.mem_cons.1 hmem with h1 | h1
    · subst h1
      rw [hab hv]
      exact List.mem_cons_self _ _
    · exact List.mem_cons_of_mem _ (ih h1)

/-- Values that are kept where they are not AMBIGUOUS are all kept when none
is AMBIGUOUS. -/
theorem forall₂_keep_all {vsB vsb : List Int}
    (h : List.Forall₂ (fun vB vb => vB ≠ 0 → vb = vB) vsB vsb) (h0 : (0 : Int) ∉ vsB) :
    vsb = vsB := by
  induction h with
  | nil => rfl
  | @cons a b l₁ l₂ hab _ ih =>
    have ha : a ≠ 0 := fun h => h0 (h ▸ List.mem_cons_self _ _)
    rw [hab ha, ih (fun h => h0 (List.mem_cons_of_mem _ h))]

/-- A resolved intersection stays what it is when the resolved values are
kept. -/
theorem geom_intersection_keep {vsB vsb : List Int}
    (h : List.Forall₂ (fun vB vb => vB ≠ 0 → vb = vB) vsB vsb) (r : Int) (hr : r ≠ 0)
    (hB : geom_intersection vsB vsB.length 1 = some r) :
    geom_intersection vsb vsb.length 1 = some r := by
  rw [geom_intersection_stride_one] at hB ⊢
  by_cases hm : (-1 : Int) ∈ vsB
  · rw [if_pos hm] at hB
    rw [if_pos (forall₂_keep_mem h (-1) (by decide) hm)]
    exact hB
  · rw [if_neg hm] at hB
    by_cases h0 : (0 : Int) ∈ vsB
    · rw [if_pos h0] at hB
      exact absurd (Option.some.inj hB).symm hr
    · rw [forall₂_keep_all h h0, if_neg hm]
      exact hB

/-- A resolved union stays what it is when the resolved values are kept. -/
theorem geom_union_keep {vsB vsb : List Int}
    (h : List.Forall₂ (fun vB vb => vB ≠ 0 → vb = vB) vsB vsb) (r : Int) (hr : r ≠ 0)
    (hB : geom_union vsB vsB.length 1 = some r) :
    geom_union vsb vsb.length 1 = some r := by
  rw [geom_union_stride_one] at hB ⊢
  by_cases hm : (1 : Int) ∈ vsB
  · rw [if_pos hm] at hB
    rw [if_pos (forall₂_keep_mem h 1 (by decide) hm)]
    exact hB
  · rw [if_neg hm] at hB
    by_cases h0 : (0 : Int) ∈ vsB
    · rw [if_pos h0] at hB
      exact absurd (Option.some.inj hB).symm hr
    · rw [forall₂_keep_all h h0, if_neg hm]
      exact hB

mutual
/-- The memo-free value is defined for every shape and box, and it is one of
-1, 0, +1 when the Surface classifier gives only these. -/
theorem reference_test_box_total
    (hval : ∀ (s : S) (b : Box), surface_test_box s b = -1 ∨ surface_test_box s b = 0 ∨
      surface_test_box s b = 1) :
    ∀ (s : Shape S) (box : Box), ∃ v, reference_test_box surface_test_box s box = some v ∧
      (v = -1 ∨ v = 0 ∨ v = 1)
  | .mk opc surface args lb lbr stats, box => by
    obtain ⟨vs, hvs⟩ := reference_test_box_args_total hval args box
    rw [reference_test_box]
    cases opc
    · simp only [if_neg (show ¬ INTERSECTION = IDENTITY by decide),
        if_neg (show ¬ INTERSECTION = COMPLEMENT by decide),
        if_neg (show ¬ INTERSECTION = UNIVERSE by decide),
        if_neg (show ¬ INTERSECTION = EMPTY by decide), hvs, if_true,
        geom_intersection_stride_one]
      refine ⟨_, rfl, ?_⟩
      split_ifs <;> simp
    · simp only [if_neg (show ¬ COMPLEMENT = IDENTITY by decide), if_true]
      refine ⟨_, rfl, ?_⟩
      rcases hval surface box with h | h | h <;> simp [h, geom_complement]
    · simp only [if_neg (show ¬ EMPTY = IDENTITY by decide),
        if_neg (show ¬ EMPTY = COMPLEMENT by decide),
        if_neg (show ¬ EMPTY = UNIVERSE by decide), if_true]
      exact ⟨_, rfl, Or.inl rfl⟩
    · simp only [if_neg (show ¬ UNION = IDENTITY by decide),
        if_neg (show ¬ UNION = COMPLEMENT by decide),
        if_neg (show ¬ UNION = UNIVERSE by decide),
        if_neg (show ¬ UNION = EMPTY by decide), hvs,
        if_neg (show ¬ UNION = INTERSECTION by decide), geom_union_stride_one]
      refine ⟨_, rfl, ?_⟩
      split_ifs <;> simp
    · simp only [if_true]
      exact ⟨_, rfl, hval surface box⟩
    · simp only [if_neg (show ¬ UNIVERSE = IDENTITY by decide),
        if_neg (show ¬ UNIVERSE = COMPLEMENT by decide), if_true]
      exact ⟨_, rfl, Or.inr (Or.inr rfl)⟩
/-- The memo-free values of a list of shapes are defined for every box. -/
theorem reference_test_box_args_total
    (hval : ∀ (s : S) (b : Box), surface_test_box s b = -1 ∨ surface_test_box s b = 0 ∨
      surface_test_box s b = 1) :
    ∀ (l : List (Shape S)) (box : Box), ∃ vs,
      reference_test_box_args surface_test_box l box = some vs
  | [], box => ⟨[], by rw [reference_test_box_args]⟩
  | c :: cs, box => by
    obtain ⟨v, hv, -⟩ := reference_test_box_total hval c box
    obtain ⟨vs, hvs⟩ := reference_test_box_args_total hval cs box
    exact ⟨v :: vs, by rw [reference_test_box_args, hv, hvs]⟩
end

/-- The memo-free value does not depend on the memo fields, and depends on
the children only through their memo-free values. -/
theorem reference_test_box_congr (opc : Operation) (surface : S) (args args' : List (Shape S))
    (lb lb' : Nat) (lbr lbr' : Int) (stats stats' : List (List Int × ℚ)) (box : Box)
    (h : reference_test_box_args surface_test_box args' box
      = reference_test_box_args surface_test_box args box) :
    reference_test_box surface_test_box (.mk opc surface args' lb' lbr' stats') box
      = reference_test_box surface_test_box (.mk opc surface args lb lbr stats) box := by
  rw [reference_test_box, reference_test_box, h]

theorem reference_test_box_of_final (opc : Operation) (surface : S) (args : List (Shape S))
    (lb : Nat) (lbr : Int) (stats : List (List Int × ℚ)) (box : Box)
    (hf : is_final opc = true) :
    reference_test_box surface_test_box (.mk opc surface args lb lbr stats) box
      = some (if opc = COMPLEMENT then geom_complement (surface_test_box surface box)
              else surface_test_box surface box) := by
  rw [reference_test_box]
  cases opc <;> first | rfl | simp [is_final] at hf

theorem reference_test_box_of_intersection (surface : S) (args : List (Shape S))
    (lb : Nat) (lbr : Int) (stats : List (List Int × ℚ)) (box : Box) (vs : List Int)
    (h : reference_test_box_args surface_test_box args box = some vs) :
    reference_test_box surface_test_box (.mk INTERSECTION surface args lb lbr stats) box
      = geom_intersection vs vs.length 1 := by
  rw [reference_test_box, h]
  rfl

theorem reference_test_box_of_union (surface : S) (args : List (Shape S))
    (lb : Nat) (lbr : Int) (stats : List (List Int × ℚ)) (box : Box) (vs : List Int)
    (h : reference_test_box_args surface_test_box args box = some vs) :
    reference_test_box surface_test_box (.mk UNION surface args lb lbr stats) box
      = geom_union vs vs.length 1 := by
  rw [reference_test_box, h]
  rfl

mutual
/-- Clearing the memos does not change the memo-free value. -/
theorem reference_test_box_clear_memo : ∀ (s : Shape S) (box : Box),
    reference_test_box surface_test_box (clear_memo s) box
      = reference_test_box surface_test_box s box
  | .mk opc surface args lb lbr stats, box => by
    rw [clear_memo]
    exact reference_test_box_congr surface_test_box _ _ _ _ _ _ _ _ _ _ _
      (reference_test_box_args_clear_memo args box)
/-- Clearing the memos does not change the memo-free values of a list. -/
theorem reference_test_box_args_clear_memo : ∀ (l : List (Shape S)) (box : Box),
    reference_test_box_args surface_test_box (clear_memo_args l) box
      = reference_test_box_args surface_test_box l box
  | [], box => by rw [clear_memo_args]
  | c :: cs, box => by
    rw [clear_memo_args, reference_test_box_args, reference_test_box_args,
      reference_test_box_clear_memo c box, reference_test_box_args_clear_memo cs box]
end

mutual
/-- Cleared memos are sound. -/
theorem memo_sound_clear_memo (hier : Box → Prop) : ∀ s : Shape S,
    memo_sound hier surface_test_box (clear_memo s)
  | .mk opc surface args lb lbr stats => by
    rw [clear_memo, memo_sound]
    exact ⟨Or.inl rfl, memo_sound_args_clear_memo hier args⟩
/-- Cleared memos are sound on a list of shapes. -/
theorem memo_sound_args_clear_memo (hier : Box → Prop) : ∀ l : List (Shape S),
    memo_sound_args hier surface_test_box (clear_memo_args l)
  | [] => by rw [clear_memo_args, memo_sound_args]; trivial
  | c :: cs => by
    rw [clear_memo_args, memo_sound_args]
    exact ⟨memo_sound_clear_memo hier c, memo_sound_args_clear_memo hier cs⟩
end

mutual
/-- The memo-free value is monotone: a node resolved INSIDE or OUTSIDE on a
box has the same value on every box strictly inside it, when the Surface
classifier is monotone and gives only -1, 0, +1. -/
theorem reference_test_box_mono (hier : Box → Prop)
    (hval : ∀ (s : S) (b : Box), surface_test_box s b = -1 ∨ surface_test_box s b = 0 ∨
      surface_test_box s b = 1)
    (hmono : ∀ (s : S) (b B : Box), hier b → hier B → box_is_in b B.subdiv > 0 →
      (surface_test_box s B = 1 ∨ surface_test_box s B = -1) →
      surface_test_box s b = surface_test_box s B) :
    ∀ (s : Shape S) (b B : Box), hier b → hier B → box_is_in b B.subdiv > 0 →
      ∀ r, reference_test_box surface_test_box s B = some r → r ≠ 0 →
      reference_test_box surface_test_box s b = some r
  | .mk opc surface args lb lbr stats, b, B, hb, hB, hin, r, hr, hr0 => by
    have hsurf : surface_test_box surface B ≠ 0 →
        surface_test_box surface b = surface_test_box surface B := by
      intro h0
      rcases hval surface B with h | h | h
      · exact hmono surface b B hb hB hin (Or.inr h)
      · exact absurd h h0
      · exact hmono surface b B hb hB hin (Or.inl h)
    cases opc
    · cases hvs : reference_test_box_args surface_test_box args B with
      | none =>
        rw [reference_test_box, hvs] at hr
        simp at hr
      | some vsB =>
        obtain ⟨vsb, hvsb, hkeep⟩ :=
          reference_test_box_args_mono hier hval hmono args b B hb hB hin vsB hvs
        rw [reference_test_box_of_intersection surface_test_box _ _ _ _ _ _ _ hvs] at hr
        rw [reference_test_box_of_intersection surface_test_box _ _ _ _ _ _ _ hvsb]
        exact geom_intersection_keep hkeep r hr0 hr
    · rw [reference_test_box_of_final surface_test_box COMPLEMENT _ _ _ _ _ _ rfl] at hr ⊢
      simp only [if_true, Option.some.injEq] at hr ⊢
      have h0 : surface_test_box surface B ≠ 0 := by
        intro h
        rw [h] at hr
        exact hr0 (by rw [← hr]; rfl)
      rw [hsurf h0]
      exact hr
    · rw [reference_test_box] at hr ⊢
      exact hr
    · cases hvs : reference_test_box_args surface_test_box args B with
      | none =>
        rw [reference_test_box, hvs] at hr
        simp at hr
      | some vsB =>
        obtain ⟨vsb, hvsb, hkeep⟩ :=
          reference_test_box_args_mono hier hval hmono args b B hb hB hin vsB hvs
        rw [reference_test_box_of_union surface_test_box _ _ _ _ _ _ _ hvs] at hr
        rw [reference_test_box_of_union surface_test_box _ _ _ _ _ _ _ hvsb]
        exact geom_union_keep hkeep r hr0 hr
    · rw [reference_test_box_of_final surface_test_box IDENTITY _ _ _ _ _ _ rfl] at hr ⊢
      simp only [if_neg (show ¬ IDENTITY = COMPLEMENT by decide), Option.some.injEq] at hr ⊢
      have h0 : surface_test_box surface B ≠ 0 := by
        rw [hr]
        exact hr0
      rw [hsurf h0]
      exact hr
    · rw [reference_test_box] at hr ⊢
      exact hr
/-- The memo-free values of a list of shapes on a box strictly inside another
keep every value that is resolved on the larger box. -/
theorem reference_test_box_args_mono (hier : Box → Prop)
    (hval : ∀ (s : S) (b : Box), surface_test_box s b = -1 ∨ surface_test_box s b = 0 ∨
      surface_test_box s b = 1)
    (hmono : ∀ (s : S) (b B : Box), hier b → hier B → box_is_in b B.subdiv > 0 →
      (surface_test_box s B = 1 ∨ surface_test_box s B = -1) →
      surface_test_box s b = surface_test_box s B) :
    ∀ (l : List (Shape S)) (b B : Box), hier b → hier B → box_is_in b B.subdiv > 0 →
      ∀ vsB, reference_test_box_args surface_test_box l B = some vsB →
      ∃ vsb, reference_test_box_args surface_test_box l b = some vsb ∧
        List.Forall₂ (fun vB vb => vB ≠ 0 → vb = vB) vsB vsb
  | [], b, B, _, _, _, vsB, h => by
    rw [reference_test_box_args] at h
    cases h
    exact ⟨[], by rw [reference_test_box_args], List.Forall₂.nil⟩
  | c :: cs, b, B, hb, hB, hin, vsB, h => by
    obtain ⟨vB, hvB, -⟩ := reference_test_box_total surface_test_box hval c B
    obtain ⟨vb, hvb, -⟩ := reference_test_box_total surface_test_box hval c b
    obtain ⟨wsB, hwsB⟩ := reference_test_box_args_total surface_test_box hval cs B
    obtain ⟨wsb, hwsb, hkeep⟩ :=
      reference_test_box_args_mono hier hval hmono cs b B hb hB hin wsB hwsB
    rw [reference_test_box_args, hvB, hwsB] at h
    cases h
    refine ⟨vb :: wsb, by rw [reference_test_box_args, hvb, hwsb], List.Forall₂.cons ?_ hkeep⟩
    intro h0
    have := reference_test_box_mono hier hval hmono c b B hb hB hin vB hvB h0
    rw [hvb] at this
    exact Option.some.inj this
end

mutual
/-- One query from a sound memo state: `shape_test_box` returns the memo-free
value of the box, leaves a sound memo state, and does not change the memo-free
values. -/
theorem shape_test_box_sound (hier : Box → Prop)
    (haddr : ∀ b b' : Box, hier b → hier b' → b.subdiv = b'.subdiv → b = b')
    (heq : ∀ (b : Box) (a : Nat), box_is_in b a = 0 → b.subdiv = a)
    (hval : ∀ (s : S) (b : Box), surface_test_box s b = -1 ∨ surface_test_box s b = 0 ∨
      surface_test_box s b = 1)
    (hmono : ∀ (s : S) (b B : Box), hier b → hier B → box_is_in b B.subdiv > 0 →
      (surface_test_box s B = 1 ∨ surface_test_box s B = -1) →
      surface_test_box s b = surface_test_box s B) :
    ∀ (s : Shape S) (box : Box) (collect : Int), hier box →
      memo_sound hier surface_test_box s →
      ∃ t, shape_test_box surface_test_box box_is_in s box collect = some t ∧
        reference_test_box surface_test_box s box = some t.result ∧
        memo_sound hier surface_test_box t.shape ∧
        ∀ b', reference_test_box surface_test_box t.shape b'
          = reference_test_box surface_test_box s b'
  | .mk opc surface args lb lbr stats, box, collect, hbox, hsound => by
    rw [memo_sound] at hsound
    obtain ⟨hmemo, hargs⟩ := hsound
    cases hm : memo_hit box_is_in lb lbr box
    · -- the node recomputes
      obtain ⟨ta, hta, href, hsa, hrefa⟩ := shape_test_box_args_sound hier haddr heq hval hmono
        args box collect hbox hargs
      obtain ⟨rs, hrs, hgather⟩ :=
        shape_test_box_args_eq surface_test_box box_is_in args box collect
      have hlen : ta.sub.length = args.length := by
        rw [hta] at hgather
        cases hgather
        simp [gather, hrs.length_eq]
      cases opc
      · have hr := geom_intersection_stride_one ta.sub
        rw [hlen] at hr
        refine ⟨_, shape_test_box_of_intersection surface_test_box box_is_in _ _ _ _ _ _ _ hm
          _ hta _ hr, ?_, ?_, fun b' => ?_⟩
        · rw [reference_test_box_of_intersection surface_test_box _ _ _ _ _ _ _ href, hlen]
          exact hr
        · rw [memo_sound]
          refine ⟨Or.inr ⟨box, hbox, rfl, ?_⟩, hsa⟩
          rw [reference_test_box_congr surface_test_box INTERSECTION surface args ta.shapes
            lb _ lbr _ stats stats box (hrefa box),
            reference_test_box_of_intersection surface_test_box _ _ _ _ _ _ _ href, hlen]
          exact hr
        · exact reference_test_box_congr surface_test_box _ _ _ _ _ _ _ _ _ _ _ (hrefa b')
      · refine ⟨_, shape_test_box_of_final surface_test_box box_is_in COMPLEMENT _ _ _ _ _ _ _
          hm rfl, ?_, ?_, fun b' => ?_⟩
        · exact reference_test_box_of_final surface_test_box COMPLEMENT _ _ _ _ _ _ rfl
        · rw [memo_sound]
          exact ⟨Or.inr ⟨box, hbox, rfl,
            reference_test_box_of_final surface_test_box COMPLEMENT _ _ _ _ _ _ rfl⟩, hargs⟩
        · exact reference_test_box_congr surface_test_box _ _ _ _ _ _ _ _ _ _ _ rfl
      · refine ⟨_, shape_test_box_of_empty surface_test_box box_is_in _ _ _ _ _ _ _ hm,
          ?_, ?_, fun b' => ?_⟩
        · rw [reference_test_box]
          rfl
        · rw [memo_sound]
          exact ⟨Or.inr ⟨box, hbox, rfl, by rw [reference_test_box]; rfl⟩, hargs⟩
        · exact reference_test_box_congr surface_test_box _ _ _ _ _ _ _ _ _ _ _ rfl
      · have hr := geom_union_stride_one ta.sub
        rw [hlen] at hr
        refine ⟨_, shape_test_box_of_union surface_test_box box_is_in _ _ _ _ _ _ _ hm
          _ hta _ hr, ?_, ?_, fun b' => ?_⟩
        · rw [reference_test_box_of_union surface_test_box _ _ _ _ _ _ _ href, hlen]
          exact hr
        · rw [memo_sound]
          refine ⟨Or.inr ⟨box, hbox, rfl, ?_⟩, hsa⟩
          rw [reference_test_box_congr surface_test_box UNION surface args ta.shapes
            lb _ lbr _ stats stats box (hrefa box),
            reference_test_box_of_union surface_test_box _ _ _ _ _ _ _ href, hlen]
          exact hr
        · exact reference_test_box_congr surface_test_box _ _ _ _ _ _ _ _ _ _ _ (hrefa b')
      · refine ⟨_, shape_test_box_of_final surface_test_box box_is_in IDENTITY _ _ _ _ _ _ _
          hm rfl, ?_, ?_, fun b' => ?_⟩
        · exact reference_test_box_of_final surface_test_box IDENTITY _ _ _ _ _ _ rfl
        · rw [memo_sound]
          exact ⟨Or.inr ⟨box, hbox, rfl,
            reference_test_box_of_final surface_test_box IDENTITY _ _ _ _ _ _ rfl⟩, hargs⟩
        · exact reference_test_box_congr surface_test_box _ _ _ _ _ _ _ _ _ _ _ rfl
      · refine ⟨_, shape_test_box_of_universe surface_test_box box_is_in _ _ _ _ _ _ _ hm,
          ?_, ?_, fun b' => ?_⟩
        · rw [reference_test_box]
          rfl
        · rw [memo_sound]
          exact ⟨Or.inr ⟨box, hbox, rfl, by rw [reference_test_box]; rfl⟩, hargs⟩
        · exact reference_test_box_congr surface_test_box _ _ _ _ _ _ _ _ _ _ _ rfl
    · -- the memo answers
      obtain ⟨hlb, hge, hcase⟩ := memo_hit_nonneg box_is_in _ _ _ hm
      obtain ⟨B, hB, hBlb, hBref⟩ : ∃ B : Box, hier B ∧ B.subdiv = lb ∧
          reference_test_box surface_test_box (.mk opc surface args lb lbr stats) B
            = some lbr := by
        rcases hmemo with h | h
        · exact absurd h hlb
        · exact h
      refine ⟨_, shape_test_box_of_hit surface_test_box box_is_in _ _ _ _ _ _ _ _ hm, ?_, ?_,
        fun _ => rfl⟩
      · by_cases h0 : box_is_in box lb = 0
        · have hsame : box = B := haddr box B hbox hB ((heq box lb h0).trans hBlb.symm)
          rw [hsame]
          exact hBref
        · have hin : box_is_in box B.subdiv > 0 := by
            rw [hBlb]
            omega
          have hlbr : lbr ≠ 0 := by
            rcases hcase with h | h
            · exact absurd h h0
            · exact h
          exact reference_test_box_mono surface_test_box box_is_in hier hval hmono _ box B hbox
            hB hin lbr hBref hlbr
      · rw [memo_sound]
        exact ⟨hmemo, hargs⟩
/-- The child loop from sound memo states: the array `sub` holds the memo-free
values of the children. -/
theorem shape_test_box_args_sound (hier : Box → Prop)
    (haddr : ∀ b b' : Box, hier b → hier b' → b.subdiv = b'.subdiv → b = b')
    (heq : ∀ (b : Box) (a : Nat), box_is_in b a = 0 → b.subdiv = a)
    (hval : ∀ (s : S) (b : Box), surface_test_box s b = -1 ∨ surface_test_box s b = 0 ∨
      surface_test_box s b = 1)
    (hmono : ∀ (s : S) (b B : Box), hier b → hier B → box_is_in b B.subdiv > 0 →
      (surface_test_box s B = 1 ∨ surface_test_box s B = -1) →
      surface_test_box s b = surface_test_box s B) :
    ∀ (l : List (Shape S)) (box : Box) (collect : Int), hier box →
      memo_sound_args hier surface_test_box l →
      ∃ t, shape_test_box_args surface_test_box box_is_in l box collect = some t ∧
        reference_test_box_args surface_test_box l box = some t.sub ∧
        memo_sound_args hier surface_test_box t.shapes ∧
        ∀ b', reference_test_box_args surface_test_box t.shapes b'
          = reference_test_box_args surface_test_box l b'
  | [], box, collect, _, _ => by
    refine ⟨⟨[], [], []⟩, by rw [shape_test_box_args], by rw [reference_test_box_args], ?_,
      fun _ => rfl⟩
    rw [memo_sound_args]
    trivial
  | c :: cs, box, collect, hbox, hsound => by
    rw [memo_sound_args] at hsound
    obtain ⟨r, hr, href, hrs, hrref⟩ := shape_test_box_sound hier haddr heq hval hmono c box
      collect hbox hsound.1
    obtain ⟨t, ht, htref, hts, htrref⟩ := shape_test_box_args_sound hier haddr heq hval hmono
      cs box collect hbox hsound.2
    refine ⟨_, by rw [shape_test_box_args, hr, ht], ?_, ?_, fun b' => ?_⟩
    · rw [reference_test_box_args, href, htref]
    · rw [memo_sound_args]
      exact ⟨hrs, hts⟩
    · simp only
      rw [reference_test_box_args, reference_test_box_args, hrref b', htrref b']
end

/-- A sequence of queries from a sound memo state returns, box by box, the
memo-free values. -/
theorem shape_test_box_run_sound (hier : Box → Prop)
    (haddr : ∀ b b' : Box, hier b → hier b' → b.subdiv = b'.subdiv → b = b')
    (heq : ∀ (b : Box) (a : Nat), box_is_in b a = 0 → b.subdiv = a)
    (hval : ∀ (s : S) (b : Box), surface_test_box s b = -1 ∨ surface_test_box s b = 0 ∨
      surface_test_box s b = 1)
    (hmono : ∀ (s : S) (b B : Box), hier b → hier B → box_is_in b B.subdiv > 0 →
      (surface_test_box s B = 1 ∨ surface_test_box s B = -1) →
      surface_test_box s b = surface_test_box s B)
    (collect : Int) :
    ∀ (boxes : List Box) (s : Shape S), (∀ b ∈ boxes, hier b) →
      memo_sound hier surface_test_box s →
      ∃ vals final, shape_test_box_run surface_test_box box_is_in s boxes collect
          = some (vals, final) ∧
        List.Forall₂ (fun b v => reference_test_box surface_test_box s b = some v) boxes vals
  | [], s, _, _ => ⟨[], s, by rw [shape_test_box_run], List.Forall₂.nil⟩
  | box :: boxes, s, hboxes, hsound => by
    obtain ⟨t, ht, href, hts, htref⟩ := shape_test_box_sound surface_test_box box_is_in hier
      haddr heq hval hmono s box collect (hboxes box (List.mem_cons_self _ _)) hsound
    obtain ⟨vals, final, hrun, hvals⟩ := shape_test_box_run_sound hier haddr heq hval hmono
      collect boxes t.shape (fun b hb => hboxes b (List.mem_cons_of_mem _ hb)) hts
    refine ⟨t.result :: vals, final, by rw [shape_test_box_run, ht]; simp only [hrun], ?_⟩
    refine List.Forall₂.cons href ?_
    exact hvals.imp (fun {b v} h => by rw [← htref b]; exact h)

end Refinement

/-- C20: the memoised box classifier agrees with recomputation from scratch.
Starting from cleared memos, for every sequence of `shape_test_box` queries
with boxes of one subdivision hierarchy `hier` (in which the address
determines the box), given a Surface classifier with values in {-1, 0, +1}
that is monotone (a box strictly inside a box it resolved INSIDE or OUTSIDE
gets the same answer) and a containment predicate that reports equality only
for a box and its own address, every query returns, and returns the value the
memo-free recursive definition `reference_test_box` gives for its box. -/
theorem shape_test_box_refines_reference {S : Type} (surface_test_box : S → Box → Int)
    (box_is_in : Box → Nat → Int) (hier : Box → Prop)
    (haddr : ∀ b b' : Box, hier b → hier b' → b.subdiv = b'.subdiv → b = b')
    (heq : ∀ (b : Box) (a : Nat), box_is_in b a = 0 → b.subdiv = a)
    (hval : ∀ (s : S) (b : Box), surface_test_box s b = -1 ∨ surface_test_box s b = 0 ∨
      surface_test_box s b = 1)
    (hmono : ∀ (s : S) (b B : Box), hier b → hier B → box_is_in b B.subdiv > 0 →
      (surface_test_box s B = 1 ∨ surface_test_box s B = -1) →
      surface_test_box s b = surface_test_box s B)
    (s : Shape S) (boxes : List Box) (hboxes : ∀ b ∈ boxes, hier b) (collect : Int) :
    ∃ vals final, shape_test_box_run surface_test_box box_is_in (clear_memo s) boxes collect
        = some (vals, final) ∧
      List.Forall₂ (fun b v => reference_test_box surface_test_box s b = some v) boxes vals := by
  obtain ⟨vals, final, hrun, hvals⟩ := shape_test_box_run_sound surface_test_box box_is_in hier
    haddr heq hval hmono collect boxes (clear_memo s) hboxes
    (memo_sound_clear_memo surface_test_box hier s)
  exact ⟨vals, final, hrun,
    hvals.imp (fun {b v} h => by rw [← reference_test_box_clear_memo surface_test_box s b]; exact h)⟩

/-- The half-space stub gives only -1, 0, +1. -/
theorem stub_half_space_test_box_values (s : Unit) (b : Box) :
    stub_half_space_test_box s b = -1 ∨ stub_half_space_test_box s b = 0 ∨
      stub_half_space_test_box s b = 1 := by
  unfold stub_half_space_test_box stub_half_space
  split_ifs <;> simp

/-- The half-space stub is monotone on the small hierarchy. -/
theorem stub_half_space_test_box_mono (s : Unit) (b B : Box) (hb : stub_hier b)
    (hB : stub_hier B) (hin : subdiv_box_is_in b B.subdiv > 0)
    (hres : stub_half_space_test_box s B = 1 ∨ stub_half_space_test_box s B = -1) :
    stub_half_space_test_box s b = stub_half_space_test_box s B := by
  cases s
  rcases hb with rfl | rfl | rfl <;> rcases hB with rfl | rfl | rfl <;>
    first
    | rfl
    | (exfalso; revert hin; decide)
    | (exfalso; revert hres; decide)

/-- In the small hierarchy the address determines the box. -/
theorem stub_hier_address (b b' : Box) (hb : stub_hier b) (hb' : stub_hier b')
    (h : b.subdiv = b'.subdiv) : b = b' := by
  rcases hb with rfl | rfl | rfl <;> rcases hb' with rfl | rfl | rfl <;>
    first
    | rfl
    | (exfalso; revert h; decide)

/-- Witness for C20: an INTERSECTION of the half-space and of a UNIVERSE node,
queried with the boxes of addresses 1, 2, 2, 3, 1 of the small hierarchy. -/
theorem shape_test_box_refines_reference_witness :
    (∀ b b' : Box, stub_hier b → stub_hier b' → b.subdiv = b'.subdiv → b = b') ∧
    (∀ (b : Box) (a : Nat), subdiv_box_is_in b a = 0 → b.subdiv = a) ∧
    (∀ (s : Unit) (b : Box), stub_half_space_test_box s b = -1 ∨
      stub_half_space_test_box s b = 0 ∨ stub_half_space_test_box s b = 1) ∧
    (∀ (s : Unit) (b B : Box), stub_hier b → stub_hier B → subdiv_box_is_in b B.subdiv > 0 →
      (stub_half_space_test_box s B = 1 ∨ stub_half_space_test_box s B = -1) →
      stub_half_space_test_box s b = stub_half_space_test_box s B) ∧
    (∀ b ∈ [stub_box 1, stub_box 2, stub_box 2, stub_box 3, stub_box 1], stub_hier b) ∧
    ∃ vals final, shape_test_box_run stub_half_space_test_box subdiv_box_is_in
          (clear_memo (.mk INTERSECTION () [.mk IDENTITY () [] 0 0 [], .mk UNIVERSE () [] 0 0 []]
            0 0 []))
          [stub_box 1, stub_box 2, stub_box 2, stub_box 3, stub_box 1] 0
        = some (vals, final) ∧
      List.Forall₂
        (fun b v => reference_test_box stub_half_space_test_box
          (.mk INTERSECTION () [.mk IDENTITY () [] 0 0 [], .mk UNIVERSE () [] 0 0 []] 0 0 []) b
          = some v)
        [stub_box 1, stub_box 2, stub_box 2, stub_box 3, stub_box 1] vals :=
  have hboxes : ∀ b ∈ [stub_box 1, stub_box 2, stub_box 2, stub_box 3, stub_box 1],
      stub_hier b := by
    intro b hb
    simp only [List.mem_cons, List.mem_singleton, List.not_mem_nil, or_false] at hb
    unfold stub_hier
    tauto
  ⟨stub_hier_address, subdiv_box_is_in_eq_zero, stub_half_space_test_box_values,
    stub_half_space_test_box_mono, hboxes,
    shape_test_box_refines_reference stub_half_space_test_box subdiv_box_is_in stub_hier
      stub_hier_address subdiv_box_is_in_eq_zero stub_half_space_test_box_values
      stub_half_space_test_box_mono _ _ hboxes 0⟩

/-! ## The child loop of the box classifier (C21) -/

section ChildLoop

variable {S : Type} (surface_test_box : S → Box → Int) (box_is_in : Box → Nat → Int)

/-- The loop with its counter is the loop `shape_test_box_args`, and its
assignments are `sub[i] = v` for the counter values `i, i + 1, ...` in
ascending order, one for each child. -/
theorem shape_test_box_args_indexed_eq : ∀ (l : List (Shape S)) (box : Box) (collect : Int)
    (i : Nat) (rs : List (BoxTest S)),
    List.Forall₂
      (fun c r => shape_test_box surface_test_box box_is_in c box collect = some r) l rs →
    shape_test_box_args_indexed surface_test_box box_is_in l box collect i
      = some (gather rs, (List.range' i l.length).zip (rs.map BoxTest.result))
  | [], box, collect, i, rs, h => by
    cases h
    rw [shape_test_box_args_indexed]
    rfl
  | c :: cs, box, collect, i, rs, h => by
    cases h with
    | cons hr hrs =>
      rw [shape_test_box_args_indexed, hr,
        shape_test_box_args_indexed_eq cs box collect (i + 1) _ hrs]
      rfl

/-- A composite node whose memo test fails runs the child loop and combines
the array it fills: the result, the node and the Surface calls in terms of the
separate calls `rs` on the children. -/
theorem shape_test_box_composite (opc : Operation) (surface : S) (args : List (Shape S))
    (lb : Nat) (lbr : Int) (stats : List (List Int × ℚ)) (box : Box) (collect : Int)
    (hc : is_composite opc = true)
    (h : memo_hit box_is_in lb lbr box = false) :
    ∃ (rs : List (BoxTest S)) (v : Int),
      List.Forall₂
        (fun c r => shape_test_box surface_test_box box_is_in c box collect = some r) args rs ∧
      (if opc = INTERSECTION then geom_intersection (rs.map BoxTest.result) args.length 1
        else geom_union (rs.map BoxTest.result) args.length 1) = some v ∧
      shape_test_box surface_test_box box_is_in (.mk opc surface args lb lbr stats) box collect
        = some ⟨v, .mk opc surface (rs.map BoxTest.shape) box.subdiv v stats,
            (rs.map BoxTest.calls).flatten⟩ := by
  obtain ⟨rs, hrs, ht⟩ := shape_test_box_args_eq surface_test_box box_is_in args box collect
  have hlen : (rs.map BoxTest.result).length = args.length := by
    rw [List.length_map, hrs.length_eq]
  cases opc <;> first | (simp [is_composite] at hc; done) | skip
  · obtain ⟨v, hv⟩ : ∃ v, geom_intersection (rs.map BoxTest.result) args.length 1 = some v :=
      ⟨_, hlen ▸ geom_intersection_stride_one _⟩
    refine ⟨rs, v, hrs, by rw [if_pos rfl]; exact hv, ?_⟩
    exact shape_test_box_of_intersection surface_test_box box_is_in _ _ _ _ _ _ _ h _ ht _ hv
  · obtain ⟨v, hv⟩ : ∃ v, geom_union (rs.map BoxTest.result) args.length 1 = some v :=
      ⟨_, hlen ▸ geom_union_stride_one _⟩
    refine ⟨rs, v, hrs, by rw [if_neg (by decide)]; exact hv, ?_⟩
    exact shape_test_box_of_union surface_test_box box_is_in _ _ _ _ _ _ _ h _ ht _ hv

/-- C21: on a recomputation (the memo test fails) at a composite node,
`shape_test_box` returns, and its child loop calls `shape_test_box` once for
each of the `alen` children with the query box, in index order: with `rs` the
outcomes of the separate calls on the children, the loop makes exactly the
assignments `sub[i] = rs[i].result` for `i = 0, ..., alen - 1` in this order,
whatever values earlier children returned; the node keeps every child as its
call left it, and the Surface calls are those of the children in order. -/
theorem shape_test_box_children_in_order (opc : Operation) (surface : S)
    (args : List (Shape S)) (lb : Nat) (lbr : Int) (stats : List (List Int × ℚ)) (box : Box)
    (collect : Int) (hc : opc = INTERSECTION ∨ opc = UNION)
    (h : memo_hit box_is_in lb lbr box = false) :
    ∃ (rs : List (BoxTest S)) (v : Int),
      rs.length = args.length ∧
      List.Forall₂
        (fun c r => shape_test_box surface_test_box box_is_in c box collect = some r) args rs ∧
      shape_test_box_args_indexed surface_test_box box_is_in args box collect 0
        = some (gather rs, (List.range args.length).zip (rs.map BoxTest.result)) ∧
      shape_test_box surface_test_box box_is_in (.mk opc surface args lb lbr stats) box collect
        = some ⟨v, .mk opc surface (rs.map BoxTest.shape) box.subdiv v stats,
            (rs.map BoxTest.calls).flatten⟩ := by
  have hcomp : is_composite opc = true := by
    rcases hc with hc | hc <;> subst hc <;> rfl
  obtain ⟨rs, v, hrs, -, ht⟩ :=
    shape_test_box_composite surface_test_box box_is_in opc surface args lb lbr stats box
      collect hcomp h
  refine ⟨rs, v, hrs.length_eq.symm, hrs, ?_, ht⟩
  rw [shape_test_box_args_indexed_eq surface_test_box box_is_in args box collect 0 rs hrs,
    List.range_eq_range']

end ChildLoop

/-- The children of the concrete runs for C21: three IDENTITY nodes with
cleared memos whose surfaces classify every box as OUTSIDE, INSIDE and
AMBIGUOUS. -/
theorem stub_children_calls :
    List.Forall₂
      (fun c r => shape_test_box stub_surface_test_box subdiv_box_is_in c (stub_box 1) 0
        = some r)
      [.mk IDENTITY (-1) [] 0 0 [], .mk IDENTITY 1 [] 0 0 [], .mk IDENTITY 0 [] 0 0 []]
      [⟨-1, .mk IDENTITY (-1) [] 1 (-1) [], [(-1, stub_box 1)]⟩,
       ⟨1, .mk IDENTITY 1 [] 1 1 [], [(1, stub_box 1)]⟩,
       ⟨0, .mk IDENTITY 0 [] 1 0 [], [(0, stub_box 1)]⟩] :=
  List.Forall₂.cons rfl (List.Forall₂.cons rfl (List.Forall₂.cons rfl List.Forall₂.nil))

/-- No short-circuit under INTERSECTION: the first child returns OUTSIDE, which
decides the intersection, and the loop still classifies the second and the
third child; their surfaces are called and their memos are filled. -/
theorem shape_test_box_intersection_no_short_circuit :
    (shape_test_box_args_indexed stub_surface_test_box subdiv_box_is_in
        [.mk IDENTITY (-1) [] 0 0 [], .mk IDENTITY 1 [] 0 0 [], .mk IDENTITY 0 [] 0 0 []]
        (stub_box 1) 0 0).map Prod.snd = some [(0, -1), (1, 1), (2, 0)] ∧
    (shape_test_box stub_surface_test_box subdiv_box_is_in
        (.mk INTERSECTION 0
          [.mk IDENTITY (-1) [] 0 0 [], .mk IDENTITY 1 [] 0 0 [], .mk IDENTITY 0 [] 0 0 []]
          0 0 []) (stub_box 1) 0).map
      (fun t => (t.result, t.calls.map Prod.fst,
        t.shape.args.map (fun c => (c.last_box, c.last_box_result))))
      = some (-1, [-1, 1, 0], [(1, -1), (1, 1), (1, 0)]) := by
  constructor <;> rfl

/-- No short-circuit under UNION: the first child returns INSIDE, which decides
the union, and the loop still classifies the second and the third child. -/
theorem shape_test_box_union_no_short_circuit :
    (shape_test_box_args_indexed stub_surface_test_box subdiv_box_is_in
        [.mk IDENTITY 1 [] 0 0 [], .mk IDENTITY (-1) [] 0 0 [], .mk IDENTITY 0 [] 0 0 []]
        (stub_box 1) 0 0).map Prod.snd = some [(0, 1), (1, -1), (2, 0)] ∧
    (shape_test_box stub_surface_test_box subdiv_box_is_in
        (.mk UNION 0
          [.mk IDENTITY 1 [] 0 0 [], .mk IDENTITY (-1) [] 0 0 [], .mk IDENTITY 0 [] 0 0 []]
          0 0 []) (stub_box 1) 0).map
      (fun t => (t.result, t.calls.map Prod.fst,
        t.shape.args.map (fun c => (c.last_box, c.last_box_result))))
      = some (1, [1, -1, 0], [(1, 1), (1, -1), (1, 0)]) := by
  constructor <;> rfl

/-- Witness for C21: an INTERSECTION of three IDENTITY nodes with empty memos,
the first of which returns OUTSIDE, queried with the box of address 1. -/
theorem shape_test_box_children_in_order_witness :
    (INTERSECTION = INTERSECTION ∨ INTERSECTION = UNION) ∧
    memo_hit subdiv_box_is_in 0 0 (stub_box 1) = false ∧
    ∃ (rs : List (BoxTest Int)) (v : Int),
      rs.length
        = [Shape.mk IDENTITY (-1 : Int) [] 0 0 [], .mk IDENTITY 1 [] 0 0 [],
            .mk IDENTITY 0 [] 0 0 []].length ∧
      List.Forall₂
        (fun c r => shape_test_box stub_surface_test_box subdiv_box_is_in c (stub_box 1) 0
          = some r)
        [.mk IDENTITY (-1) [] 0 0 [], .mk IDENTITY 1 [] 0 0 [], .mk IDENTITY 0 [] 0 0 []] rs ∧
      shape_test_box_args_indexed stub_surface_test_box subdiv_box_is_in
          [.mk IDENTITY (-1) [] 0 0 [], .mk IDENTITY 1 [] 0 0 [], .mk IDENTITY 0 [] 0 0 []]
          (stub_box 1) 0 0
        = some (gather rs,
            (List.range [Shape.mk IDENTITY (-1 : Int) [] 0 0 [], .mk IDENTITY 1 [] 0 0 [],
              .mk IDENTITY 0 [] 0 0 []].length).zip (rs.map BoxTest.result)) ∧
      shape_test_box stub_surface_test_box subdiv_box_is_in
          (.mk INTERSECTION 0
            [.mk IDENTITY (-1) [] 0 0 [], .mk IDENTITY 1 [] 0 0 [], .mk IDENTITY 0 [] 0 0 []]
            0 0 []) (stub_box 1) 0
        = some ⟨v, .mk INTERSECTION 0 (rs.map BoxTest.shape) (stub_box 1).subdiv v [],
            (rs.map BoxTest.calls).flatten⟩ :=
  ⟨Or.inl rfl, rfl,
    shape_test_box_children_in_order stub_surface_test_box subdiv_box_is_in INTERSECTION 0
      [.mk IDENTITY (-1) [] 0 0 [], .mk IDENTITY 1 [] 0 0 [], .mk IDENTITY 0 [] 0 0 []]
      0 0 [] (stub_box 1) 0 (Or.inl rfl) rfl⟩

/-! ## Bounds of the volume estimate (C23) -/

section VolumeBounds

variable {S : Type} (surface_test_box : S → Box → Int) (box_is_in : Box → Nat → Int)
  (box_split : Box → Int → ℚ → Box × Box)

/-- The estimate lies between 0 and the volume of the box whenever
`shape_volume` returns. The boxes are those of a collection `dom` that holds
the halves of each of its members, and on which the halves have non-negative
volumes that sum to the volume of the parent. -/
theorem shape_volume_between (dom : Box → Prop)
    (hsplit : ∀ b : Box, dom b →
      dom (box_split b BOX_SPLIT_AUTODIR (1 / 2)).1 ∧
      dom (box_split b BOX_SPLIT_AUTODIR (1 / 2)).2 ∧
      0 ≤ (box_split b BOX_SPLIT_AUTODIR (1 / 2)).1.volume ∧
      0 ≤ (box_split b BOX_SPLIT_AUTODIR (1 / 2)).2.volume ∧
      (box_split b BOX_SPLIT_AUTODIR (1 / 2)).1.volume
        + (box_split b BOX_SPLIT_AUTODIR (1 / 2)).2.volume = b.volume) :
    ∀ (fuel : Nat) (s : Shape S) (box : Box) (min_vol : ℚ) (r : VolumeRun S),
    dom box →
    shape_volume surface_test_box box_is_in box_split fuel s box min_vol = some r →
    0 ≤ r.volume ∧ r.volume ≤ box.volume
  | 0, s, box, min_vol, r, _, h => by
    rw [shape_volume] at h
    cases h
  | fuel + 1, s, box, min_vol, r, hdom, h => by
    obtain ⟨hd1, hd2, h1nn, h2nn, hsum⟩ := hsplit box hdom
    have hbox : 0 ≤ box.volume := by
      rw [← hsum]
      exact add_nonneg h1nn h2nn
    rw [shape_volume] at h
    cases ht : shape_test_box surface_test_box box_is_in s box 0 with
    | none => rw [ht] at h; cases h
    | some t0 =>
      rw [ht] at h
      simp only at h
      by_cases hi : t0.result = BOX_INSIDE_SHAPE
      · rw [if_pos hi] at h
        cases h
        exact ⟨hbox, le_refl _⟩
      · rw [if_neg hi] at h
        by_cases ho : t0.result = BOX_OUTSIDE_SHAPE
        · rw [if_pos ho] at h
          cases h
          exact ⟨le_refl _, hbox⟩
        · rw [if_neg ho] at h
          by_cases hv : box.volume > min_vol
          · rw [if_pos hv] at h
            cases h1 : shape_volume surface_test_box box_is_in box_split fuel t0.shape
                (box_split box BOX_SPLIT_AUTODIR (1 / 2)).1 min_vol with
            | none => rw [h1] at h; cases h
            | some v1 =>
              rw [h1] at h
              simp only at h
              cases h2 : shape_volume surface_test_box box_is_in box_split fuel v1.shape
                  (box_split box BOX_SPLIT_AUTODIR (1 / 2)).2 min_vol with
              | none => rw [h2] at h; cases h
              | some v2 =>
                rw [h2] at h
                cases h
                have b1 := shape_volume_between dom hsplit fuel _ _ _ _ hd1 h1
                have b2 := shape_volume_between dom hsplit fuel _ _ _ _ hd2 h2
                constructor
                · exact add_nonneg b1.1 b2.1
                · show v1.volume + v2.volume ≤ box.volume
                  rw [← hsum]
                  exact add_le_add b1.2 b2.2
          · rw [if_neg hv] at h
            cases h
            constructor
            · show 0 ≤ (1 / 2) * box.volume
              linarith
            · show (1 / 2) * box.volume ≤ box.volume
              linarith

/-- C23: the volume estimate is bounded by the box. Given a split whose two
halves have non-negative volumes summing to the volume of the parent, on the
boxes `dom` that the split applies to (the query box and the halves of every
such box), every result `v` that `shape_volume` returns for a shape, a box and
a threshold `min_vol` satisfies `0 ≤ v` and `v ≤ box.volume`. -/
theorem shape_volume_bounded (dom : Box → Prop)
    (hsplit : ∀ b : Box, dom b →
      dom (box_split b BOX_SPLIT_AUTODIR (1 / 2)).1 ∧
      dom (box_split b BOX_SPLIT_AUTODIR (1 / 2)).2 ∧
      0 ≤ (box_split b BOX_SPLIT_AUTODIR (1 / 2)).1.volume ∧
      0 ≤ (box_split b BOX_SPLIT_AUTODIR (1 / 2)).2.volume ∧
      (box_split b BOX_SPLIT_AUTODIR (1 / 2)).1.volume
        + (box_split b BOX_SPLIT_AUTODIR (1 / 2)).2.volume = b.volume)
    (fuel : Nat) (s : Shape S) (box : Box) (min_vol : ℚ) (r : VolumeRun S)
    (hbox : dom box)
    (h : shape_volume surface_test_box box_is_in box_split fuel s box min_vol = some r) :
    0 ≤ r.volume ∧ r.volume ≤ box.volume :=
  shape_volume_between surface_test_box box_is_in box_split dom hsplit fuel s box min_vol r
    hbox h

end VolumeBounds

/-- The split `stub_box_split` at ratio 1/2 on the boxes of non-negative
volume: the halves are such boxes again, and their volumes sum to the volume
of the parent. -/
theorem stub_box_split_halves (b : Box) (hb : 0 ≤ b.volume) :
    0 ≤ (stub_box_split b BOX_SPLIT_AUTODIR (1 / 2)).1.volume ∧
    0 ≤ (stub_box_split b BOX_SPLIT_AUTODIR (1 / 2)).2.volume ∧
    0 ≤ (stub_box_split b BOX_SPLIT_AUTODIR (1 / 2)).1.volume ∧
    0 ≤ (stub_box_split b BOX_SPLIT_AUTODIR (1 / 2)).2.volume ∧
    (stub_box_split b BOX_SPLIT_AUTODIR (1 / 2)).1.volume
      + (stub_box_split b BOX_SPLIT_AUTODIR (1 / 2)).2.volume = b.volume := by
  simp only [stub_box_split]
  refine ⟨by linarith, by linarith, by linarith, by linarith, by ring⟩

/-- The run of the witness for C23 returns: the half-space on the box of
address 1 with `min_vol = 1/2` is split once. -/
theorem stub_half_space_volume_some :
    (shape_volume stub_half_space_test_box subdiv_box_is_in stub_box_split 2
      (.mk IDENTITY () [] 0 0 []) (stub_box 1) (1 / 2)).isSome = true := by
  decide!

/-- The estimate of that run is 1/2, the volume of the first half. -/
theorem stub_half_space_volume :
    (shape_volume stub_half_space_test_box subdiv_box_is_in stub_box_split 2
      (.mk IDENTITY () [] 0 0 []) (stub_box 1) (1 / 2)).map VolumeRun.volume
      = some (1 / 2) := by
  decide!

/-- The bound needs the box to be one the split applies to: on a box of volume
`-1`, which is not the sum of two non-negative volumes, the UNIVERSE shape is
INSIDE and `shape_volume` returns the volume of the box, `-1`. -/
theorem shape_volume_negative_box :
    (shape_volume stub_surface_test_box subdiv_box_is_in stub_box_split 1
      (.mk UNIVERSE 0 [] 0 0 []) ⟨1, -1, fun _ => 1⟩ 0).map VolumeRun.volume = some (-1) := by
  decide!

/-- Witness for C23: the half-space on the unit box of address 1, split once,
with the boxes of non-negative volume as the collection. -/
theorem shape_volume_bounded_witness :
    (0 : ℚ) ≤ (stub_box 1).volume ∧
    shape_volume stub_half_space_test_box subdiv_box_is_in stub_box_split 2
        (.mk IDENTITY () [] 0 0 []) (stub_box 1) (1 / 2)
      = some ((shape_volume stub_half_space_test_box subdiv_box_is_in stub_box_split 2
          (.mk IDENTITY () [] 0 0 []) (stub_box 1) (1 / 2)).get stub_half_space_volume_some) ∧
    0 ≤ ((shape_volume stub_half_space_test_box subdiv_box_is_in stub_box_split 2
          (.mk IDENTITY () [] 0 0 []) (stub_box 1) (1 / 2)).get
            stub_half_space_volume_some).volume ∧
    ((shape_volume stub_half_space_test_box subdiv_box_is_in stub_box_split 2
          (.mk IDENTITY () [] 0 0 []) (stub_box 1) (1 / 2)).get
            stub_half_space_volume_some).volume ≤ (stub_box 1).volume :=
  ⟨by decide!, (Option.some_get _).symm,
    shape_volume_bounded stub_half_space_test_box subdiv_box_is_in stub_box_split
      (fun b => 0 ≤ b.volume) stub_box_split_halves 2 (.mk IDENTITY () [] 0 0 []) (stub_box 1)
      (1 / 2) _ (by decide!) (Option.some_get _).symm⟩

/-! ## The bounding-box solver only shrinks the box (C22) -/

section BoundingShrinks

variable {S : Type} (surface_test_box : S → Box → Int) (box_is_in : Box → Nat → Int)
  (box_split : Box → Int → ℚ → Box × Box)

/-- The first loop follows the transition system: from the head of the loop
it arrives, when it returns, at the head of the second loop of the same axis
with the bound 0. -/
theorem bounding_lower_loop_reach (rfuel : Nat) (dim : Fin 3) (tol : ℚ) (min_vol : Int)
    (st0 : BoundState S) : ∀ (fuel : Nat) (st : BoundState S) (lower : ℚ) (out : BoundState S),
    bounding_lower_loop surface_test_box box_is_in box_split rfuel dim tol min_vol fuel st lower
      = some out →
    BoundingReach surface_test_box box_is_in box_split rfuel tol min_vol st0 dim false st lower →
    BoundingReach surface_test_box box_is_in box_split rfuel tol min_vol st0 dim true out 0
  | 0, st, lower, out, h, hb => by
    rw [bounding_lower_loop] at h
    by_cases hc : st.box.dims dim - lower > tol
    · rw [if_pos hc] at h
      cases h
    · rw [if_neg hc] at h
      cases h
      exact BoundingReach.lower_exit dim _ lower hb hc
  | fuel + 1, st, lower, out, h, hb => by
    rw [bounding_lower_loop] at h
    by_cases hc : st.box.dims dim - lower > tol
    · rw [if_pos hc] at h
      simp only at h
      cases ht : shape_ultimate_test_box surface_test_box box_is_in box_split rfuel st.shape
          (box_split st.box ((dim : Nat) : Int)
            ((1 / 2) * (lower + st.box.dims dim) / st.box.dims dim)).2 (min_vol : ℚ) with
      | none => rw [ht] at h; cases h
      | some t =>
        rw [ht] at h
        simp only at h
        by_cases hr : t.result = -1
        · rw [if_pos hr] at h
          exact bounding_lower_loop_reach rfuel dim tol min_vol st0 fuel _ _ out h
            (BoundingReach.lower_shrink dim st lower t hb hc ht hr)
        · rw [if_neg hr] at h
          exact bounding_lower_loop_reach rfuel dim tol min_vol st0 fuel _ _ out h
            (BoundingReach.lower_keep dim st lower t hb hc ht hr)
    · rw [if_neg hc] at h
      cases h
      exact BoundingReach.lower_exit dim _ lower hb hc

/-- The second loop follows the transition system: when it returns it stands
at its own head with a bound for which its condition fails. -/
theorem bounding_upper_loop_reach (rfuel : Nat) (dim : Fin 3) (tol : ℚ) (min_vol : Int)
    (st0 : BoundState S) : ∀ (fuel : Nat) (st : BoundState S) (upper : ℚ) (out : BoundState S),
    bounding_upper_loop surface_test_box box_is_in box_split rfuel dim tol min_vol fuel st upper
      = some out →
    BoundingReach surface_test_box box_is_in box_split rfuel tol min_vol st0 dim true st upper →
    ∃ u, BoundingReach surface_test_box box_is_in box_split rfuel tol min_vol st0 dim true out u
      ∧ ¬ out.box.dims dim - u > tol
  | 0, st, upper, out, h, hb => by
    rw [bounding_upper_loop] at h
    by_cases hc : st.box.dims dim - upper > tol
    · rw [if_pos hc] at h
      cases h
    · rw [if_neg hc] at h
      cases h
      exact ⟨upper, hb, hc⟩
  | fuel + 1, st, upper, out, h, hb => by
    rw [bounding_upper_loop] at h
    by_cases hc : st.box.dims dim - upper > tol
    · rw [if_pos hc] at h
      simp only at h
      cases ht : shape_ultimate_test_box surface_test_box box_is_in box_split rfuel st.shape
          (box_split st.box ((dim : Nat) : Int)
            ((1 / 2) * (st.box.dims dim - upper) / st.box.dims dim)).1 (min_vol : ℚ) with
      | none => rw [ht] at h; cases h
      | some t =>
        rw [ht] at h
        simp only at h
        by_cases hr : t.result = -1
        · rw [if_pos hr] at h
          exact bounding_upper_loop_reach rfuel dim tol min_vol st0 fuel _ _ out h
            (BoundingReach.upper_shrink dim st upper t hb hc ht hr)
        · rw [if_neg hr] at h
          exact bounding_upper_loop_reach rfuel dim tol min_vol st0 fuel _ _ out h
            (BoundingReach.upper_keep dim st upper t hb hc ht hr)
    · rw [if_neg hc] at h
      cases h
      exact ⟨upper, hb, hc⟩

/-- The two loops of one axis follow the transition system. -/
theorem bounding_axis_reach (rfuel fuel : Nat) (tol : ℚ) (min_vol : Int) (dim : Fin 3)
    (st0 st out : BoundState S)
    (h : bounding_axis surface_test_box box_is_in box_split rfuel fuel tol min_vol dim st
      = some out)
    (hb : BoundingReach surface_test_box box_is_in box_split rfuel tol min_vol st0 dim false
      st 0) :
    ∃ u, BoundingReach surface_test_box box_is_in box_split rfuel tol min_vol st0 dim true out u
      ∧ ¬ out.box.dims dim - u > tol := by
  rw [bounding_axis] at h
  cases h1 : bounding_lower_loop surface_test_box box_is_in box_split rfuel dim tol min_vol fuel
      st 0 with
  | none => rw [h1] at h; cases h
  | some st1 =>
    rw [h1] at h
    exact bounding_upper_loop_reach surface_test_box box_is_in box_split rfuel dim tol min_vol
      st0 fuel st1 0 out h
      (bounding_lower_loop_reach surface_test_box box_is_in box_split rfuel dim tol min_vol
        st0 fuel st 0 st1 h1 hb)

/-- The runs of the three axes behind a result of `shape_bounding_box`. -/
theorem shape_bounding_box_axes (rfuel fuel : Nat) (shape : Shape S) (box : Box) (tol : ℚ)
    (r : BoundRun S)
    (h : shape_bounding_box surface_test_box box_is_in box_split rfuel fuel shape box tol
      = some r) :
    ∃ st0 st1 : BoundState S,
      bounding_axis surface_test_box box_is_in box_split rfuel fuel tol
        (double_to_int (tol * tol * tol)) 0 ⟨box, shape, []⟩ = some st0 ∧
      bounding_axis surface_test_box box_is_in box_split rfuel fuel tol
        (double_to_int (tol * tol * tol)) 1 st0 = some st1 ∧
      bounding_axis surface_test_box box_is_in box_split rfuel fuel tol
        (double_to_int (tol * tol * tol)) 2 st1 = some r.state := by
  unfold shape_bounding_box at h
  simp only at h
  cases h0 : bounding_axis surface_test_box box_is_in box_split rfuel fuel tol
      (double_to_int (tol * tol * tol)) 0 ⟨box, shape, []⟩ with
  | none => rw [h0] at h; cases h
  | some st0 =>
    rw [h0] at h
    simp only at h
    cases h1 : bounding_axis surface_test_box box_is_in box_split rfuel fuel tol
        (double_to_int (tol * tol * tol)) 1 st0 with
    | none => rw [h1] at h; cases h
    | some st1 =>
      rw [h1] at h
      simp only at h
      cases h2 : bounding_axis surface_test_box box_is_in box_split rfuel fuel tol
          (double_to_int (tol * tol * tol)) 2 st1 with
      | none => rw [h2] at h; cases h
      | some st2 =>
        rw [h2] at h
        cases h
        exact ⟨st0, st1, rfl, h1, h2⟩

/-- In the transition system the search bound is never negative and the box
never exceeds the start box on any axis, when the tolerance is not negative
and a split at a ratio between 0 and 1 gives halves that do not exceed the
parent on any axis and have a non-negative dimension along the split axis. -/
theorem bounding_reach_dims (rfuel : Nat) (tol : ℚ) (min_vol : Int) (st0 : BoundState S)
    (htol : 0 ≤ tol)
    (hin : ∀ (b : Box) (dim : Fin 3) (q : ℚ), 0 ≤ q → q ≤ 1 → 0 ≤ b.dims dim →
      (0 ≤ (box_split b ((dim : Nat) : Int) q).1.dims dim ∧
        ∀ a, (box_split b ((dim : Nat) : Int) q).1.dims a ≤ b.dims a) ∧
      (0 ≤ (box_split b ((dim : Nat) : Int) q).2.dims dim ∧
        ∀ a, (box_split b ((dim : Nat) : Int) q).2.dims a ≤ b.dims a))
    (dim : Fin 3) (second : Bool) (st : BoundState S) (bound : ℚ)
    (h : BoundingReach surface_test_box box_is_in box_split rfuel tol min_vol st0 dim second st
      bound) :
    0 ≤ bound ∧ ∀ a, st.box.dims a ≤ st0.box.dims a := by
  induction h with
  | start => exact ⟨le_refl _, fun a => le_refl _⟩
  | lower_shrink dim st lower t _ hc _ _ ih =>
    have hd : 0 < st.box.dims dim := by linarith [ih.1]
    have hq0 : 0 ≤ (1 / 2) * (lower + st.box.dims dim) / st.box.dims dim :=
      div_nonneg (by linarith [ih.1]) hd.le
    have hq1 : (1 / 2) * (lower + st.box.dims dim) / st.box.dims dim ≤ 1 := by
      rw [div_le_one hd]
      linarith
    obtain ⟨⟨-, h1le⟩, -⟩ := hin st.box dim _ hq0 hq1 hd.le
    exact ⟨ih.1, fun a => le_trans (h1le a) (ih.2 a)⟩
  | lower_keep dim st lower t _ hc _ _ ih =>
    have hd : 0 < st.box.dims dim := by linarith [ih.1]
    have hq0 : 0 ≤ (1 / 2) * (lower + st.box.dims dim) / st.box.dims dim :=
      div_nonneg (by linarith [ih.1]) hd.le
    have hq1 : (1 / 2) * (lower + st.box.dims dim) / st.box.dims dim ≤ 1 := by
      rw [div_le_one hd]
      linarith
    obtain ⟨⟨h1nn, -⟩, -⟩ := hin st.box dim _ hq0 hq1 hd.le
    exact ⟨h1nn, ih.2⟩
  | lower_exit dim st lower _ _ ih => exact ⟨le_refl _, ih.2⟩
  | upper_shrink dim st upper t _ hc _ _ ih =>
    have hd : 0 < st.box.dims dim := by linarith [ih.1]
    have hq0 : 0 ≤ (1 / 2) * (st.box.dims dim - upper) / st.box.dims dim :=
      div_nonneg (by linarith) hd.le
    have hq1 : (1 / 2) * (st.box.dims dim - upper) / st.box.dims dim ≤ 1 := by
      rw [div_le_one hd]
      linarith [ih.1]
    obtain ⟨-, -, h2le⟩ := hin st.box dim _ hq0 hq1 hd.le
    exact ⟨ih.1, fun a => le_trans (h2le a) (ih.2 a)⟩
  | upper_keep dim st upper t _ hc _ _ ih =>
    have hd : 0 < st.box.dims dim := by linarith [ih.1]
    have hq0 : 0 ≤ (1 / 2) * (st.box.dims dim - upper) / st.box.dims dim :=
      div_nonneg (by linarith) hd.le
    have hq1 : (1 / 2) * (st.box.dims dim - upper) / st.box.dims dim ≤ 1 := by
      rw [div_le_one hd]
      linarith [ih.1]
    obtain ⟨-, h2nn, -⟩ := hin st.box dim _ hq0 hq1 hd.le
    exact ⟨h2nn, ih.2⟩
  | next_axis dim dim' st upper _ _ _ ih => exact ⟨le_refl _, ih.2⟩

/-- The refiner on a UNIVERSE node in a reachable memo state answers INSIDE
and leaves a UNIVERSE node in a reachable memo state. -/
theorem shape_ultimate_test_box_universe (rfuel : Nat) (s : Shape S) (b : Box) (min_vol : ℚ)
    (t : BoxTest S) (hr : Reachable surface_test_box box_is_in s) (ho : s.opc = UNIVERSE)
    (h : shape_ultimate_test_box surface_test_box box_is_in box_split rfuel s b min_vol
      = some t) :
    t.result = BOX_INSIDE_SHAPE ∧ Reachable surface_test_box box_is_in t.shape ∧
      t.shape.opc = UNIVERSE := by
  cases rfuel with
  | zero =>
    rw [shape_ultimate_test_box] at h
    cases h
  | succ n =>
    obtain ⟨t1, ht1, hres, -⟩ := shape_ultimate_test_box_step surface_test_box box_is_in
      box_split n s b min_vol
    obtain ⟨t2, ht2, hu, -⟩ := shape_test_box_void surface_test_box box_is_in s hr b 0
    have e : t1 = t2 := Option.some.inj (ht1.symm.trans ht2)
    subst e
    have h1 : t1.result = BOX_INSIDE_SHAPE := hu ho
    have hne : t1.result ≠ BOX_CAN_INTERSECT_SHAPE := by
      rw [h1]
      decide
    have e2 : t = t1 := Option.some.inj (h.symm.trans (hres (Or.inl hne)))
    subst e2
    refine ⟨h1, Reachable.query s b 0 t hr ht1, ?_⟩
    rw [(shape_test_box_memo surface_test_box box_is_in s b 0 t ht1).2.1, ho]

/-- The transition system does not move the box without evidence: for a
UNIVERSE shape, which the refiner never classifies `-1`, every configuration
it reaches holds the start box. -/
theorem bounding_reach_universe (rfuel : Nat) (tol : ℚ) (min_vol : Int) (st0 : BoundState S)
    (hr : Reachable surface_test_box box_is_in st0.shape) (ho : st0.shape.opc = UNIVERSE)
    (dim : Fin 3) (second : Bool) (st : BoundState S) (bound : ℚ)
    (h : BoundingReach surface_test_box box_is_in box_split rfuel tol min_vol st0 dim second st
      bound) :
    st.box = st0.box ∧ Reachable surface_test_box box_is_in st.shape ∧
      st.shape.opc = UNIVERSE := by
  induction h with
  | start => exact ⟨rfl, hr, ho⟩
  | lower_shrink dim st lower t _ _ ht hres ih =>
    have h1 := (shape_ultimate_test_box_universe surface_test_box box_is_in box_split rfuel
      _ _ _ t ih.2.1 ih.2.2 ht).1
    rw [hres] at h1
    exact absurd h1 (by decide)
  | lower_keep dim st lower t _ _ ht _ ih =>
    exact ⟨ih.1, (shape_ultimate_test_box_universe surface_test_box box_is_in box_split rfuel
      _ _ _ t ih.2.1 ih.2.2 ht).2⟩
  | lower_exit dim st lower _ _ ih => exact ih
  | upper_shrink dim st upper t _ _ ht hres ih =>
    have h1 := (shape_ultimate_test_box_universe surface_test_box box_is_in box_split rfuel
      _ _ _ t ih.2.1 ih.2.2 ht).1
    rw [hres] at h1
    exact absurd h1 (by decide)
  | upper_keep dim st upper t _ _ ht _ ih =>
    exact ⟨ih.1, (shape_ultimate_test_box_universe surface_test_box box_is_in box_split rfuel
      _ _ _ t ih.2.1 ih.2.2 ht).2⟩
  | next_axis dim dim' st upper _ _ _ ih => exact ih

/-- C22: `shape_bounding_box` only shrinks the box, and only on evidence.
Every run that returns follows the transition system `BoundingReach` from the
start state to the head of the second loop of the last axis, where the loop
condition fails. In that system the box is replaced only by the inner half of
the split of the current box along the current axis, at the ratio computed
from the current search bound, and only when the refiner classified the outer
half of that split `-1` on the current shape; every other iteration keeps the
box and moves only the search bound. Hence, when the tolerance is not negative
and a split at a ratio between 0 and 1 gives halves that do not exceed their
parent on any axis, the final dimension is at most the start dimension on
every axis. -/
theorem shape_bounding_box_shrinks (rfuel fuel : Nat) (shape : Shape S) (box : Box) (tol : ℚ)
    (r : BoundRun S)
    (h : shape_bounding_box surface_test_box box_is_in box_split rfuel fuel shape box tol
      = some r) :
    (∃ upper, BoundingReach surface_test_box box_is_in box_split rfuel tol
        (double_to_int (tol * tol * tol)) ⟨box, shape, []⟩ 2 true r.state upper ∧
      ¬ r.state.box.dims 2 - upper > tol) ∧
    (0 ≤ tol →
      (∀ (b : Box) (dim : Fin 3) (q : ℚ), 0 ≤ q → q ≤ 1 → 0 ≤ b.dims dim →
        (0 ≤ (box_split b ((dim : Nat) : Int) q).1.dims dim ∧
          ∀ a, (box_split b ((dim : Nat) : Int) q).1.dims a ≤ b.dims a) ∧
        (0 ≤ (box_split b ((dim : Nat) : Int) q).2.dims dim ∧
          ∀ a, (box_split b ((dim : Nat) : Int) q).2.dims a ≤ b.dims a)) →
      ∀ a, r.state.box.dims a ≤ box.dims a) := by
  obtain ⟨st0, st1, h0, h1, h2⟩ :=
    shape_bounding_box_axes surface_test_box box_is_in box_split rfuel fuel shape box tol r h
  obtain ⟨u0, r0, c0⟩ := bounding_axis_reach surface_test_box box_is_in box_split rfuel fuel tol
    _ 0 ⟨box, shape, []⟩ ⟨box, shape, []⟩ st0 h0 BoundingReach.start
  obtain ⟨u1, r1, c1⟩ := bounding_axis_reach surface_test_box box_is_in box_split rfuel fuel tol
    _ 1 ⟨box, shape, []⟩ st0 st1 h1 (BoundingReach.next_axis 0 1 st0 u0 r0 c0 rfl)
  obtain ⟨u2, r2, c2⟩ := bounding_axis_reach surface_test_box box_is_in box_split rfuel fuel tol
    _ 2 ⟨box, shape, []⟩ st1 r.state h2 (BoundingReach.next_axis 1 2 st1 u1 r1 c1 rfl)
  refine ⟨⟨u2, r2, c2⟩, fun htol hin => ?_⟩
  exact (bounding_reach_dims surface_test_box box_is_in box_split rfuel tol _ ⟨box, shape, []⟩
    htol hin 2 true r.state u2 r2).2

end BoundingShrinks

/-- The split `stub_box_split` at a ratio between 0 and 1 gives halves that do
not exceed the parent on any axis and have a non-negative dimension along the
split axis, when the parent has one. -/
theorem stub_box_split_inside (b : Box) (dim : Fin 3) (q : ℚ) (hq0 : 0 ≤ q) (hq1 : q ≤ 1)
    (hd : 0 ≤ b.dims dim) :
    (0 ≤ (stub_box_split b ((dim : Nat) : Int) q).1.dims dim ∧
      ∀ a, (stub_box_split b ((dim : Nat) : Int) q).1.dims a ≤ b.dims a) ∧
    (0 ≤ (stub_box_split b ((dim : Nat) : Int) q).2.dims dim ∧
      ∀ a, (stub_box_split b ((dim : Nat) : Int) q).2.dims a ≤ b.dims a) := by
  have hax : (if ((dim : Nat) : Int) = 1 then (1 : Fin 3)
      else if ((dim : Nat) : Int) = 2 then 2 else 0) = dim := by
    fin_cases dim <;> rfl
  simp only [stub_box_split, hax, if_true]
  refine ⟨⟨mul_nonneg hq0 hd, fun a => ?_⟩, ⟨mul_nonneg (by linarith) hd, fun a => ?_⟩⟩
  · by_cases ha : a = dim
    · subst ha
      rw [if_pos rfl]
      nlinarith
    · rw [if_neg ha]
  · by_cases ha : a = dim
    · subst ha
      rw [if_pos rfl]
      nlinarith
    · rw [if_neg ha]

/-- The run of the witness for C22 returns: the EMPTY shape, the unit box of
address 1 and the tolerance 1/2. -/
theorem stub_bounding_empty_some :
    (shape_bounding_box stub_surface_test_box subdiv_box_is_in stub_box_split 1 2
      (.mk EMPTY 0 [] 0 0 []) (stub_box 1) (1 / 2)).isSome = true := by
  decide!

/-- On the EMPTY shape every outer half is classified `-1`: each axis of the
unit box is halved once, by the first loop, and the box ends at the address 8. -/
theorem shape_bounding_box_empty_run :
    (shape_bounding_box stub_surface_test_box subdiv_box_is_in stub_box_split 1 2
      (.mk EMPTY 0 [] 0 0 []) (stub_box 1) (1 / 2)).map
      (fun r => (r.state.box.subdiv, r.state.box.dims 0, r.state.box.dims 1,
        r.state.box.dims 2))
      = some (8, 1 / 2, 1 / 2, 1 / 2) := by
  decide!

/-- On the UNIVERSE shape no half is classified `-1`: in every iteration only
the search bound moves, and the box ends as it started. -/
theorem shape_bounding_box_universe_run :
    (shape_bounding_box stub_surface_test_box subdiv_box_is_in stub_box_split 1 2
      (.mk UNIVERSE 0 [] 0 0 []) (stub_box 1) (1 / 2)).map
      (fun r => (r.state.box.subdiv, r.state.box.dims 0, r.state.box.dims 1,
        r.state.box.dims 2, r.state.thresholds.length))
      = some (1, 1, 1, 1, 6) := by
  decide!

/-- Witness for C22: the EMPTY shape on the unit box of address 1 with the
tolerance 1/2 and the split `stub_box_split`. -/
theorem shape_bounding_box_shrinks_witness :
    shape_bounding_box stub_surface_test_box subdiv_box_is_in stub_box_split 1 2
        (.mk EMPTY 0 [] 0 0 []) (stub_box 1) (1 / 2)
      = some ((shape_bounding_box stub_surface_test_box subdiv_box_is_in stub_box_split 1 2
          (.mk EMPTY 0 [] 0 0 []) (stub_box 1) (1 / 2)).get stub_bounding_empty_some) ∧
    (∃ upper, BoundingReach stub_surface_test_box subdiv_box_is_in stub_box_split 1 (1 / 2)
        (double_to_int ((1 / 2 : ℚ) * (1 / 2) * (1 / 2)))
        ⟨stub_box 1, .mk EMPTY 0 [] 0 0 [], []⟩ 2 true
        ((shape_bounding_box stub_surface_test_box subdiv_box_is_in stub_box_split 1 2
          (.mk EMPTY 0 [] 0 0 []) (stub_box 1) (1 / 2)).get stub_bounding_empty_some).state
        upper ∧
      ¬ ((shape_bounding_box stub_surface_test_box subdiv_box_is_in stub_box_split 1 2
          (.mk EMPTY 0 [] 0 0 []) (stub_box 1) (1 / 2)).get
            stub_bounding_empty_some).state.box.dims 2 - upper > 1 / 2) ∧
    ∀ a, ((shape_bounding_box stub_surface_test_box subdiv_box_is_in stub_box_split 1 2
          (.mk EMPTY 0 [] 0 0 []) (stub_box 1) (1 / 2)).get
            stub_bounding_empty_some).state.box.dims a ≤ (stub_box 1).dims a :=
  ⟨(Option.some_get _).symm,
    (shape_bounding_box_shrinks stub_surface_test_box subdiv_box_is_in stub_box_split 1 2
      (.mk EMPTY 0 [] 0 0 []) (stub_box 1) (1 / 2) _ (Option.some_get _).symm).1,
    (shape_bounding_box_shrinks stub_surface_test_box subdiv_box_is_in stub_box_split 1 2
      (.mk EMPTY 0 [] 0 0 []) (stub_box 1) (1 / 2) _ (Option.some_get _).symm).2
      (by norm_num) stub_box_split_inside⟩

/-! ## The halves of a split agree (C12) -/

section HalvesAgree

variable {S P : Type} (surface_test_box : S → Box → Int) (box_is_in : Box → Nat → Int)
  (box_split : Box → Int → ℚ → Box × Box) (pts : Box → P → Prop) (surf : S → P → Prop)

/-- Two classifications with values in {-1, 0, +1} of two boxes that share a
point, both resolved, are equal. -/
theorem classifies_shared_point (inside : P → Prop) (b1 b2 : Box) (v1 v2 : Int)
    (h1 : classifies pts inside b1 v1) (h2 : classifies pts inside b2 v2)
    (t1 : v1 = -1 ∨ v1 = 0 ∨ v1 = 1) (t2 : v2 = -1 ∨ v2 = 0 ∨ v2 = 1)
    (p : P) (hp1 : pts b1 p) (hp2 : pts b2 p) (n1 : v1 ≠ 0) (n2 : v2 ≠ 0) : v1 = v2 := by
  rcases t1 with e1 | e1 | e1 <;> rcases t2 with e2 | e2 | e2
  · rw [e1, e2]
  · exact absurd e2 n2
  · exact absurd (h2.1 e2 p hp2) (h1.2 e1 p hp1)
  · exact absurd e1 n1
  · exact absurd e1 n1
  · exact absurd e1 n1
  · exact absurd (h1.1 e1 p hp1) (h2.2 e2 p hp2)
  · exact absurd e2 n2
  · rw [e1, e2]

mutual
/-- The memo-free classification of a shape is sound for the point set of the
shape when the Surface classifier has values in {-1, 0, +1} and is sound for
the point sets of the surfaces. -/
theorem reference_test_box_member
    (hval : ∀ (s : S) (b : Box), surface_test_box s b = -1 ∨ surface_test_box s b = 0 ∨
      surface_test_box s b = 1)
    (hsurf : ∀ (s : S) (b : Box), classifies pts (surf s) b (surface_test_box s b)) :
    ∀ (s : Shape S) (b : Box) (v : Int), reference_test_box surface_test_box s b = some v →
      (v = -1 ∨ v = 0 ∨ v = 1) ∧ classifies pts (member surf s) b v
  | .mk opc surface args lb lbr stats, b, v, h => by
    cases opc
    · -- INTERSECTION
      cases hvs : reference_test_box_args surface_test_box args b with
      | none =>
        rw [reference_test_box, hvs] at h
        simp at h
      | some vs =>
        obtain ⟨hter, hall, hneg, -, -⟩ := reference_test_box_args_member hval hsurf args b vs hvs
        rw [reference_test_box_of_intersection surface_test_box _ _ _ _ _ _ _ hvs,
          geom_intersection_stride_one] at h
        have hv := Option.some.inj h
        have hm : ∀ p, member surf (.mk INTERSECTION surface args lb lbr stats) p
            = member_all surf args p := by
          intro p
          rw [member]
          simp
        by_cases c1 : (-1 : Int) ∈ vs
        · rw [if_pos c1] at hv
          subst hv
          refine ⟨Or.inl rfl, fun e => absurd e (by decide), fun _ p hp => ?_⟩
          rw [hm]
          exact hneg c1 p hp
        · rw [if_neg c1] at hv
          by_cases c0 : (0 : Int) ∈ vs
          · rw [if_pos c0] at hv
            subst hv
            exact ⟨Or.inr (Or.inl rfl), fun e => absurd e (by decide),
              fun e => absurd e (by decide)⟩
          · rw [if_neg c0] at hv
            subst hv
            refine ⟨Or.inr (Or.inr rfl), fun _ p hp => ?_, fun e => absurd e (by decide)⟩
            rw [hm]
            refine hall (fun x hx => ?_) p hp
            rcases hter x hx with e | e | e
            · exact absurd (e ▸ hx) c1
            · exact absurd (e ▸ hx) c0
            · exact e
    · -- COMPLEMENT
      rw [reference_test_box_of_final surface_test_box COMPLEMENT _ _ _ _ _ _ rfl, if_pos rfl]
        at h
      have hv := Option.some.inj h
      have hm : ∀ p, member surf (.mk COMPLEMENT surface args lb lbr stats) p
          = ¬ surf surface p := by
        intro p
        rw [member]
        simp
      subst hv
      refine ⟨?_, fun e p hp => ?_, fun e p hp => ?_⟩
      · rcases hval surface b with e | e | e <;> simp [geom_complement, e]
      · rw [hm]
        exact (hsurf surface b).2 (by simp only [geom_complement] at e; omega) p hp
      · rw [hm]
        exact not_not.2 ((hsurf surface b).1 (by simp only [geom_complement] at e; omega) p hp)
    · -- EMPTY
      rw [reference_test_box] at h
      simp at h
      subst h
      refine ⟨Or.inl rfl, fun e => absurd e (by decide), fun _ p _ => ?_⟩
      rw [member]
      simp
    · -- UNION
      cases hvs : reference_test_box_args surface_test_box args b with
      | none =>
        rw [reference_test_box, hvs] at h
        simp at h
      | some vs =>
        obtain ⟨hter, -, -, hone, hnone⟩ :=
          reference_test_box_args_member hval hsurf args b vs hvs
        rw [reference_test_box_of_union surface_test_box _ _ _ _ _ _ _ hvs,
          geom_union_stride_one] at h
        have hv := Option.some.inj h
        have hm : ∀ p, member surf (.mk UNION surface args lb lbr stats) p
            = member_any surf args p := by
          intro p
          rw [member]
          simp
        by_cases c1 : (1 : Int) ∈ vs
        · rw [if_pos c1] at hv
          subst hv
          refine ⟨Or.inr (Or.inr rfl), fun _ p hp => ?_, fun e => absurd e (by decide)⟩
          rw [hm]
          exact hone c1 p hp
        · rw [if_neg c1] at hv
          by_cases c0 : (0 : Int) ∈ vs
          · rw [if_pos c0] at hv
            subst hv
            exact ⟨Or.inr (Or.inl rfl), fun e => absurd e (by decide),
              fun e => absurd e (by decide)⟩
          · rw [if_neg c0] at hv
            subst hv
            refine ⟨Or.inl rfl, fun e => absurd e (by decide), fun _ p hp => ?_⟩
            rw [hm]
            refine hnone (fun x hx => ?_) p hp
            rcases hter x hx with e | e | e
            · exact e
            · exact absurd (e ▸ hx) c0
            · exact absurd (e ▸ hx) c1
    · -- IDENTITY
      rw [reference_test_box_of_final surface_test_box IDENTITY _ _ _ _ _ _ rfl,
        if_neg (by decide)] at h
      have hv := Option.some.inj h
      have hm : ∀ p, member surf (.mk IDENTITY surface args lb lbr stats) p
          = surf surface p := by
        intro p
        rw [member]
        simp
      subst hv
      refine ⟨hval surface b, fun e p hp => ?_, fun e p hp => ?_⟩
      · rw [hm]
        exact (hsurf surface b).1 e p hp
      · rw [hm]
        exact (hsurf surface b).2 e p hp
    · -- UNIVERSE
      rw [reference_test_box] at h
      simp at h
      subst h
      refine ⟨Or.inr (Or.inr rfl), fun _ p _ => ?_, fun e => absurd e (by decide)⟩
      rw [member]
      simp
/-- The memo-free classifications of the shapes of a list, against the point
sets of the shapes. -/
theorem reference_test_box_args_member
    (hval : ∀ (s : S) (b : Box), surface_test_box s b = -1 ∨ surface_test_box s b = 0 ∨
      surface_test_box s b = 1)
    (hsurf : ∀ (s : S) (b : Box), classifies pts (surf s) b (surface_test_box s b)) :
    ∀ (l : List (Shape S)) (b : Box) (vs : List Int),
      reference_test_box_args surface_test_box l b = some vs →
      (∀ v ∈ vs, v = -1 ∨ v = 0 ∨ v = 1) ∧
      ((∀ v ∈ vs, v = 1) → ∀ p, pts b p → member_all surf l p) ∧
      ((-1 : Int) ∈ vs → ∀ p, pts b p → ¬ member_all surf l p) ∧
      ((1 : Int) ∈ vs → ∀ p, pts b p → member_any surf l p) ∧
      ((∀ v ∈ vs, v = -1) → ∀ p, pts b p → ¬ member_any surf l p)
  | [], b, vs, h => by
    rw [reference_test_box_args] at h
    cases h
    refine ⟨fun v hv => absurd hv (List.not_mem_nil v), fun _ p _ => ?_,
      fun hv => absurd hv (List.not_mem_nil _), fun hv => absurd hv (List.not_mem_nil _),
      fun _ p _ => ?_⟩
    · rw [member_all]
      trivial
    · rw [member_any]
      exact not_false
  | c :: cs, b, vs, h => by
    rw [reference_test_box_args] at h
    cases hc : reference_test_box surface_test_box c b with
    | none => rw [hc] at h; cases h
    | some v =>
      rw [hc] at h
      simp only at h
      cases hcs : reference_test_box_args surface_test_box cs b with
      | none => rw [hcs] at h; cases h
      | some ws =>
        rw [hcs] at h
        cases h
        obtain ⟨tv, cv⟩ := reference_test_box_member hval hsurf c b v hc
        obtain ⟨tw, hall, hneg, hone, hnone⟩ :=
          reference_test_box_args_member hval hsurf cs b ws hcs
        refine ⟨?_, ?_, ?_, ?_, ?_⟩
        · intro x hx
          rcases List.mem_cons.1 hx with e | e
          · exact e ▸ tv
          · exact tw x e
        · intro h1 p hp
          rw [member_all]
          exact ⟨cv.1 (h1 v (List.mem_cons_self _ _)) p hp,
            hall (fun x hx => h1 x (List.mem_cons_of_mem _ hx)) p hp⟩
        · intro hm p hp
          rw [member_all]
          rintro ⟨m1, m2⟩
          rcases List.mem_cons.1 hm with e | e
          · exact cv.2 e.symm p hp m1
          · exact hneg e p hp m2
        · intro hm p hp
          rw [member_any]
          rcases List.mem_cons.1 hm with e | e
          · exact Or.inl (cv.1 e.symm p hp)
          · exact Or.inr (hone e p hp)
        · intro h1 p hp
          rw [member_any]
          rintro (m1 | m2)
          · exact cv.2 (h1 v (List.mem_cons_self _ _)) p hp m1
          · exact hnone (fun x hx => h1 x (List.mem_cons_of_mem _ hx)) p hp m2
end

/-- The refiner is sound for a point set. From a sound memo state, on a box of
the hierarchy, for a shape whose memo-free classification has values in
{-1, 0, +1} and is sound for the set `inside`: every result of
`shape_ultimate_test_box` leaves a sound memo state and the memo-free values
unchanged, lies in {-1, 0, +1} and is sound for `inside`. The halves of a box
that can be split belong to the hierarchy, share a point and cover the box. -/
theorem shape_ultimate_test_box_classifies (hier : Box → Prop) (inside : P → Prop)
    (min_vol : ℚ)
    (haddr : ∀ b b' : Box, hier b → hier b' → b.subdiv = b'.subdiv → b = b')
    (heq : ∀ (b : Box) (a : Nat), box_is_in b a = 0 → b.subdiv = a)
    (hval : ∀ (s : S) (b : Box), surface_test_box s b = -1 ∨ surface_test_box s b = 0 ∨
      surface_test_box s b = 1)
    (hmono : ∀ (s : S) (b B : Box), hier b → hier B → box_is_in b B.subdiv > 0 →
      (surface_test_box s B = 1 ∨ surface_test_box s B = -1) →
      surface_test_box s b = surface_test_box s B)
    (hsplit : ∀ b : Box, hier b → b.volume > min_vol →
      hier (box_split b BOX_SPLIT_AUTODIR (1 / 2)).1 ∧
      hier (box_split b BOX_SPLIT_AUTODIR (1 / 2)).2 ∧
      (∃ p, pts (box_split b BOX_SPLIT_AUTODIR (1 / 2)).1 p ∧
        pts (box_split b BOX_SPLIT_AUTODIR (1 / 2)).2 p) ∧
      ∀ p, pts b p → pts (box_split b BOX_SPLIT_AUTODIR (1 / 2)).1 p ∨
        pts (box_split b BOX_SPLIT_AUTODIR (1 / 2)).2 p) :
    ∀ (fuel : Nat) (s : Shape S) (b : Box) (t : BoxTest S), hier b →
      memo_sound hier surface_test_box s →
      (∀ (b' : Box) (v : Int), reference_test_box surface_test_box s b' = some v →
        (v = -1 ∨ v = 0 ∨ v = 1) ∧ classifies pts inside b' v) →
      shape_ultimate_test_box surface_test_box box_is_in box_split fuel s b min_vol = some t →
      memo_sound hier surface_test_box t.shape ∧
      (∀ b', reference_test_box surface_test_box t.shape b'
        = reference_test_box surface_test_box s b') ∧
      (t.result = -1 ∨ t.result = 0 ∨ t.result = 1) ∧ classifies pts inside b t.result
  | 0, s, b, t, _, _, _, h => by
    rw [shape_ultimate_test_box] at h
    cases h
  | fuel + 1, s, b, t, hb, hs, href, h => by
    obtain ⟨t0, ht0, hr0, hs0, hp0⟩ := shape_test_box_sound surface_test_box box_is_in hier
      haddr heq hval hmono s b 0 hb hs
    rw [shape_ultimate_test_box, ht0] at h
    simp only at h
    by_cases hc : t0.result = BOX_CAN_INTERSECT_SHAPE ∧ b.volume > min_vol
    · rw [if_pos hc] at h
      obtain ⟨hh1, hh2, ⟨p, hp1, hp2⟩, hcover⟩ := hsplit b hb hc.2
      have href0 : ∀ (b' : Box) (v : Int),
          reference_test_box surface_test_box t0.shape b' = some v →
          (v = -1 ∨ v = 0 ∨ v = 1) ∧ classifies pts inside b' v := by
        intro b' v hv
        rw [hp0 b'] at hv
        exact href b' v hv
      cases h1 : shape_ultimate_test_box surface_test_box box_is_in box_split fuel t0.shape
          (box_split b BOX_SPLIT_AUTODIR (1 / 2)).1 min_vol with
      | none => rw [h1] at h; cases h
      | some t1 =>
        rw [h1] at h
        simp only at h
        obtain ⟨hs1, hq1, ter1, cl1⟩ := shape_ultimate_test_box_classifies hier inside min_vol
          haddr heq hval hmono hsplit fuel t0.shape _ t1 hh1 hs0 href0 h1
        have href1 : ∀ (b' : Box) (v : Int),
            reference_test_box surface_test_box t1.shape b' = some v →
            (v = -1 ∨ v = 0 ∨ v = 1) ∧ classifies pts inside b' v := by
          intro b' v hv
          rw [hq1 b'] at hv
          exact href0 b' v hv
        cases h2 : shape_ultimate_test_box surface_test_box box_is_in box_split fuel t1.shape
            (box_split b BOX_SPLIT_AUTODIR (1 / 2)).2 min_vol with
        | none => rw [h2] at h; cases h
        | some t2 =>
          rw [h2] at h
          simp only at h
          obtain ⟨hs2, hq2, ter2, cl2⟩ := shape_ultimate_test_box_classifies hier inside
            min_vol haddr heq hval hmono hsplit fuel t1.shape _ t2 hh2 hs1 href1 h2
          have hrefs : ∀ b', reference_test_box surface_test_box t2.shape b'
              = reference_test_box surface_test_box s b' := by
            intro b'
            rw [hq2 b', hq1 b', hp0 b']
          by_cases hn : t1.result ≠ BOX_CAN_INTERSECT_SHAPE ∧
              t2.result ≠ BOX_CAN_INTERSECT_SHAPE
          · rw [if_pos hn] at h
            cases h
            have e12 : t1.result = t2.result :=
              classifies_shared_point pts inside _ _ _ _ cl1 cl2 ter1 ter2 p hp1 hp2 hn.1 hn.2
            refine ⟨hs2, hrefs, ter1, fun e q hq => ?_, fun e q hq => ?_⟩
            · rcases hcover q hq with hq1' | hq2'
              · exact cl1.1 e q hq1'
              · exact cl2.1 (e12 ▸ e) q hq2'
            · rcases hcover q hq with hq1' | hq2'
              · exact cl1.2 e q hq1'
              · exact cl2.2 (e12 ▸ e) q hq2'
          · rw [if_neg hn] at h
            cases h
            exact ⟨hs2, hrefs, (href b t0.result hr0).1, (href b t0.result hr0).2⟩
    · rw [if_neg hc] at h
      cases h
      exact ⟨hs0, hp0, (href b t.result hr0).1, (href b t.result hr0).2⟩

/-- C12, with the contract of the Surface made explicit. Let the Surface box
classifier have values in {-1, 0, +1}, be monotone, and be sound for the point
sets `surf` of the surfaces (INSIDE only if every point of the box belongs to
the set, OUTSIDE only if none does); let the boxes be those of one hierarchy
in which the address determines the box, the containment predicate report
equality only for a box and its own address, and the two halves of a box that
can be split belong to the hierarchy, share a point and cover the box; let the
memo state be sound. Whenever `shape_ultimate_test_box` splits a box
(`shape_test_box` gives AMBIGUOUS and the volume exceeds `min_vol`) and
returns, the refiner returned on both halves, and if both results are not
AMBIGUOUS they are equal; hence a returned INSIDE means that both halves were
classified INSIDE, and a returned OUTSIDE that both were classified OUTSIDE. -/
theorem shape_ultimate_test_box_halves_agree (hier : Box → Prop) (min_vol : ℚ)
    (haddr : ∀ b b' : Box, hier b → hier b' → b.subdiv = b'.subdiv → b = b')
    (heq : ∀ (b : Box) (a : Nat), box_is_in b a = 0 → b.subdiv = a)
    (hval : ∀ (s : S) (b : Box), surface_test_box s b = -1 ∨ surface_test_box s b = 0 ∨
      surface_test_box s b = 1)
    (hmono : ∀ (s : S) (b B : Box), hier b → hier B → box_is_in b B.subdiv > 0 →
      (surface_test_box s B = 1 ∨ surface_test_box s B = -1) →
      surface_test_box s b = surface_test_box s B)
    (hsurf : ∀ (s : S) (b : Box), classifies pts (surf s) b (surface_test_box s b))
    (hsplit : ∀ b : Box, hier b → b.volume > min_vol →
      hier (box_split b BOX_SPLIT_AUTODIR (1 / 2)).1 ∧
      hier (box_split b BOX_SPLIT_AUTODIR (1 / 2)).2 ∧
      (∃ p, pts (box_split b BOX_SPLIT_AUTODIR (1 / 2)).1 p ∧
        pts (box_split b BOX_SPLIT_AUTODIR (1 / 2)).2 p) ∧
      ∀ p, pts b p → pts (box_split b BOX_SPLIT_AUTODIR (1 / 2)).1 p ∨
        pts (box_split b BOX_SPLIT_AUTODIR (1 / 2)).2 p)
    (fuel : Nat) (s : Shape S) (box : Box) (hbox : hier box)
    (hs : memo_sound hier surface_test_box s) (t : BoxTest S)
    (ht : shape_test_box surface_test_box box_is_in s box 0 = some t)
    (hsplits : t.result = BOX_CAN_INTERSECT_SHAPE ∧ box.volume > min_vol) (u : BoxTest S)
    (hu : shape_ultimate_test_box surface_test_box box_is_in box_split (fuel + 1) s box min_vol
      = some u) :
    ∃ t1 t2 : BoxTest S,
      shape_ultimate_test_box surface_test_box box_is_in box_split fuel t.shape
        (box_split box BOX_SPLIT_AUTODIR (1 / 2)).1 min_vol = some t1 ∧
      shape_ultimate_test_box surface_test_box box_is_in box_split fuel t1.shape
        (box_split box BOX_SPLIT_AUTODIR (1 / 2)).2 min_vol = some t2 ∧
      ((t1.result ≠ BOX_CAN_INTERSECT_SHAPE ∧ t2.result ≠ BOX_CAN_INTERSECT_SHAPE) →
        t1.result = t2.result) ∧
      (u.result = BOX_INSIDE_SHAPE →
        t1.result = BOX_INSIDE_SHAPE ∧ t2.result = BOX_INSIDE_SHAPE) ∧
      (u.result = BOX_OUTSIDE_SHAPE →
        t1.result = BOX_OUTSIDE_SHAPE ∧ t2.result = BOX_OUTSIDE_SHAPE) := by
  obtain ⟨t0, ht0, -, hs0, hp0⟩ := shape_test_box_sound surface_test_box box_is_in hier
    haddr heq hval hmono s box 0 hbox hs
  have e0 : t0 = t := Option.some.inj (ht0.symm.trans ht)
  subst e0
  obtain ⟨hh1, hh2, ⟨p, hp1, hp2⟩, -⟩ := hsplit box hbox hsplits.2
  have href0 : ∀ (b' : Box) (v : Int),
      reference_test_box surface_test_box t0.shape b' = some v →
      (v = -1 ∨ v = 0 ∨ v = 1) ∧ classifies pts (member surf s) b' v := by
    intro b' v hv
    rw [hp0 b'] at hv
    exact reference_test_box_member surface_test_box pts surf hval hsurf s b' v hv
  rw [shape_ultimate_test_box, ht0] at hu
  simp only at hu
  rw [if_pos hsplits] at hu
  cases h1 : shape_ultimate_test_box surface_test_box box_is_in box_split fuel t0.shape
      (box_split box BOX_SPLIT_AUTODIR (1 / 2)).1 min_vol with
  | none => rw [h1] at hu; cases hu
  | some t1 =>
    rw [h1] at hu
    simp only at hu
    obtain ⟨hs1, hq1, ter1, cl1⟩ := shape_ultimate_test_box_classifies surface_test_box
      box_is_in box_split pts hier (member surf s) min_vol haddr heq hval hmono hsplit fuel
      t0.shape _ t1 hh1 hs0 href0 h1
    have href1 : ∀ (b' : Box) (v : Int),
        reference_test_box surface_test_box t1.shape b' = some v →
        (v = -1 ∨ v = 0 ∨ v = 1) ∧ classifies pts (member surf s) b' v := by
      intro b' v hv
      rw [hq1 b'] at hv
      exact href0 b' v hv
    cases h2 : shape_ultimate_test_box surface_test_box box_is_in box_split fuel t1.shape
        (box_split box BOX_SPLIT_AUTODIR (1 / 2)).2 min_vol with
    | none => rw [h2] at hu; cases hu
    | some t2 =>
      rw [h2] at hu
      simp only at hu
      obtain ⟨-, -, ter2, cl2⟩ := shape_ultimate_test_box_classifies surface_test_box
        box_is_in box_split pts hier (member surf s) min_vol haddr heq hval hmono hsplit fuel
        t1.shape _ t2 hh2 hs1 href1 h2
      have hagree : (t1.result ≠ BOX_CAN_INTERSECT_SHAPE ∧
          t2.result ≠ BOX_CAN_INTERSECT_SHAPE) → t1.result = t2.result := fun hn =>
        classifies_shared_point pts (member surf s) _ _ _ _ cl1 cl2 ter1 ter2 p hp1 hp2
          hn.1 hn.2
      refine ⟨t1, t2, rfl, h2, hagree, ?_, ?_⟩
      · intro hui
        by_cases hn : t1.result ≠ BOX_CAN_INTERSECT_SHAPE ∧
            t2.result ≠ BOX_CAN_INTERSECT_SHAPE
        · rw [if_pos hn] at hu
          cases hu
          exact ⟨hui, (hagree hn) ▸ hui⟩
        · rw [if_neg hn] at hu
          cases hu
          rw [hsplits.1] at hui
          exact absurd hui (by decide)
      · intro huo
        by_cases hn : t1.result ≠ BOX_CAN_INTERSECT_SHAPE ∧
            t2.result ≠ BOX_CAN_INTERSECT_SHAPE
        · rw [if_pos hn] at hu
          cases hu
          exact ⟨huo, (hagree hn) ▸ huo⟩
        · rw [if_neg hn] at hu
          cases hu
          rw [hsplits.1] at huo
          exact absurd huo (by decide)

end HalvesAgree

/-- In the hierarchy of the concrete run the address determines the box. -/
theorem stub_split_hier_address (b b' : Box) (hb : stub_split_hier b)
    (hb' : stub_split_hier b') (h : b.subdiv = b'.subdiv) : b = b' := by
  rcases hb with rfl | rfl | rfl <;> rcases hb' with rfl | rfl | rfl <;>
    first
    | rfl
    | (exfalso; revert h; decide)

/-- The stub `stub_coarse_test_box` gives only 0 and +1. -/
theorem stub_coarse_test_box_values (s : Unit) (b : Box) :
    stub_coarse_test_box s b = -1 ∨ stub_coarse_test_box s b = 0 ∨
      stub_coarse_test_box s b = 1 := by
  unfold stub_coarse_test_box
  split_ifs <;> simp

/-- The stub `stub_coarse_test_box` is monotone on the hierarchy of the run. -/
theorem stub_coarse_test_box_mono (s : Unit) (b B : Box) (hb : stub_split_hier b)
    (hB : stub_split_hier B) (hin : subdiv_box_is_in b B.subdiv > 0)
    (hres : stub_coarse_test_box s B = 1 ∨ stub_coarse_test_box s B = -1) :
    stub_coarse_test_box s b = stub_coarse_test_box s B := by
  cases s
  rcases hb with rfl | rfl | rfl <;> rcases hB with rfl | rfl | rfl <;>
    first
    | rfl
    | (exfalso; revert hin; decide)
    | (exfalso; revert hres; decide)

/-- The stub `stub_coarse_test_box` is sound for the whole space as the point
set of its surface, whatever the points of a box are. -/
theorem stub_coarse_test_box_classifies (s : Unit) (b : Box) :
    classifies stub_points (stub_whole_space s) b
      (stub_coarse_test_box s b) := by
  refine ⟨fun _ _ _ => trivial, fun h => ?_⟩
  unfold stub_coarse_test_box at h
  split_ifs at h

/-- In the hierarchy of the run only the box of address 1 has a volume above
1/2; its halves belong to the hierarchy. With one point in every box the halves
share it and cover the box. -/
theorem stub_split_hier_split (b : Box) (hb : stub_split_hier b) (hv : b.volume > 1 / 2) :
    stub_split_hier (stub_box_split b BOX_SPLIT_AUTODIR (1 / 2)).1 ∧
    stub_split_hier (stub_box_split b BOX_SPLIT_AUTODIR (1 / 2)).2 ∧
    (∃ p, stub_points
        (stub_box_split b BOX_SPLIT_AUTODIR (1 / 2)).1 p ∧
      stub_points (stub_box_split b BOX_SPLIT_AUTODIR (1 / 2)).2 p) ∧
    ∀ p, stub_points b p →
      stub_points (stub_box_split b BOX_SPLIT_AUTODIR (1 / 2)).1 p ∨
      stub_points (stub_box_split b BOX_SPLIT_AUTODIR (1 / 2)).2 p := by
  rcases hb with rfl | rfl | rfl
  · exact ⟨Or.inr (Or.inl rfl), Or.inr (Or.inr rfl), ⟨(), trivial, trivial⟩,
      fun _ _ => Or.inl trivial⟩
  · exfalso
    revert hv
    norm_num [stub_box_split, stub_box]
  · exfalso
    revert hv
    norm_num [stub_box_split, stub_box]

/-- The run of the witness for C12 returns. -/
theorem stub_coarse_refine_some :
    (shape_ultimate_test_box stub_coarse_test_box subdiv_box_is_in stub_box_split 2
      (.mk IDENTITY () [] 0 0 []) (stub_box 1) (1 / 2)).isSome = true := by
  decide!

/-- The values of the run of the witness for C12, in this order: the result of
`shape_test_box` on the box (AMBIGUOUS, so the box is split), the results of
the refiner on the first and on the second half (INSIDE both), and the result
of the refiner on the box (INSIDE). -/
theorem stub_coarse_refine_run :
    (shape_test_box stub_coarse_test_box subdiv_box_is_in
        (.mk IDENTITY () [] 0 0 []) (stub_box 1) 0).bind (fun t =>
      (shape_ultimate_test_box stub_coarse_test_box subdiv_box_is_in stub_box_split 1
          t.shape (stub_box_split (stub_box 1) BOX_SPLIT_AUTODIR (1 / 2)).1 (1 / 2)).bind
        (fun t1 =>
      (shape_ultimate_test_box stub_coarse_test_box subdiv_box_is_in stub_box_split 1
          t1.shape (stub_box_split (stub_box 1) BOX_SPLIT_AUTODIR (1 / 2)).2 (1 / 2)).bind
        (fun t2 =>
      (shape_ultimate_test_box stub_coarse_test_box subdiv_box_is_in stub_box_split 2
          (.mk IDENTITY () [] 0 0 []) (stub_box 1) (1 / 2)).map
        (fun u => (t.result, t1.result, t2.result, u.result)))))
      = some (BOX_CAN_INTERSECT_SHAPE, BOX_INSIDE_SHAPE, BOX_INSIDE_SHAPE, BOX_INSIDE_SHAPE) := by
  decide!

/-- Witness for C12: an IDENTITY node with cleared memo on a surface whose set
is the whole space and whose classifier is AMBIGUOUS on the box of address 1
(volume 1, threshold 1/2) and INSIDE on its halves. -/
theorem shape_ultimate_test_box_halves_agree_witness :
    ∃ t1 t2 : BoxTest Unit,
      shape_ultimate_test_box stub_coarse_test_box subdiv_box_is_in stub_box_split 1
        (Shape.mk IDENTITY () [] 1 0 [])
        (stub_box_split (stub_box 1) BOX_SPLIT_AUTODIR (1 / 2)).1 (1 / 2) = some t1 ∧
      shape_ultimate_test_box stub_coarse_test_box subdiv_box_is_in stub_box_split 1 t1.shape
        (stub_box_split (stub_box 1) BOX_SPLIT_AUTODIR (1 / 2)).2 (1 / 2) = some t2 ∧
      ((t1.result ≠ BOX_CAN_INTERSECT_SHAPE ∧ t2.result ≠ BOX_CAN_INTERSECT_SHAPE) →
        t1.result = t2.result) ∧
      (((shape_ultimate_test_box stub_coarse_test_box subdiv_box_is_in stub_box_split 2
          (.mk IDENTITY () [] 0 0 []) (stub_box 1) (1 / 2)).get
            stub_coarse_refine_some).result = BOX_INSIDE_SHAPE →
        t1.result = BOX_INSIDE_SHAPE ∧ t2.result = BOX_INSIDE_SHAPE) ∧
      (((shape_ultimate_test_box stub_coarse_test_box subdiv_box_is_in stub_box_split 2
          (.mk IDENTITY () [] 0 0 []) (stub_box 1) (1 / 2)).get
            stub_coarse_refine_some).result = BOX_OUTSIDE_SHAPE →
        t1.result = BOX_OUTSIDE_SHAPE ∧ t2.result = BOX_OUTSIDE_SHAPE) :=
  shape_ultimate_test_box_halves_agree stub_coarse_test_box subdiv_box_is_in stub_box_split
    stub_points stub_whole_space
    stub_split_hier (1 / 2) stub_split_hier_address subdiv_box_is_in_eq_zero
    stub_coarse_test_box_values stub_coarse_test_box_mono stub_coarse_test_box_classifies
    stub_split_hier_split 1 (.mk IDENTITY () [] 0 0 []) (stub_box 1) (Or.inl rfl)
    (by rw [memo_sound, memo_sound_args]; exact ⟨Or.inl rfl, trivial⟩)
    ⟨0, .mk IDENTITY () [] 1 0 [], [((), stub_box 1)]⟩ rfl
    ⟨rfl, by norm_num [stub_box]⟩ _ (Option.some_get _).symm

end Mckit
